import Mathlib

/-!
# vziolimit: per-beancounter I/O throttling (kernel/ve/vziolimit.c)

A shallow embedding of the throttling engine of `kernel/ve/vziolimit.c`.

Machine integers are modelled as `Nat` / `Int` with explicit wrap-around:

* `unsigned` (speed, burst, latency, remain) is a `Nat` below `2^32`;
* `unsigned long` (jiffies, timeouts) is a `Nat` below `2^64` (x86_64);
* `long long` (the balance `state`, charges) is an `Int` in `[-2^63, 2^63)`,
  arithmetic on it wraps (the kernel is built with `-fno-strict-overflow`).

`HZ` (ticks per second) is a build-time constant of the kernel that is not part of
the sources at hand; it is a parameter of every function that uses it.
-/

namespace Vziolimit

/-! ## Machine arithmetic -/

/-- Number of values of a 32-bit `unsigned`. -/
def U32_MOD : Nat := 2 ^ 32

/-- Number of values of a 64-bit `unsigned long` / `u64`. -/
def U64_MOD : Nat := 2 ^ 64

/-- Conversion of an integer to `unsigned` (32 bit): reduction modulo `2^32`, by cases
on the sign (`Int.negSucc n` is `-(n + 1)`). -/
@[irreducible]
def toU32 (x : Int) : Nat :=
  match x with
  | Int.ofNat n => n % 4294967296
  | Int.negSucc n => 4294967295 - n % 4294967296

/-- Conversion of an integer to `u64` / `unsigned long`: reduction modulo `2^64`, by
cases on the sign (`Int.negSucc n` is `-(n + 1)`). -/
@[irreducible]
def toU64 (x : Int) : Nat :=
  match x with
  | Int.ofNat n => n % 18446744073709551616
  | Int.negSucc n => 18446744073709551615 - n % 18446744073709551616

/-- Conversion of an integer to `long long` / `long`: two's complement wrap-around
into `[-2^63, 2^63)`. -/
@[irreducible]
def wrapS64 (x : Int) : Int :=
  if toU64 x < 9223372036854775808 then Int.ofNat (toU64 x)
  else Int.negSucc (18446744073709551615 - toU64 x)

/-- Unsigned 64-bit subtraction `a - b`. -/
@[irreducible]
def subU64 (a b : Nat) : Nat := toU64 ((a : Int) - (b : Int))

/-- Unsigned 64-bit addition `a + b`. -/
@[irreducible]
def addU64 (a b : Nat) : Nat := (a + b) % 18446744073709551616

/-- `time_after(a, b)` of `linux/jiffies.h`: `(long)(b - a) < 0`. -/
@[irreducible]
def time_after (a b : Nat) : Bool := decide (wrapS64 (subU64 b a) < 0)

/-- `time_before(a, b)` of `linux/jiffies.h`: `time_after(b, a)`. -/
@[irreducible]
def time_before (a b : Nat) : Bool := time_after b a

/-! ## struct throttle -/

/-- `struct throttle`. -/
structure throttle where
  /-- maximum speed, units per second (`unsigned`) -/
  speed : Nat
  /-- maximum burst, units (`unsigned`) -/
  burst : Nat
  /-- maximum wait delay, jiffies (`unsigned`) -/
  latency : Nat
  /-- units/HZ (`unsigned`) -/
  remain : Nat
  /-- wall time in jiffies (`unsigned long`) -/
  time : Nat
  /-- current state in units (`long long`) -/
  state : Int
  deriving DecidableEq

/-- The fields of a `struct throttle` hold values of their C types. -/
def throttle.wf (th : throttle) : Prop :=
  th.speed < 2 ^ 32 ∧ th.burst < 2 ^ 32 ∧ th.latency < 2 ^ 32 ∧ th.remain < 2 ^ 32 ∧
  th.time < 2 ^ 64 ∧ -(2 ^ 63 : Int) ≤ th.state ∧ th.state < 2 ^ 63

instance (th : throttle) : Decidable th.wf := by
  unfold throttle.wf; exact inferInstance

/-- `throttle_setup`: set throttler initial state.  `jiffies` is the current time,
`msecs_to_jiffies` the kernel's conversion (its `unsigned long` result is truncated
to the `unsigned` field). -/
def throttle_setup (msecs_to_jiffies : Nat → Nat) (jiffies : Nat) (th : throttle)
    (speed burst latency : Nat) : throttle :=
  { th with
    time := jiffies
    burst := burst
    latency := toU32 (msecs_to_jiffies latency)
    speed := speed }

/-- The replenish step of `throttle_charge` (the `if (time_before(th->time, now))`
block). -/
@[irreducible]
def throttle_replenish (HZ now : Nat) (th : throttle) (charge : Int) : throttle :=
  let ceiling : Int := wrapS64 (charge + th.burst)
  if time_before th.time now then
    -- step = (u64)th->speed * (now - th->time); do_div(step, HZ);
    let step : Int := wrapS64 (((th.speed * subU64 now th.time) % 18446744073709551616 / HZ : Nat))
    -- step += th->state;
    let step : Int := wrapS64 (step + th.state)
    let state : Int :=
      if step ≤ ceiling then step
      else if th.state < ceiling then ceiling
      else th.state
    { th with state := state, time := now }
  else th

/-- The debt step of `throttle_charge` (the `if (charge > th->state)` block).
`do_div` by `th->speed` is a division by zero when the speed is `0`: the result
is then `none`. -/
@[irreducible]
def throttle_debt (HZ now : Nat) (th : throttle) (charge : Int) : Option throttle :=
  if charge > th.state then
    if th.speed = 0 then none
    else
      -- charge -= th->state;
      let charge : Int := wrapS64 (charge - th.state)
      -- step = charge * HZ;
      let step : Int := wrapS64 (charge * HZ)
      -- if (do_div(step, th->speed)) step++;
      let rem : Nat := toU64 step % th.speed
      let step : Int := wrapS64 ((toU64 step / th.speed : Nat))
      let step : Int := if rem ≠ 0 then wrapS64 (step + 1) else step
      -- time = th->time + step;
      let time : Nat := addU64 th.time (toU64 step)
      -- limit maximum latency
      let time : Nat := if time_after time (addU64 now th.latency) then addU64 now th.latency else time
      -- step *= th->speed; step += th->remain;
      let step : Int := wrapS64 (step * th.speed)
      let step : Int := wrapS64 (step + th.remain)
      -- th->remain = do_div(step, HZ);
      let remain : Nat := toU64 step % HZ
      let step : Int := wrapS64 ((toU64 step / HZ : Nat))
      -- th->state += step;
      some { th with time := time, remain := remain, state := wrapS64 (th.state + step) }
  else some th

/-- `throttle_charge`, externally serialized; `now` is the value of `jiffies`. -/
@[irreducible]
def throttle_charge (HZ now : Nat) (th : throttle) (charge : Int) : Option throttle :=
  throttle_debt HZ now (throttle_replenish HZ now th charge) charge

/-- `throttle_timeout`, lockless. -/
@[irreducible]
def throttle_timeout (th : throttle) (now : Nat) : Nat :=
  if th.speed = 0 then 0
  else
    let time := th.time
    if time_before time now then 0
    else min (subU64 time now) th.latency

/-! ## struct iolimit and the beancounter -/

/-- `struct iolimit`: the two buckets of a beancounter (the wait queue `wq` carries no
data). -/
structure iolimit where
  /-- bandwidth bucket, bytes per second -/
  throttle : throttle
  /-- iops bucket, operations per second -/
  iops : Vziolimit.throttle
  deriving DecidableEq

/-- The part of `struct user_beancounter` that the throttle reads and writes. -/
structure user_beancounter where
  /-- `ub->private_data2`: the `struct iolimit`, `none` for `NULL` -/
  private_data2 : Option iolimit
  /-- bit `UB_DIRTY_EXCEEDED` of `ub->ub_flags` -/
  dirty_exceeded : Bool
  /-- value of `ub_stat_get(ub, dirty_pages)`: approximate per-cpu counter -/
  dirty_pages : Nat
  /-- value of `ub_stat_get_exact(ub, dirty_pages)`: exact aggregated counter -/
  dirty_pages_exact : Nat
  deriving DecidableEq

/-- Build-time constants of the kernel used by the throttle; none of them is defined
in the sources at hand. -/
structure kconfig where
  /-- ticks per second -/
  HZ : Nat
  /-- log2 of the page size -/
  PAGE_SHIFT : Nat
  /-- per-cpu batch of the beancounter statistics -/
  UB_STAT_BATCH : Nat
  /-- value of `num_possible_cpus()` -/
  num_possible_cpus : Nat
  deriving DecidableEq

/-- The calling task, `current`. -/
structure task where
  /-- `current->flags & PF_SWAPWRITE` -/
  PF_SWAPWRITE : Bool
  /-- `fatal_signal_pending(current)` -/
  fatal_signal_pending : Bool
  deriving DecidableEq

/-- What a sleeping task finds when `schedule_timeout` returns. -/
structure wakeup where
  /-- return value of `schedule_timeout`: the time left -/
  left : Nat
  /-- `fatal_signal_pending(current)` at that moment -/
  fatal : Bool
  /-- value of `jiffies` at that moment -/
  jiffies : Nat
  /-- the buckets at that moment (other tasks may have charged them meanwhile) -/
  iolimit : iolimit
  deriving DecidableEq

/-- Outcome of `iolimit_wait`. -/
structure wait_result where
  /-- the timeouts passed to `schedule_timeout`, in order -/
  sleeps : List Nat
  /-- `true` when the loop was left, `false` when the task is still asleep at the end
  of the given wake-ups -/
  returned : Bool
  deriving DecidableEq

/-- `iolimit_wait`: the `do ... while (timeout)` loop, run against the wake-ups the
environment delivers. -/
def iolimit_wait (timeout : Nat) : List wakeup → wait_result
  | [] => { sleeps := [timeout], returned := false }
  | w :: ws =>
    -- timeout = schedule_timeout(timeout);
    let left := w.left
    if w.fatal then { sleeps := [timeout], returned := true }
    else
      let left := if left ≠ 0 then min (throttle_timeout w.iolimit.throttle w.jiffies) left else left
      if left ≠ 0 then
        let r := iolimit_wait left ws
        { sleeps := timeout :: r.sleeps, returned := r.returned }
      else { sleeps := [timeout], returned := true }

/-- `iolimit_timeout`: both buckets are probed at one common `now`. -/
def iolimit_timeout (iolimit : iolimit) (jiffies : Nat) : Nat :=
  let now := jiffies
  max (throttle_timeout iolimit.throttle now) (throttle_timeout iolimit.iops now)

/-- `iolimit_balance_dirty`, in a run where nothing else writes the bucket between its
lock-free tests and `spin_lock_irqsave` (`iolimit_balance_dirty_interleaved` is the general
run).  The result is the beancounter afterwards (its `private_data2` is the given
`iolimit`, updated); `none` stands for a division by zero inside `throttle_charge`. -/
def iolimit_balance_dirty (cfg : kconfig) (jiffies : Nat) (iolimit : iolimit)
    (ub : user_beancounter) (write_chunk : Nat) : Option user_beancounter :=
  let th := iolimit.throttle
  if th.speed = 0 then some ub
  else
    -- state = th->state >> PAGE_SHIFT;
    let state : Nat := toU64 (th.state / (2 ^ cfg.PAGE_SHIFT : Nat))
    let dirty : Nat := addU64 ub.dirty_pages write_chunk
    -- protect against ub-stat percpu drift
    if addU64 dirty (cfg.UB_STAT_BATCH * cfg.num_possible_cpus) < state then some ub
    else
      -- get exact value for smooth throttling
      let dirty : Nat := addU64 ub.dirty_pages_exact write_chunk
      if dirty < state then some ub
      else
        -- precharge dirty pages
        match throttle_charge cfg.HZ jiffies th (wrapS64 ((dirty : Int) * (2 ^ cfg.PAGE_SHIFT : Nat))) with
        | none => none
        | some th' =>
          some { ub with
                 private_data2 := some { iolimit with throttle := th' }
                 dirty_exceeded := true }

/-- `iolimit_balance_dirty` with other CPUs running between its lock-free part and
`spin_lock_irqsave(&ub->ub_lock)`.  `iolimit` is the state seen by the lock-free reads
(`th->speed`, `th->state >> PAGE_SHIFT`); `locked` is the `struct iolimit` found once
`ub_lock` is held: `VZCTL_SET_IOLIMIT` and the cgroup files write it under that lock and may
have run in between.  `throttle_charge` reads and updates `locked`; the function does not
test `th->speed` again under the lock.  With `locked = iolimit` this is
`iolimit_balance_dirty`. -/
def iolimit_balance_dirty_interleaved (cfg : kconfig) (jiffies : Nat) (iolimit : iolimit)
    (ub : user_beancounter) (write_chunk : Nat) (locked : Vziolimit.iolimit) :
    Option user_beancounter :=
  let th := iolimit.throttle
  if th.speed = 0 then some ub
  else
    -- state = th->state >> PAGE_SHIFT;
    let state : Nat := toU64 (th.state / (2 ^ cfg.PAGE_SHIFT : Nat))
    let dirty : Nat := addU64 ub.dirty_pages write_chunk
    -- protect against ub-stat percpu drift
    if addU64 dirty (cfg.UB_STAT_BATCH * cfg.num_possible_cpus) < state then some ub
    else
      -- get exact value for smooth throttling
      let dirty : Nat := addU64 ub.dirty_pages_exact write_chunk
      if dirty < state then some ub
      else
        -- spin_lock_irqsave(&ub->ub_lock, flags); precharge dirty pages
        match throttle_charge cfg.HZ jiffies locked.throttle
            (wrapS64 ((dirty : Int) * (2 ^ cfg.PAGE_SHIFT : Nat))) with
        | none => none
        | some th' =>
          some { ub with
                 private_data2 := some { locked with throttle := th' }
                 dirty_exceeded := true }

/-- Commands of the `VITYPE_IO` notifier chain that `iolimit_virtinfo` looks at. -/
inductive virtinfo_cmd where
  | VIRTINFO_IO_ACCOUNT
  | VIRTINFO_IO_FUSE_REQ
  | VIRTINFO_IO_OP_ACCOUNT
  | VIRTINFO_IO_PREPARE
  | VIRTINFO_IO_JOURNAL
  | VIRTINFO_IO_READAHEAD
  | VIRTINFO_IO_CONGESTION
  | VIRTINFO_IO_BALANCE_DIRTY
  /-- any other command value -/
  | other
  deriving DecidableEq

/-- `NOTIFY_OK` of `linux/notifier.h`. -/
def NOTIFY_OK : Int := 1

/-- `NOTIFY_FAIL` of `linux/virtinfo.h`: `NOTIFY_STOP_MASK | NOTIFY_BAD`. -/
def NOTIFY_FAIL : Int := 32770

/-- Outcome of one call of `iolimit_virtinfo`. -/
structure virtinfo_result where
  /-- the returned notifier code -/
  ret : Int
  /-- the beancounter afterwards -/
  ub : user_beancounter
  /-- the wait performed by the call, if it entered `iolimit_wait` -/
  wait : Option wait_result
  deriving DecidableEq

/-- `iolimit_virtinfo`.  `arg` is the hook argument read as the command reads it
(`*(size_t *)arg` for `VIRTINFO_IO_ACCOUNT`, `(unsigned long)arg` for
`VIRTINFO_IO_BALANCE_DIRTY`; the request queue passed with the other commands is only
traced).  `wakes` are the wake-ups delivered if the call sleeps.  `none` stands for a
division by zero inside `throttle_charge`. -/
def iolimit_virtinfo (cfg : kconfig) (jiffies : Nat) (current : task) (wakes : List wakeup)
    (ub : user_beancounter) (cmd : virtinfo_cmd) (arg : Nat) (old_ret : Int) :
    Option virtinfo_result :=
  match ub.private_data2 with
  | none => some { ret := old_ret, ub := ub, wait := none }
  | some iolimit =>
    if iolimit.throttle.speed = 0 ∧ iolimit.iops.speed = 0 then
      some { ret := NOTIFY_OK, ub := ub, wait := none }
    else
      match cmd with
      | .VIRTINFO_IO_ACCOUNT =>
        if iolimit.throttle.speed = 0 then some { ret := NOTIFY_OK, ub := ub, wait := none }
        else
          -- long long charge = *(size_t*)arg;
          let charge : Int := wrapS64 arg
          match throttle_charge cfg.HZ jiffies iolimit.throttle charge with
          | none => none
          | some th =>
            -- iolimit->throttle.state -= charge;
            let th := { th with state := wrapS64 (th.state - charge) }
            some { ret := NOTIFY_OK
                   ub := { ub with private_data2 := some { iolimit with throttle := th } }
                   wait := none }
      | .VIRTINFO_IO_FUSE_REQ | .VIRTINFO_IO_OP_ACCOUNT =>
        if iolimit.iops.speed = 0 then some { ret := NOTIFY_OK, ub := ub, wait := none }
        else
          match throttle_charge cfg.HZ jiffies iolimit.iops 1 with
          | none => none
          | some th =>
            -- Writeback doesn't use last iops from stash
            let th :=
              if th.state > 1 ∨ ¬ current.PF_SWAPWRITE then
                { th with state := wrapS64 (th.state - 1) }
              else th
            some { ret := NOTIFY_OK
                   ub := { ub with private_data2 := some { iolimit with iops := th } }
                   wait := none }
      | .VIRTINFO_IO_PREPARE | .VIRTINFO_IO_JOURNAL =>
        if current.PF_SWAPWRITE then some { ret := NOTIFY_OK, ub := ub, wait := none }
        else
          let timeout := iolimit_timeout iolimit jiffies
          if timeout ≠ 0 ∧ ¬ current.fatal_signal_pending then
            some { ret := NOTIFY_OK, ub := ub, wait := some (iolimit_wait timeout wakes) }
          else some { ret := NOTIFY_OK, ub := ub, wait := none }
      | .VIRTINFO_IO_READAHEAD | .VIRTINFO_IO_CONGESTION =>
        let timeout := iolimit_timeout iolimit jiffies
        if timeout ≠ 0 then some { ret := NOTIFY_FAIL, ub := ub, wait := none }
        else some { ret := NOTIFY_OK, ub := ub, wait := none }
      | .VIRTINFO_IO_BALANCE_DIRTY =>
        match iolimit_balance_dirty cfg jiffies iolimit ub arg with
        | none => none
        | some ub' => some { ret := NOTIFY_OK, ub := ub', wait := none }
      | .other => some { ret := NOTIFY_OK, ub := ub, wait := none }

/-! ## The administrative interface (ioctl) -/

/-- `struct iolimit_state` of `linux/vziolimit.h`: four `unsigned int` fields. -/
structure iolimit_state where
  /-- beancounter id -/
  id : Nat
  /-- units per second -/
  speed : Nat
  /-- units -/
  burst : Nat
  /-- milliseconds -/
  latency : Nat
  deriving DecidableEq

/-- `throttle_state`: snapshot of a bucket's configuration.  `jiffies_to_msecs` is the
kernel's conversion; it returns an `unsigned int`. -/
def throttle_state (jiffies_to_msecs : Nat → Nat) (th : throttle) (state : iolimit_state) :
    iolimit_state :=
  { state with
    speed := th.speed
    burst := th.burst
    latency := toU32 (jiffies_to_msecs th.latency) }

/-- A `struct iolimit` fresh from `kzalloc`: all fields zero. -/
def iolimit_zero : iolimit :=
  { throttle := { speed := 0, burst := 0, latency := 0, remain := 0, time := 0, state := 0 }
    iops := { speed := 0, burst := 0, latency := 0, remain := 0, time := 0, state := 0 } }

/-- `iolimit_get`: the beancounter's `struct iolimit`, allocated on first use;
`kzalloc_ok = false` is an allocation failure.  Returns the pointer (`none` for `NULL`)
and the beancounter afterwards. -/
def iolimit_get (kzalloc_ok : Bool) (ub : user_beancounter) :
    Option iolimit × user_beancounter :=
  match ub.private_data2 with
  | some iolimit => (some iolimit, ub)
  | none =>
    if kzalloc_ok then (some iolimit_zero, { ub with private_data2 := some iolimit_zero })
    else (none, ub)

/-- The ioctl commands of `linux/vziolimit.h`. -/
inductive ioctl_cmd where
  | VZCTL_SET_IOLIMIT
  | VZCTL_GET_IOLIMIT
  | VZCTL_SET_IOPSLIMIT
  | VZCTL_GET_IOPSLIMIT
  /-- any other command value -/
  | other
  deriving DecidableEq

/-- `ENOENT` -/
def ENOENT : Int := 2
/-- `ENXIO` -/
def ENXIO : Int := 6
/-- `ENOMEM` -/
def ENOMEM : Int := 12
/-- `EFAULT` -/
def EFAULT : Int := 14
/-- `ENOTTY` -/
def ENOTTY : Int := 25

/-- Outcome of one call of `iolimit_ioctl`. -/
structure ioctl_result where
  /-- the returned error code, `0` for success -/
  err : Int
  /-- the beancounter afterwards (`none` when none was looked up or found) -/
  ub : Option user_beancounter
  /-- the `struct iolimit_state` written back to user memory, if any -/
  out : Option iolimit_state
  deriving DecidableEq

/-- `iolimit_ioctl`.  `user_in` is what `copy_from_user` reads (`none` for a fault),
`ub` the result of `get_beancounter_byuid(state.id, 0)`, `copy_to_user_ok` whether
writing the answer back succeeds. -/
def iolimit_ioctl (msecs_to_jiffies jiffies_to_msecs : Nat → Nat) (jiffies : Nat)
    (kzalloc_ok copy_to_user_ok : Bool) (ub : Option user_beancounter)
    (cmd : ioctl_cmd) (user_in : Option iolimit_state) : ioctl_result :=
  if cmd = .other then { err := -ENOTTY, ub := none, out := none }
  else
    match user_in with
    | none => { err := -EFAULT, ub := none, out := none }
    | some state =>
      match ub with
      | none => { err := -ENOENT, ub := none, out := none }
      | some ub =>
        match cmd with
        | .VZCTL_SET_IOLIMIT =>
          match iolimit_get kzalloc_ok ub with
          | (none, ub) => { err := -ENOMEM, ub := some ub, out := none }
          | (some iolimit, ub) =>
            let th := throttle_setup msecs_to_jiffies jiffies iolimit.throttle
                        state.speed state.burst state.latency
            { err := 0
              ub := some { ub with private_data2 := some { iolimit with throttle := th } }
              out := none }
        | .VZCTL_SET_IOPSLIMIT =>
          match iolimit_get kzalloc_ok ub with
          | (none, ub) => { err := -ENOMEM, ub := some ub, out := none }
          | (some iolimit, ub) =>
            let th := throttle_setup msecs_to_jiffies jiffies iolimit.iops
                        state.speed state.burst state.latency
            { err := 0
              ub := some { ub with private_data2 := some { iolimit with iops := th } }
              out := none }
        | .VZCTL_GET_IOLIMIT =>
          match ub.private_data2 with
          | none => { err := - ENXIO, ub := some ub, out := none }
          | some iolimit =>
            let state := throttle_state jiffies_to_msecs iolimit.throttle state
            if copy_to_user_ok then { err := 0, ub := some ub, out := some state }
            else { err := -EFAULT, ub := some ub, out := none }
        | .VZCTL_GET_IOPSLIMIT =>
          match ub.private_data2 with
          | none => { err := - ENXIO, ub := some ub, out := none }
          | some iolimit =>
            let state := throttle_state jiffies_to_msecs iolimit.iops state
            if copy_to_user_ok then { err := 0, ub := some ub, out := some state }
            else { err := -EFAULT, ub := some ub, out := none }
        | .other => { err := -ENOTTY, ub := some ub, out := none }

/-! ## The cgroup files -/

/-- The values of `cft->private` of the six cgroup files (`vziolimit_cftypes`). -/
inductive cgroup_file where
  | UB_CGROUP_IOLIMIT_SPEED
  | UB_CGROUP_IOLIMIT_BURST
  | UB_CGROUP_IOLIMIT_LATENCY
  | UB_CGROUP_IOPSLIMIT_SPEED
  | UB_CGROUP_IOPSLIMIT_BURST
  | UB_CGROUP_IOPSLIMIT_LATENCY
  deriving DecidableEq

/-- `iolimit_cgroup_read`: the `unsigned long` value that is printed. -/
def iolimit_cgroup_read (ub : user_beancounter) (cft : cgroup_file) : Nat :=
  match ub.private_data2 with
  | none => 0
  | some iolimit =>
    match cft with
    | .UB_CGROUP_IOLIMIT_SPEED => iolimit.throttle.speed
    | .UB_CGROUP_IOLIMIT_BURST => iolimit.throttle.burst
    | .UB_CGROUP_IOLIMIT_LATENCY => iolimit.throttle.latency
    | .UB_CGROUP_IOPSLIMIT_SPEED => iolimit.iops.speed
    | .UB_CGROUP_IOPSLIMIT_BURST => iolimit.iops.burst
    | .UB_CGROUP_IOPSLIMIT_LATENCY => iolimit.iops.latency

/-- `iolimit_cgroup_write_u64`: returns the error code and the beancounter afterwards.
`val` is the `u64` written; it is stored into an `unsigned` field. -/
def iolimit_cgroup_write_u64 (jiffies : Nat) (kzalloc_ok : Bool) (ub : user_beancounter)
    (cft : cgroup_file) (val : Nat) : Int × user_beancounter :=
  match iolimit_get kzalloc_ok ub with
  | (none, ub) => (-ENOMEM, ub)
  | (some iolimit, ub) =>
    -- iolimit->throttle.time = iolimit->iops.time = jiffies;
    let iolimit : Vziolimit.iolimit :=
      { throttle := { iolimit.throttle with time := jiffies }
        iops := { iolimit.iops with time := jiffies } }
    let iolimit : Vziolimit.iolimit :=
      match cft with
      | .UB_CGROUP_IOLIMIT_SPEED =>
        { iolimit with throttle := { iolimit.throttle with speed := toU32 val } }
      | .UB_CGROUP_IOPSLIMIT_SPEED =>
        { iolimit with iops := { iolimit.iops with speed := toU32 val } }
      | .UB_CGROUP_IOLIMIT_BURST =>
        { iolimit with throttle := { iolimit.throttle with burst := toU32 val } }
      | .UB_CGROUP_IOLIMIT_LATENCY =>
        { iolimit with throttle := { iolimit.throttle with latency := toU32 val } }
      | .UB_CGROUP_IOPSLIMIT_BURST =>
        { iolimit with iops := { iolimit.iops with burst := toU32 val } }
      | .UB_CGROUP_IOPSLIMIT_LATENCY =>
        { iolimit with iops := { iolimit.iops with latency := toU32 val } }
    (0, { ub with private_data2 := some iolimit })

/-- Modelled from the spec: `MAX_JIFFY_OFFSET` of `linux/jiffies.h`, which is not among
the sources at hand: `(LONG_MAX >> 1) - 1`. -/
def MAX_JIFFY_OFFSET : Nat := 4611686018427387902

/-- Modelled from the spec: `msecs_to_jiffies` (`kernel/time.c`) is not among the sources
at hand, and the spec only says that the latency is given in milliseconds and kept in
ticks.  This is the kernel's definition for a tick rate `HZ` that divides 1000:
a value that is negative as an `int` means an infinite timeout, any other is divided by
the length of a tick, rounding up. -/
def msecs_to_jiffies (HZ m : Nat) : Nat :=
  if 2147483648 ≤ m % 4294967296 then MAX_JIFFY_OFFSET
  else (m % 4294967296 + 1000 / HZ - 1) / (1000 / HZ)

/-- Modelled from the spec: `jiffies_to_msecs` (`kernel/time.c`) is not among the sources
at hand.  This is the kernel's definition for a tick rate `HZ` that divides 1000:
the number of ticks times the length of a tick, as an `unsigned int`. -/
def jiffies_to_msecs (HZ j : Nat) : Nat := (1000 / HZ * j) % 4294967296

/-! ## Auxiliary definitions used in the statements -/

/-- Ceiling of `n / d` the way `throttle_charge` computes it: `do_div`, then one more
when the remainder is not zero. -/
@[irreducible]
def div_round_up (n d : Nat) : Nat := if n % d ≠ 0 then n / d + 1 else n / d

/-- Sufficient bounds for `throttle_charge HZ now th charge` to run without 64-bit
overflow: clock and `now` are less than half the jiffies range apart, charge and balance
are below `2^61` in magnitude, and neither the tokens generated since the clock nor the
the shortfall in units of `1/HZ` reach `2^61`. -/
def charge_in_range (HZ now : Nat) (th : throttle) (charge : Int) : Prop :=
  0 < HZ ∧ th.wf ∧ now < 2 ^ 64 ∧ th.time < now + 2 ^ 63 ∧ now ≤ th.time + 2 ^ 63 ∧
  0 ≤ charge ∧ charge < 2 ^ 61 ∧ -(2 ^ 61 : Int) < th.state ∧ th.state < 2 ^ 61 ∧
  th.speed * (now - th.time) < 2 ^ 61 ∧ (charge - th.state) * HZ < 2 ^ 61

instance (HZ now : Nat) (th : throttle) (charge : Int) :
    Decidable (charge_in_range HZ now th charge) := by
  unfold charge_in_range; exact inferInstance

/-- The accounting hook applied to one bucket: `throttle_charge` followed by
`th->state -= charge`, as `iolimit_virtinfo` does for `VIRTINFO_IO_ACCOUNT` (and, with charge
1, for a non-exempt `VIRTINFO_IO_OP_ACCOUNT`). -/
@[irreducible]
def throttle_account (HZ now : Nat) (th : throttle) (charge : Int) : Option throttle :=
  match throttle_charge HZ now th charge with
  | none => none
  | some th => some { th with state := wrapS64 (th.state - charge) }

/-- A run of accounting steps on one bucket at a single instant `now`: one
`throttle_account` per amount of the list, in order. -/
def account_run (HZ now : Nat) : throttle → List Nat → Option throttle
  | th, [] => some th
  | th, c :: cs =>
    match throttle_account HZ now th c with
    | none => none
    | some th' => account_run HZ now th' cs

/-- A run of `VIRTINFO_IO_OP_ACCOUNT` notifications from one task: one call of
`iolimit_virtinfo` per entry of the list, which gives the value of `jiffies` at that call. -/
def iops_charge_run (cfg : kconfig) (current : task) :
    user_beancounter → List Nat → Option user_beancounter
  | ub, [] => some ub
  | ub, t :: ts =>
    match iolimit_virtinfo cfg t current [] ub .VIRTINFO_IO_OP_ACCOUNT 0 0 with
    | none => none
    | some r => iops_charge_run cfg current r.ub ts

/-- The quantity an accounting step conserves, in units of `1/HZ`: tokens held
(`HZ * balance + remainder`) minus the tokens the clock stands for (`speed * clock`). -/
def carry_level (HZ : Nat) (th : throttle) : Int :=
  (HZ : Int) * th.state + th.remain - (th.speed : Int) * th.time

/-- Conditions under which an accounting step of `bytes` at `now` is exact: no 64-bit
overflow, speed > 0, remainder below `HZ`, no time elapsed since the clock (`now ≤ clock`), no
jiffies wrap-around, and the latency clamp not reached. -/
def account_exact_range (HZ now : Nat) (th : throttle) (bytes : Nat) : Prop :=
  charge_in_range HZ now th bytes ∧ th.speed ≠ 0 ∧ th.remain < HZ ∧ now ≤ th.time ∧
  now + th.latency < 2 ^ 64 ∧
  (th.state < bytes →
    th.time + div_round_up (((bytes : Int) - th.state).toNat * HZ) th.speed ≤ now + th.latency)

instance (HZ now : Nat) (th : throttle) (bytes : Nat) :
    Decidable (account_exact_range HZ now th bytes) := by
  unfold account_exact_range; exact inferInstance

/-! ## kernel/bc/vm_pages.c -/

/-- The part of `struct user_beancounter` that `do_ub_tmpfs_respages_sub` reads and writes,
together with the log of its `uncharge_warn` calls. -/
structure tmpfs_beancounter where
  /-- `ub->ub_tmpfs_respages` (`unsigned long`) -/
  ub_tmpfs_respages : Nat
  /-- the pairs `(size, held)` passed to `uncharge_warn`, oldest first -/
  uncharge_warn : List (Nat × Nat)
  deriving DecidableEq

/-- `do_ub_tmpfs_respages_sub`. -/
def do_ub_tmpfs_respages_sub (ub : tmpfs_beancounter) (size : Nat) : tmpfs_beancounter :=
  -- catch possible overflow
  if ub.ub_tmpfs_respages < size then
    -- uncharge_warn(ub, "tmpfs_respages", size, ub->ub_tmpfs_respages);
    -- size = ub->ub_tmpfs_respages;
    { ub_tmpfs_respages := subU64 ub.ub_tmpfs_respages ub.ub_tmpfs_respages
      uncharge_warn := ub.uncharge_warn ++ [(size, ub.ub_tmpfs_respages)] }
  else
    { ub with ub_tmpfs_respages := subU64 ub.ub_tmpfs_respages size }

/-! ## Helper lemmas on machine arithmetic -/

theorem toU64_eq (x : Int) : toU64 x = (x % 18446744073709551616).toNat := by
  unfold toU64
  cases x with
  | ofNat n => simp only [Int.ofNat_eq_coe]; omega
  | negSucc n => simp only [Int.negSucc_eq]; omega

theorem toU32_eq (x : Int) : toU32 x = (x % 4294967296).toNat := by
  unfold toU32
  cases x with
  | ofNat n => simp only [Int.ofNat_eq_coe]; omega
  | negSucc n => simp only [Int.negSucc_eq]; omega

theorem wrapS64_eq (x : Int) :
    wrapS64 x = (x + 9223372036854775808) % 18446744073709551616 - 9223372036854775808 := by
  unfold wrapS64
  rw [toU64_eq]
  split_ifs with h
  · simp only [Int.ofNat_eq_coe]; omega
  · simp only [Int.negSucc_eq]; omega

theorem toU64_natCast (n : Nat) : toU64 (n : Int) = n % 18446744073709551616 := by
  rw [toU64_eq]; omega

theorem toU64_wrapS64 (x : Int) : toU64 (wrapS64 x) = toU64 x := by
  rw [toU64_eq, toU64_eq, wrapS64_eq]; omega

theorem wrapS64_of_range (x : Int) (h1 : -9223372036854775808 ≤ x)
    (h2 : x < 9223372036854775808) : wrapS64 x = x := by
  rw [wrapS64_eq]; omega

theorem subU64_of_le (a b : Nat) (h : b ≤ a) (ha : a < 18446744073709551616) :
    subU64 a b = a - b := by
  unfold subU64; rw [toU64_eq]; omega

theorem time_before_iff (a b : Nat) (ha : a < 18446744073709551616)
    (hb : b < 18446744073709551616) :
    time_before a b = true ↔
      (a < b ∧ b - a ≤ 9223372036854775808) ∨ (b < a ∧ 9223372036854775808 ≤ a - b) := by
  unfold time_before time_after subU64
  simp only [decide_eq_true_eq, wrapS64_eq, toU64_eq]
  omega

theorem throttle_replenish_before (HZ now : Nat) (th : throttle) (charge : Int)
    (hb : time_before th.time now = true) :
    throttle_replenish HZ now th charge =
      { th with
        state :=
          if wrapS64 (wrapS64 (((th.speed * subU64 now th.time) % 18446744073709551616 / HZ : Nat)) + th.state)
              ≤ wrapS64 (charge + th.burst)
          then wrapS64 (wrapS64 (((th.speed * subU64 now th.time) % 18446744073709551616 / HZ : Nat)) + th.state)
          else if th.state < wrapS64 (charge + th.burst) then wrapS64 (charge + th.burst)
          else th.state
        time := now } := by
  unfold throttle_replenish
  rw [if_pos hb]

theorem throttle_replenish_not_before (HZ now : Nat) (th : throttle) (charge : Int)
    (hb : time_before th.time now = false) :
    throttle_replenish HZ now th charge = th := by
  unfold throttle_replenish
  rw [hb]
  rfl
theorem toU64_wrap_add (x y : Int) : toU64 (wrapS64 (wrapS64 x + y)) = toU64 (x + y) := by
  simp only [toU64_eq, wrapS64_eq]; omega

theorem time_before_false_of_le (a b : Nat) (ha : a < 18446744073709551616)
    (hb : b < 18446744073709551616) (h : b ≤ a) (h2 : a < b + 9223372036854775808) :
    time_before a b = false := by
  rw [Bool.eq_false_iff]; intro h'; rw [time_before_iff a b ha hb] at h'; omega

theorem time_before_true_of_lt (a b : Nat) (ha : a < 18446744073709551616)
    (hb : b < 18446744073709551616) (h : a < b) (h2 : b ≤ a + 9223372036854775808) :
    time_before a b = true := by
  rw [time_before_iff a b ha hb]; omega

/-- In range, the replenish step keeps the configuration and the remainder, moves the clock to
`max clock now`, never lowers the balance and adds at most the tokens generated. -/
theorem throttle_replenish_spec (HZ now : Nat) (th : throttle) (charge : Int)
    (h : charge_in_range HZ now th charge) :
    ∃ s1 : Int,
      throttle_replenish HZ now th charge = { th with time := max th.time now, state := s1 } ∧
      th.state ≤ s1 ∧
      s1 * HZ ≤ th.state * HZ + (th.speed * (now - th.time) : Nat) ∧
      s1 ≤ th.state + ((th.speed * (now - th.time) / HZ : Nat) : Int) ∧
      (th.time < now → s1 ≤ max th.state (charge + th.burst)) ∧
      (now ≤ th.time → s1 = th.state) := by
  unfold charge_in_range throttle.wf at h
  obtain ⟨hHZ, hwf, hnow, hnear1, hnear2, hc0, hc1, hs0, hs1, hgen, hdef⟩ := h
  obtain ⟨w1, w2, w3, w4, w5, w6, w7⟩ := hwf
  clear hdef
  by_cases hlt : th.time < now
  · have hb : time_before th.time now = true :=
      time_before_true_of_lt _ _ (by omega) (by omega) hlt (by omega)
    rw [throttle_replenish_before _ _ _ _ hb]
    have hsub : subU64 now th.time = now - th.time :=
      subU64_of_le _ _ (by omega) (by omega)
    rw [hsub]
    have hmax : max th.time now = now := by omega
    rw [hmax]
    clear hmax hsub hb
    obtain ⟨P, hP⟩ : ∃ P, P = th.speed * (now - th.time) := ⟨_, rfl⟩
    rw [← hP] at hgen ⊢
    clear hP
    have hPm : P % 18446744073709551616 = P := by omega
    rw [hPm]
    have hG1 : P / HZ ≤ P := Nat.div_le_self _ _
    have hG2 : P / HZ * HZ ≤ P := Nat.div_mul_le_self _ _
    obtain ⟨G, hG⟩ : ∃ G, G = P / HZ := ⟨_, rfl⟩
    rw [← hG] at hG1 hG2 ⊢
    clear hG hPm
    rw [wrapS64_of_range (G : Int) (by omega) (by omega),
      wrapS64_of_range ((G : Int) + th.state) (by omega) (by omega),
      wrapS64_of_range (charge + (th.burst : Int)) (by omega) (by omega)]
    have hH : (0 : Int) ≤ (HZ : Int) := by omega
    have hG3 : ((G : Int) + th.state) * HZ ≤ th.state * HZ + (P : Int) := by
      have : ((G * HZ : Nat) : Int) ≤ (P : Int) := by exact_mod_cast hG2
      push_cast at this
      nlinarith
    clear hG2
    refine ⟨_, rfl, ?_, ?_, ?_, ?_, ?_⟩
    · clear hG3
      split_ifs <;> omega
    · split_ifs with h1 h2
      · exact hG3
      · have : charge + (th.burst : Int) ≤ (G : Int) + th.state := by omega
        nlinarith
      · have : (0:Int) ≤ (P : Int) := by omega
        linarith
    · clear hG3
      split_ifs <;> omega
    · intro _
      clear hG3
      rw [max_def]
      split_ifs <;> omega
    · intro h
      omega
  · have hb : time_before th.time now = false :=
      time_before_false_of_le _ _ (by omega) (by omega) (by omega) (by omega)
    rw [throttle_replenish_not_before _ _ _ _ hb]
    have hmax : max th.time now = th.time := by omega
    have h0 : now - th.time = 0 := by omega
    rw [h0, hmax]
    refine ⟨th.state, rfl, le_refl _, ?_, ?_, ?_, ?_⟩
    · simp
    · simp
    · intro h; omega
    · intro _; rfl

theorem div_round_up_mul (n d : Nat) (hd : 0 < d) :
    n ≤ div_round_up n d * d ∧ div_round_up n d * d < n + d := by
  unfold div_round_up
  have h1 := Nat.div_add_mod n d
  have h2 := Nat.mod_lt n hd
  have h3 : d * (n / d) = n / d * d := Nat.mul_comm _ _
  split_ifs with h
  · rw [Nat.add_mul]; omega
  · omega

theorem div_round_up_le (n d : Nat) (hd : 0 < d) : div_round_up n d ≤ n := by
  unfold div_round_up
  have h1 := Nat.div_add_mod n d
  have h2 := Nat.mod_lt n hd
  have hq : n / d ≤ n := Nat.div_le_self _ _
  split_ifs with h
  · rcases Nat.lt_or_ge 1 d with h3 | h3
    · have : n / d * 2 ≤ d * (n / d) := by
        rw [Nat.mul_comm]; exact Nat.mul_le_mul_right _ h3
      omega
    · have : d = 1 := by omega
      subst this
      exact absurd (Nat.mod_one n) h
  · exact hq

theorem div_round_up_eq (n d : Nat) (hd : 0 < d) : div_round_up n d = (n + d - 1) / d := by
  obtain ⟨h1, h2⟩ := div_round_up_mul n d hd
  symm
  apply Nat.div_eq_of_lt_le
  · rw [Nat.mul_comm] at h2 ⊢; rw [Nat.mul_comm] at h1; omega
  · rw [Nat.mul_comm] at h1; rw [Nat.succ_mul, Nat.mul_comm]; omega

theorem div_round_up_pos (n d : Nat) (hd : 0 < d) (hn : 0 < n) : 0 < div_round_up n d := by
  obtain ⟨h1, _⟩ := div_round_up_mul n d hd
  rcases Nat.eq_zero_or_pos (div_round_up n d) with h | h
  · rw [h] at h1; omega
  · exact h

/-- The debt step in closed form, when nothing overflows: `d` is the deficit. -/
theorem throttle_debt_eq (HZ now : Nat) (th : throttle) (charge : Int) (d : Nat)
    (hHZ : 0 < HZ) (hs : th.speed ≠ 0) (hs32 : th.speed < 2 ^ 32) (hr32 : th.remain < 2 ^ 32)
    (hd : charge - th.state = d) (hd0 : 0 < d) (hov : d * HZ < 2 ^ 62)
    (hst : -(2 ^ 63 : Int) ≤ th.state) (hch : charge < 2 ^ 62) :
    throttle_debt HZ now th charge =
      some { th with
             time := if time_after (addU64 th.time (div_round_up (d * HZ) th.speed))
                          (addU64 now th.latency)
                     then addU64 now th.latency
                     else addU64 th.time (div_round_up (d * HZ) th.speed)
             remain := (div_round_up (d * HZ) th.speed * th.speed + th.remain) % HZ
             state := th.state + ((div_round_up (d * HZ) th.speed * th.speed + th.remain) / HZ : Nat) } := by
  have hgt : charge > th.state := by omega
  have hsp : 0 < th.speed := Nat.pos_of_ne_zero hs
  obtain ⟨hm1, hm2⟩ := div_round_up_mul (d * HZ) th.speed hsp
  have hle := div_round_up_le (d * HZ) th.speed hsp
  have hdN : d ≤ d * HZ := Nat.le_mul_of_pos_right d hHZ
  unfold throttle_debt
  rw [if_pos hgt, if_neg hs]
  simp only [hd]
  have e2 : (d : Int) * (HZ : Int) = ((d * HZ : Nat) : Int) := by push_cast; ring
  rw [wrapS64_of_range (d : Int) (by omega) (by omega), e2]
  clear e2
  obtain ⟨N, hN⟩ : ∃ N, N = d * HZ := ⟨_, rfl⟩
  rw [← hN] at hov hm1 hm2 hle hdN ⊢
  have e3 : toU64 (wrapS64 (N : Int)) = N := by
    rw [toU64_wrapS64, toU64_natCast]; omega
  rw [e3]
  clear e3
  have e4 : (if N % th.speed ≠ 0 then wrapS64 (wrapS64 ((N / th.speed : Nat) : Int) + 1)
              else wrapS64 ((N / th.speed : Nat) : Int)) = (div_round_up N th.speed : Int) := by
    have hq : N / th.speed ≤ N := Nat.div_le_self _ _
    unfold div_round_up at hle ⊢
    clear hm1 hm2 hN
    generalize N / th.speed = q at *
    split_ifs with h
    · rw [if_pos h] at hle
      rw [wrapS64_of_range (q : Int) (by omega) (by omega)]
      push_cast
      apply wrapS64_of_range <;> omega
    · apply wrapS64_of_range <;> omega
  rw [e4]
  clear e4
  obtain ⟨S, hS⟩ : ∃ S, S = div_round_up N th.speed := ⟨_, rfl⟩
  rw [← hS] at hm1 hm2 hle ⊢
  have e5 : toU64 (S : Int) = S := by
    rw [toU64_natCast]; omega
  rw [e5]
  clear e5
  obtain ⟨T, hT⟩ : ∃ T, T = S * th.speed + th.remain := ⟨_, rfl⟩
  have e6 : toU64 (wrapS64 (wrapS64 ((S : Int) * (th.speed : Int)) + (th.remain : Int))) = T := by
    rw [toU64_wrap_add]
    have : (S : Int) * (th.speed : Int) + (th.remain : Int) = ((T : Nat) : Int) := by
      rw [hT]; push_cast; ring
    rw [this, toU64_natCast]; omega
  rw [e6, ← hT]
  clear e6
  have hq2 : T / HZ ≤ T := Nat.div_le_self _ _
  have hq3 : T / HZ < d + 8589934592 := by
    apply Nat.div_lt_of_lt_mul
    have h1 : 8589934592 ≤ HZ * 8589934592 := Nat.le_mul_of_pos_left _ hHZ
    rw [Nat.mul_add, Nat.mul_comm HZ d]
    omega
  obtain ⟨Q, hQ⟩ : ∃ Q, Q = T / HZ := ⟨_, rfl⟩
  rw [← hQ] at hq2 hq3 ⊢
  clear hQ hT hS hN hm1 hm2
  rw [wrapS64_of_range (Q : Int) (by omega) (by omega),
    wrapS64_of_range (th.state + (Q : Int)) (by omega) (by omega)]

theorem time_after_iff (a b : Nat) (ha : a < 18446744073709551616)
    (hb : b < 18446744073709551616) :
    time_after a b = true ↔
      (b < a ∧ a - b ≤ 9223372036854775808) ∨ (a < b ∧ 9223372036854775808 ≤ b - a) := by
  have h := time_before_iff b a hb ha
  unfold time_before at h
  exact h

theorem addU64_lt (a b : Nat) : addU64 a b < 18446744073709551616 := by
  unfold addU64; omega

theorem addU64_cases (a b : Nat) (ha : a < 18446744073709551616)
    (hb : b < 18446744073709551616) :
    addU64 a b = a + b ∨ addU64 a b + 18446744073709551616 = a + b := by
  unfold addU64; omega

theorem clamp_eq (now L time S : Nat) (h1 : now ≤ time) (h2 : time ≤ now + L)
    (h3 : now + L < 18446744073709551616) (hL : L < 4294967296)
    (hS : S < 4611686018427387904) :
    (if time_after (addU64 time S) (addU64 now L) then addU64 now L else addU64 time S)
      = min (time + S) (now + L) := by
  have hA : addU64 now L = now + L := by unfold addU64; omega
  have hB := addU64_cases time S (by omega) (by omega)
  have hC := time_after_iff (addU64 time S) (addU64 now L) (addU64_lt _ _) (addU64_lt _ _)
  have hB' := addU64_lt time S
  rw [hA] at hC ⊢
  generalize addU64 time S = w at *
  rw [Nat.min_def]
  by_cases hc : time_after w (now + L) = true
  · rw [if_pos hc]
    rw [hC] at hc
    split_ifs <;> omega
  · rw [if_neg hc]
    rw [hC] at hc
    split_ifs <;> omega

theorem offset_from_now (now t m : Nat) (hnow : now < 18446744073709551616)
    (ht : t < 18446744073709551616) (hm : m < 4611686018427387904)
    (h : t = now + m ∨ t + 18446744073709551616 = now + m) :
    time_before t now = false ∧ subU64 t now = m := by
  have hT := time_before_iff t now ht hnow
  constructor
  · rw [Bool.eq_false_iff, ne_eq, hT]; omega
  · unfold subU64; rw [toU64_eq]; omega

theorem clamp_from_now (now L S : Nat) (hnow : now < 18446744073709551616)
    (hL : L < 4294967296) (hS : S < 4611686018427387904) :
    time_before (if time_after (addU64 now S) (addU64 now L) then addU64 now L else addU64 now S)
        now = false ∧
    subU64 (if time_after (addU64 now S) (addU64 now L) then addU64 now L else addU64 now S) now
      = min S L := by
  have hA := addU64_cases now L hnow (by omega)
  have hB := addU64_cases now S hnow (by omega)
  have hC := time_after_iff (addU64 now S) (addU64 now L) (addU64_lt _ _) (addU64_lt _ _)
  have hA' := addU64_lt now L
  have hB' := addU64_lt now S
  generalize addU64 now S = w at *
  generalize addU64 now L = v at *
  by_cases hSL : L < S
  · have hc : time_after w v = true := by rw [hC]; omega
    rw [if_pos hc, Nat.min_eq_right (by omega)]
    exact offset_from_now now v L hnow hA' (by omega) hA
  · have hc : ¬ time_after w v = true := by rw [hC]; omega
    rw [if_neg hc, Nat.min_eq_left (by omega)]
    exact offset_from_now now w S hnow hB' hS hB

theorem throttle_timeout_eq (th : throttle) (now : Nat) (hs : th.speed ≠ 0)
    (hb : time_before th.time now = false) :
    throttle_timeout th now = min (subU64 th.time now) th.latency := by
  unfold throttle_timeout
  rw [if_neg hs]
  simp only [hb, Bool.false_eq_true, if_false]

theorem throttle_debt_of_le (HZ now : Nat) (th : throttle) (charge : Int)
    (h : charge ≤ th.state) : throttle_debt HZ now th charge = some th := by
  unfold throttle_debt
  rw [if_neg (by omega)]

/-- `throttle_charge` in closed form, when nothing overflows: `s1` is the balance left by the
replenish step. -/
theorem throttle_charge_spec (HZ now : Nat) (th : throttle) (charge : Int)
    (h : charge_in_range HZ now th charge) (hs : th.speed ≠ 0) :
    ∃ s1 : Int,
      throttle_replenish HZ now th charge = { th with time := max th.time now, state := s1 } ∧
      th.state ≤ s1 ∧
      s1 * HZ ≤ th.state * HZ + (th.speed * (now - th.time) : Nat) ∧
      s1 ≤ th.state + ((th.speed * (now - th.time) / HZ : Nat) : Int) ∧
      (now ≤ th.time → s1 = th.state) ∧
      (charge ≤ s1 →
        throttle_charge HZ now th charge = some { th with time := max th.time now, state := s1 }) ∧
      (s1 < charge → ∃ d : Nat, (d : Int) = charge - s1 ∧ 0 < d ∧ d * HZ < 2 ^ 61 ∧
        throttle_charge HZ now th charge =
          some { th with
                 time := if time_after (addU64 (max th.time now) (div_round_up (d * HZ) th.speed))
                              (addU64 now th.latency)
                         then addU64 now th.latency
                         else addU64 (max th.time now) (div_round_up (d * HZ) th.speed)
                 remain := (div_round_up (d * HZ) th.speed * th.speed + th.remain) % HZ
                 state := s1 + ((div_round_up (d * HZ) th.speed * th.speed + th.remain) / HZ : Nat) }) := by
  obtain ⟨s1, hrep, r6, r7, r8, -, r9⟩ := throttle_replenish_spec HZ now th charge h
  unfold charge_in_range throttle.wf at h
  obtain ⟨hHZ, ⟨w1, w2, w3, w4, w5, w6, w7⟩, hnow, hnear1, hnear2, hc0, hc1, hs0, hs1, hgen, hdef⟩ := h
  refine ⟨s1, hrep, r6, r7, r8, r9, ?_, ?_⟩
  · intro hle
    unfold throttle_charge
    rw [hrep]
    exact throttle_debt_of_le _ _ _ _ hle
  · intro hlt
    obtain ⟨d, hd⟩ : ∃ d : Nat, (d : Int) = charge - s1 := ⟨(charge - s1).toNat, by omega⟩
    have hd0 : 0 < d := by omega
    have hdH : d * HZ < 2 ^ 61 := by
      have h1 : ((d * HZ : Nat) : Int) ≤ (charge - th.state) * HZ := by
        push_cast
        rw [hd]
        apply mul_le_mul_of_nonneg_right (by omega) (by omega)
      have h2 : ((d * HZ : Nat) : Int) < 2 ^ 61 := lt_of_le_of_lt h1 hdef
      exact_mod_cast h2
    refine ⟨d, hd, hd0, hdH, ?_⟩
    unfold throttle_charge
    rw [hrep]
    clear r7 hdef hgen
    have hG : (th.speed * (now - th.time) / HZ : Nat) ≤ th.speed * (now - th.time) :=
      Nat.div_le_self _ _
    rw [throttle_debt_eq HZ now { th with time := max th.time now, state := s1 } charge d hHZ hs
      w1 w4 hd.symm hd0 (by omega) (by show -(2 ^ 63 : Int) ≤ s1; omega) (by omega)]

/-- C1. `throttle_timeout` returns 0 whenever `speed == 0`, whatever the clock and the latency
are; and, clock and `now` being less than half the jiffies range apart (wrap-around aside), it
returns 0 if `speed == 0` or `clock ≤ now`, and `min (clock - now) latency` otherwise. -/
theorem throttle_timeout_spec (th : throttle) (now : Nat) :
    (th.speed = 0 → throttle_timeout th now = 0) ∧
    (th.time < 2 ^ 64 → now < 2 ^ 64 → th.time ≤ now + 2 ^ 63 - 1 → now ≤ th.time + 2 ^ 63 →
      throttle_timeout th now =
        if th.speed = 0 ∨ th.time ≤ now then 0 else min (th.time - now) th.latency) := by
  refine ⟨fun h => by unfold throttle_timeout; rw [if_pos h], ?_⟩
  intro htime hnow hnear1 hnear2
  have hb := time_before_iff th.time now (by omega) (by omega)
  by_cases hs : th.speed = 0
  · unfold throttle_timeout
    simp [hs]
  · simp only [hs, false_or]
    by_cases hle : th.time ≤ now
    · rw [if_pos hle]
      by_cases hlt : th.time < now
      · have hbt : time_before th.time now = true := hb.mpr (Or.inl ⟨hlt, by omega⟩)
        unfold throttle_timeout
        simp [hbt]
      · have hbf : time_before th.time now = false := by
          rw [Bool.eq_false_iff]; intro h; rw [hb] at h; omega
        rw [throttle_timeout_eq th now hs hbf, subU64_of_le _ _ (by omega) (by omega)]
        have : th.time - now = 0 := by omega
        rw [this]
        simp
    · rw [if_neg hle]
      have hbf : time_before th.time now = false := by
        rw [Bool.eq_false_iff]; intro h; rw [hb] at h; omega
      rw [throttle_timeout_eq th now hs hbf, subU64_of_le _ _ (by omega) (by omega)]

/-- C1 on a bucket whose clock is 800 ticks ahead with a latency bound of 500 ticks: the
timeout is 500; with speed 0 it is 0. -/
theorem throttle_timeout_spec_witness :
    throttle_timeout ⟨0, 0, 500, 0, 2000, 0⟩ 1200 = 0 ∧
    throttle_timeout ⟨1000, 0, 500, 0, 2000, 0⟩ 1200 = 500 :=
  ⟨(throttle_timeout_spec ⟨0, 0, 500, 0, 2000, 0⟩ 1200).1 rfl,
   (throttle_timeout_spec ⟨1000, 0, 500, 0, 2000, 0⟩ 1200).2 (by decide) (by decide) (by decide)
     (by decide)⟩

theorem charge_in_range_fresh (HZ now : Nat) (th : throttle) (amount : Nat)
    (hHZ : 0 < HZ) (hwf : th.wf) (hnow : now < 2 ^ 64)
    (hbal : th.state = 0) (hclock : th.time = now) (hov : amount * HZ < 2 ^ 61) :
    charge_in_range HZ now th amount := by
  unfold charge_in_range
  have h1 : amount ≤ amount * HZ := Nat.le_mul_of_pos_right _ hHZ
  have h2 : ((amount : Int) - th.state) * HZ < 2 ^ 61 := by
    rw [hbal, sub_zero]
    exact_mod_cast hov
  have h3 : th.speed * (now - th.time) < 2 ^ 61 := by
    rw [hclock, Nat.sub_self, Nat.mul_zero]; norm_num
  refine ⟨hHZ, hwf, hnow, by omega, by omega, by omega, by omega, by omega, by omega, h3, h2⟩

/-- C2. For a freshly set-up bucket (speed > 0, balance 0, remainder 0, clock = now) and every
amount (no 64-bit overflow in `amount * HZ`), the wait reported by `throttle_timeout now` right after
`throttle_charge amount` at the same instant is `min (ceil (amount * HZ / speed)) latency`, hence
never more than the latency bound. -/
theorem charge_fresh_wait (HZ now : Nat) (th : throttle) (amount : Nat)
    (hHZ : 0 < HZ) (hwf : th.wf) (hnow : now < 2 ^ 64) (hs : 0 < th.speed)
    (hbal : th.state = 0) (_hrem : th.remain = 0) (hclock : th.time = now)
    (hov : amount * HZ < 2 ^ 61) :
    ∃ th', throttle_charge HZ now th amount = some th' ∧
      throttle_timeout th' now = min ((amount * HZ + th.speed - 1) / th.speed) th.latency ∧
      throttle_timeout th' now ≤ th.latency := by
  have hr := charge_in_range_fresh HZ now th amount hHZ hwf hnow hbal hclock hov
  have hs' : th.speed ≠ 0 := by omega
  obtain ⟨s1, -, -, -, -, r9, hle, hgt⟩ := throttle_charge_spec HZ now th amount hr hs'
  have hs1 : s1 = 0 := by rw [r9 (by omega), hbal]
  subst hs1
  have hmax : max th.time now = now := by rw [hclock]; exact max_self _
  rw [hmax] at hle hgt
  have hL : th.latency < 4294967296 := hwf.2.2.1
  rw [← div_round_up_eq _ _ hs]
  have key : ∀ th' : throttle, th'.speed = th.speed → th'.latency = th.latency →
      time_before th'.time now = false →
      subU64 th'.time now = min (div_round_up (amount * HZ) th.speed) th.latency →
      throttle_timeout th' now = min (div_round_up (amount * HZ) th.speed) th.latency ∧
      throttle_timeout th' now ≤ th.latency := by
    intro th' e1 e2 e3 e4
    have : throttle_timeout th' now = min (div_round_up (amount * HZ) th.speed) th.latency := by
      rw [throttle_timeout_eq th' now (by rw [e1]; exact hs') e3, e4, e2]
      simp
    exact ⟨this, by rw [this]; exact min_le_right _ _⟩
  rcases Nat.eq_zero_or_pos amount with h0 | hpos
  · subst h0
    refine ⟨_, hle (by simp), ?_⟩
    have hz : div_round_up (0 * HZ) th.speed = 0 := by
      have := div_round_up_le (0 * HZ) th.speed hs
      omega
    refine key _ rfl rfl ?_ ?_
    · show time_before now now = false
      exact time_before_false_of_le _ _ (by omega) (by omega) (le_refl _) (by omega)
    · rw [hz]
      show subU64 now now = _
      rw [subU64_of_le _ _ (le_refl _) (by omega)]
      simp
  · obtain ⟨d, hd, hd0, hdH, hch⟩ := hgt (by exact_mod_cast hpos)
    have hda : d = amount := by omega
    subst hda
    refine ⟨_, hch, ?_⟩
    have hS : div_round_up (d * HZ) th.speed < 4611686018427387904 := by
      have := div_round_up_le (d * HZ) th.speed hs
      omega
    obtain ⟨c1, c2⟩ := clamp_from_now now th.latency _ (by omega) hL hS
    exact key _ rfl rfl c1 c2
/-- C2 at speed 1000, burst 1000, latency 1000 ticks (1000 ms at HZ = 1000): charging 2000 gives a
wait of 1000 ticks, not 2000. -/
theorem charge_fresh_wait_witness :
    ∃ th', throttle_charge 1000 0 ⟨1000, 1000, 1000, 0, 0, 0⟩ (2000 : Nat) = some th' ∧
      throttle_timeout th' 0 = min ((2000 * 1000 + 1000 - 1) / 1000) 1000 ∧
      throttle_timeout th' 0 ≤ 1000 :=
  charge_fresh_wait 1000 0 ⟨1000, 1000, 1000, 0, 0, 0⟩ 2000 (by decide) (by decide) (by decide)
    (by decide) rfl rfl rfl (by decide)

/-- C4. For a bucket with speed > 0 that is not in debt at `now` (clock ≤ now, wrap-around aside),
`throttle_charge amount` with `amount` equal to the balance left by the replenish step adds no
debt: afterwards clock ≤ now, `throttle_timeout now = 0`, and the remainder is unchanged. -/
theorem charge_exact_balance (HZ now : Nat) (th : throttle) (amount : Int)
    (hs : th.speed ≠ 0) (hnow : now < 2 ^ 64) (hidle : th.time ≤ now)
    (hnear : now - th.time ≤ 2 ^ 63)
    (hamt : amount = (throttle_replenish HZ now th amount).state) :
    ∃ th', throttle_charge HZ now th amount = some th' ∧
      th'.time ≤ now ∧ throttle_timeout th' now = 0 ∧ th'.remain = th.remain := by
  have hch : throttle_charge HZ now th amount = some (throttle_replenish HZ now th amount) := by
    unfold throttle_charge
    exact throttle_debt_of_le _ _ _ _ hamt.le
  clear hamt
  have hnn : time_before now now = false :=
    time_before_false_of_le _ _ (by omega) (by omega) (le_refl _) (by omega)
  have h0 : subU64 now now = 0 := by
    rw [subU64_of_le _ _ (le_refl _) (by omega)]; omega
  have key : ∀ th' : throttle, th'.speed = th.speed → th'.time = now →
      throttle_timeout th' now = 0 := by
    intro th' e1 e2
    rw [throttle_timeout_eq th' now (by rw [e1]; exact hs) (by rw [e2]; exact hnn), e2, h0]
    simp
  refine ⟨_, hch, ?_⟩
  rcases Nat.lt_or_ge th.time now with hlt | hge
  · have hb : time_before th.time now = true :=
      time_before_true_of_lt _ _ (by omega) (by omega) hlt (by omega)
    rw [throttle_replenish_before _ _ _ _ hb]
    exact ⟨le_refl _, key _ rfl rfl, rfl⟩
  · have he : th.time = now := by omega
    have hb : time_before th.time now = false := by rw [he]; exact hnn
    rw [throttle_replenish_not_before _ _ _ _ hb]
    exact ⟨hidle, key _ rfl he, rfl⟩

/-- C4 at HZ = 1000: a bucket with speed 1000, burst 100 and balance 50 whose clock is 100 ticks
old has 150 available; charging 150 leaves no wait. -/
theorem charge_exact_balance_witness :
    ∃ th', throttle_charge 1000 100 ⟨1000, 100, 1000, 0, 0, 50⟩ 150 = some th' ∧
      th'.time ≤ 100 ∧ throttle_timeout th' 100 = 0 ∧ th'.remain = 0 :=
  charge_exact_balance 1000 100 ⟨1000, 100, 1000, 0, 0, 50⟩ 150 (by decide) (by decide)
    (by decide) (by decide) (by with_unfolding_all decide)

/-- In range, `throttle_charge` returns, keeps the configuration, and leaves a balance of at least
the amount charged. -/
theorem throttle_charge_state_ge (HZ now : Nat) (th : throttle) (charge : Int)
    (h : charge_in_range HZ now th charge) (hs : th.speed ≠ 0) :
    ∃ th', throttle_charge HZ now th charge = some th' ∧
      th'.speed = th.speed ∧ th'.burst = th.burst ∧ th'.latency = th.latency ∧
      charge ≤ th'.state ∧ th'.state < 2 ^ 62 := by
  obtain ⟨s1, -, r6, -, r8, -, hle, hgt⟩ := throttle_charge_spec HZ now th charge h hs
  unfold charge_in_range throttle.wf at h
  obtain ⟨hHZ, ⟨w1, w2, w3, w4, w5, w6, w7⟩, hnow, hnear1, hnear2, hc0, hc1, hs0, hs1, hgen, hdef⟩ := h
  clear hdef
  have hG : (th.speed * (now - th.time) / HZ : Nat) ≤ th.speed * (now - th.time) :=
    Nat.div_le_self _ _
  rcases le_or_lt charge s1 with hc | hc
  · refine ⟨_, hle hc, rfl, rfl, rfl, hc, ?_⟩
    show s1 < 2 ^ 62
    omega
  · obtain ⟨d, hd, hd0, hdH, hch⟩ := hgt hc
    refine ⟨_, hch, rfl, rfl, rfl, ?_, ?_⟩
    · show charge ≤ s1 + _
      have hsp : 0 < th.speed := Nat.pos_of_ne_zero hs
      obtain ⟨hm1, -⟩ := div_round_up_mul (d * HZ) th.speed hsp
      have h1 : d ≤ (div_round_up (d * HZ) th.speed * th.speed + th.remain) / HZ := by
        rw [Nat.le_div_iff_mul_le hHZ]
        omega
      omega
    · show s1 + _ < 2 ^ 62
      have hsp : 0 < th.speed := Nat.pos_of_ne_zero hs
      obtain ⟨-, hm2⟩ := div_round_up_mul (d * HZ) th.speed hsp
      have h1 : (div_round_up (d * HZ) th.speed * th.speed + th.remain) / HZ < d + 8589934592 := by
        apply Nat.div_lt_of_lt_mul
        have h1 : 8589934592 ≤ HZ * 8589934592 := Nat.le_mul_of_pos_left _ hHZ
        rw [Nat.mul_add, Nat.mul_comm HZ d]
        omega
      omega

theorem nat_max_ne_zero (a b : Nat) : max a b ≠ 0 ↔ (0 < a ∨ 0 < b) := by
  rcases le_total a b with h | h
  · rw [max_eq_right h]; omega
  · rw [max_eq_left h]; omega

/-- C10. For a configured tenant with at least one non-zero speed, the congestion probe
(`VIRTINFO_IO_CONGESTION` / `VIRTINFO_IO_READAHEAD`) returns `NOTIFY_FAIL` if and only if
`throttle_timeout now > 0` for the bandwidth bucket or for the iops bucket, and `NOTIFY_OK`
otherwise; `iolimit_timeout` is the maximum of the two buckets' `throttle_timeout` at one common
`now`; the probe changes no bucket field and does not sleep. -/
theorem congestion_probe (cfg : kconfig) (now : Nat) (current : task) (wakes : List wakeup)
    (ub : user_beancounter) (io : iolimit) (cmd : virtinfo_cmd) (arg : Nat) (old_ret : Int)
    (hio : ub.private_data2 = some io)
    (hsp : io.throttle.speed ≠ 0 ∨ io.iops.speed ≠ 0)
    (hcmd : cmd = .VIRTINFO_IO_CONGESTION ∨ cmd = .VIRTINFO_IO_READAHEAD) :
    iolimit_timeout io now
      = max (throttle_timeout io.throttle now) (throttle_timeout io.iops now) ∧
    ∃ r, iolimit_virtinfo cfg now current wakes ub cmd arg old_ret = some r ∧
      r.ub = ub ∧ r.wait = none ∧
      (r.ret = NOTIFY_FAIL ↔
        0 < throttle_timeout io.throttle now ∨ 0 < throttle_timeout io.iops now) ∧
      (¬ (0 < throttle_timeout io.throttle now ∨ 0 < throttle_timeout io.iops now) →
        r.ret = NOTIFY_OK) := by
  refine ⟨rfl, ?_⟩
  have hboth : ¬ (io.throttle.speed = 0 ∧ io.iops.speed = 0) := by
    rintro ⟨h1, h2⟩; rcases hsp with h | h <;> contradiction
  have hmax : (iolimit_timeout io now ≠ 0) ↔
      (0 < throttle_timeout io.throttle now ∨ 0 < throttle_timeout io.iops now) := by
    exact nat_max_ne_zero _ _
  have hne : NOTIFY_OK ≠ NOTIFY_FAIL := by decide
  by_cases ht : iolimit_timeout io now ≠ 0
  · refine ⟨{ ret := NOTIFY_FAIL, ub := ub, wait := none }, ?_, rfl, rfl, ?_, ?_⟩
    · rcases hcmd with h | h <;> subst h <;>
        (simp only [iolimit_virtinfo, hio, hboth, if_false]; rw [if_pos ht])
    · exact ⟨fun _ => hmax.mp ht, fun _ => rfl⟩
    · intro h; exact absurd (hmax.mp ht) h
  · refine ⟨{ ret := NOTIFY_OK, ub := ub, wait := none }, ?_, rfl, rfl, ?_, ?_⟩
    · rcases hcmd with h | h <;> subst h <;>
        (simp only [iolimit_virtinfo, hio, hboth, if_false]; rw [if_neg ht])
    · exact ⟨fun h => absurd h hne, fun h => absurd (hmax.mpr h) ht⟩
    · intro _; rfl

/-- C10 on a tenant whose bandwidth bucket is 50 ticks in debt: the probe fails. -/
theorem congestion_probe_witness :
    iolimit_timeout ⟨⟨1000, 0, 100, 0, 150, 0⟩, ⟨0, 0, 0, 0, 0, 0⟩⟩ 100
      = max (throttle_timeout ⟨1000, 0, 100, 0, 150, 0⟩ 100)
          (throttle_timeout ⟨0, 0, 0, 0, 0, 0⟩ 100) ∧
    ∃ r, iolimit_virtinfo ⟨1000, 12, 64, 4⟩ 100 ⟨false, false⟩ []
        ⟨some ⟨⟨1000, 0, 100, 0, 150, 0⟩, ⟨0, 0, 0, 0, 0, 0⟩⟩, false, 0, 0⟩
        .VIRTINFO_IO_CONGESTION 0 0 = some r ∧
      r.ub = ⟨some ⟨⟨1000, 0, 100, 0, 150, 0⟩, ⟨0, 0, 0, 0, 0, 0⟩⟩, false, 0, 0⟩ ∧
      r.wait = none ∧
      (r.ret = NOTIFY_FAIL ↔
        0 < throttle_timeout ⟨1000, 0, 100, 0, 150, 0⟩ 100 ∨
          0 < throttle_timeout ⟨0, 0, 0, 0, 0, 0⟩ 100) ∧
      (¬ (0 < throttle_timeout ⟨1000, 0, 100, 0, 150, 0⟩ 100 ∨
          0 < throttle_timeout ⟨0, 0, 0, 0, 0, 0⟩ 100) → r.ret = NOTIFY_OK) :=
  congestion_probe ⟨1000, 12, 64, 4⟩ 100 ⟨false, false⟩ []
    ⟨some ⟨⟨1000, 0, 100, 0, 150, 0⟩, ⟨0, 0, 0, 0, 0, 0⟩⟩, false, 0, 0⟩
    ⟨⟨1000, 0, 100, 0, 150, 0⟩, ⟨0, 0, 0, 0, 0, 0⟩⟩ .VIRTINFO_IO_CONGESTION 0 0 rfl
    (Or.inl (by decide)) (Or.inl rfl)

/-- C6. A domain with `speed == 0` is bypassed: for every bucket state and every runtime hook
command that charges a bucket, if the speed of the bucket the command targets is 0 then
`iolimit_virtinfo` returns `NOTIFY_OK` and leaves the whole beancounter (both buckets' balance,
clock and remainder, and the dirty-exceeded flag) unchanged, and so does `iolimit_balance_dirty`. -/
theorem speed_zero_bypass (cfg : kconfig) (now : Nat) (current : task) (wakes : List wakeup)
    (ub : user_beancounter) (io : iolimit) (arg : Nat) (old_ret : Int)
    (hio : ub.private_data2 = some io) :
    (io.throttle.speed = 0 →
      iolimit_virtinfo cfg now current wakes ub .VIRTINFO_IO_ACCOUNT arg old_ret
        = some { ret := NOTIFY_OK, ub := ub, wait := none } ∧
      iolimit_virtinfo cfg now current wakes ub .VIRTINFO_IO_BALANCE_DIRTY arg old_ret
        = some { ret := NOTIFY_OK, ub := ub, wait := none } ∧
      iolimit_balance_dirty cfg now io ub arg = some ub) ∧
    (io.iops.speed = 0 →
      iolimit_virtinfo cfg now current wakes ub .VIRTINFO_IO_OP_ACCOUNT arg old_ret
        = some { ret := NOTIFY_OK, ub := ub, wait := none } ∧
      iolimit_virtinfo cfg now current wakes ub .VIRTINFO_IO_FUSE_REQ arg old_ret
        = some { ret := NOTIFY_OK, ub := ub, wait := none }) := by
  constructor
  · intro h
    have hbd : iolimit_balance_dirty cfg now io ub arg = some ub := by
      unfold iolimit_balance_dirty
      rw [if_pos h]
    refine ⟨?_, ?_, hbd⟩
    · unfold iolimit_virtinfo
      rw [hio]
      simp only [if_pos h]
      split_ifs <;> rfl
    · unfold iolimit_virtinfo
      rw [hio]
      simp only [hbd]
      split_ifs <;> rfl
  · intro h
    constructor
    · unfold iolimit_virtinfo
      rw [hio]
      simp only [if_pos h]
      split_ifs <;> rfl
    · unfold iolimit_virtinfo
      rw [hio]
      simp only [if_pos h]
      split_ifs <;> rfl

/-- C6 on a tenant with bandwidth limit off and an iops limit: accounting 4096 bytes changes
nothing. -/
theorem speed_zero_bypass_witness :
    iolimit_virtinfo ⟨1000, 12, 64, 4⟩ 100 ⟨false, false⟩ []
        ⟨some ⟨⟨0, 7, 8, 9, 10, 11⟩, ⟨10, 0, 100, 0, 0, 0⟩⟩, false, 5, 5⟩
        .VIRTINFO_IO_ACCOUNT 4096 0
      = some { ret := NOTIFY_OK
               ub := ⟨some ⟨⟨0, 7, 8, 9, 10, 11⟩, ⟨10, 0, 100, 0, 0, 0⟩⟩, false, 5, 5⟩
               wait := none } :=
  ((speed_zero_bypass ⟨1000, 12, 64, 4⟩ 100 ⟨false, false⟩ []
    ⟨some ⟨⟨0, 7, 8, 9, 10, 11⟩, ⟨10, 0, 100, 0, 0, 0⟩⟩, false, 5, 5⟩
    ⟨⟨0, 7, 8, 9, 10, 11⟩, ⟨10, 0, 100, 0, 0, 0⟩⟩ 4096 0 rfl).1 rfl).1

/-- C7. For an iops bucket with speed > 0 and any prior state (no arithmetic overflow), the iops
charge (`VIRTINFO_IO_OP_ACCOUNT` / `VIRTINFO_IO_FUSE_REQ`) runs `throttle_charge 1`, which leaves a
balance of at least 1; an exempt (`PF_SWAPWRITE`) caller then leaves the balance at least 1, a
non-exempt caller always decrements it. -/
theorem iops_charge_exempt (cfg : kconfig) (now : Nat) (current : task) (wakes : List wakeup)
    (ub : user_beancounter) (io : iolimit) (cmd : virtinfo_cmd) (arg : Nat) (old_ret : Int)
    (hio : ub.private_data2 = some io)
    (hcmd : cmd = .VIRTINFO_IO_OP_ACCOUNT ∨ cmd = .VIRTINFO_IO_FUSE_REQ)
    (hs : io.iops.speed ≠ 0) (hr : charge_in_range cfg.HZ now io.iops 1) :
    ∃ th th' : throttle,
      throttle_charge cfg.HZ now io.iops 1 = some th ∧ 1 ≤ th.state ∧
      iolimit_virtinfo cfg now current wakes ub cmd arg old_ret
        = some { ret := NOTIFY_OK
                 ub := { ub with private_data2 := some { io with iops := th' } }
                 wait := none } ∧
      (current.PF_SWAPWRITE = true → 1 ≤ th'.state) ∧
      (current.PF_SWAPWRITE = false → th'.state = th.state - 1) := by
  obtain ⟨th, hch, -, -, -, hge, hlt⟩ := throttle_charge_state_ge cfg.HZ now io.iops 1 hr hs
  have hboth : ¬ (io.throttle.speed = 0 ∧ io.iops.speed = 0) := fun h => hs h.2
  have hw : wrapS64 (th.state - 1) = th.state - 1 :=
    wrapS64_of_range _ (by omega) (by omega)
  refine ⟨th, if th.state > 1 ∨ ¬ current.PF_SWAPWRITE = true
      then { th with state := wrapS64 (th.state - 1) } else th, hch, hge, ?_, ?_, ?_⟩
  · rcases hcmd with h | h <;> subst h <;>
      (unfold iolimit_virtinfo; rw [hio]; simp only [if_neg hboth, if_neg hs, hch])
  · intro hp
    split_ifs with hc
    · show 1 ≤ wrapS64 (th.state - 1)
      rw [hw]
      rcases hc with hc | hc
      · clear hw; omega
      · exact absurd hp hc
    · exact hge
  · intro hp
    rw [if_pos (Or.inr (by rw [hp]; decide))]
    exact hw

/-- C7 on an empty iops bucket of speed 10: the exempt caller's charge leaves a balance of 1. -/
theorem iops_charge_exempt_witness :
    ∃ th th' : throttle,
      throttle_charge 1000 0 ⟨10, 0, 100, 0, 0, 0⟩ 1 = some th ∧ 1 ≤ th.state ∧
      iolimit_virtinfo ⟨1000, 12, 64, 4⟩ 0 ⟨true, false⟩ []
          ⟨some ⟨⟨0, 0, 0, 0, 0, 0⟩, ⟨10, 0, 100, 0, 0, 0⟩⟩, false, 0, 0⟩
          .VIRTINFO_IO_OP_ACCOUNT 0 0
        = some { ret := NOTIFY_OK
                 ub := ⟨some ⟨⟨0, 0, 0, 0, 0, 0⟩, th'⟩, false, 0, 0⟩
                 wait := none } ∧
      ((true : Bool) = true → 1 ≤ th'.state) ∧
      ((true : Bool) = false → th'.state = th.state - 1) :=
  iops_charge_exempt ⟨1000, 12, 64, 4⟩ 0 ⟨true, false⟩ []
    ⟨some ⟨⟨0, 0, 0, 0, 0, 0⟩, ⟨10, 0, 100, 0, 0, 0⟩⟩, false, 0, 0⟩
    ⟨⟨0, 0, 0, 0, 0, 0⟩, ⟨10, 0, 100, 0, 0, 0⟩⟩ .VIRTINFO_IO_OP_ACCOUNT 0 0 rfl (Or.inl rfl)
    (by decide) (by decide)

theorem throttle_replenish_speed (HZ now : Nat) (th : throttle) (charge : Int) :
    (throttle_replenish HZ now th charge).speed = th.speed := by
  cases h : time_before th.time now
  · rw [throttle_replenish_not_before _ _ _ _ h]
  · rw [throttle_replenish_before _ _ _ _ h]

theorem throttle_charge_eq_none (HZ now : Nat) (th : throttle) (charge : Int) :
    throttle_charge HZ now th charge = none ↔
      th.speed = 0 ∧ (throttle_replenish HZ now th charge).state < charge := by
  unfold throttle_charge throttle_debt
  rw [throttle_replenish_speed]
  by_cases hc : charge > (throttle_replenish HZ now th charge).state
  · rw [if_pos hc]
    by_cases hs : th.speed = 0
    · rw [if_pos hs]; exact ⟨fun _ => ⟨hs, hc⟩, fun _ => rfl⟩
    · rw [if_neg hs]
      exact ⟨fun h => (by cases h), fun h => absurd h.1 hs⟩
  · rw [if_neg hc]
    exact ⟨fun h => (by cases h), fun h => absurd h.2 hc⟩

theorem throttle_charge_some (HZ now : Nat) (th : throttle) (charge : Int) (hs : th.speed ≠ 0) :
    ∃ th', throttle_charge HZ now th charge = some th' := by
  cases h : throttle_charge HZ now th charge with
  | none => exact absurd ((throttle_charge_eq_none _ _ _ _).mp h).1 hs
  | some th' => exact ⟨th', rfl⟩

theorem iolimit_balance_dirty_some (cfg : kconfig) (now : Nat) (io : iolimit)
    (ub : user_beancounter) (arg : Nat) :
    ∃ ub', iolimit_balance_dirty cfg now io ub arg = some ub' := by
  unfold iolimit_balance_dirty
  by_cases hs : io.throttle.speed = 0
  · rw [if_pos hs]; exact ⟨_, rfl⟩
  · rw [if_neg hs]
    simp only []
    split_ifs
    · exact ⟨_, rfl⟩
    · exact ⟨_, rfl⟩
    · obtain ⟨th', h⟩ := throttle_charge_some cfg.HZ now io.throttle
        (wrapS64 (((addU64 ub.dirty_pages_exact arg : Nat) : Int) * (2 ^ cfg.PAGE_SHIFT : Nat))) hs
      rw [h]
      exact ⟨_, rfl⟩

/-- Runs without interference.  `throttle_charge` divides by zero (returns `none`) exactly when
the speed is 0 and the debt branch is taken, it has no guard of its own; when nothing else
writes the bucket while a hook runs, `iolimit_virtinfo` and `iolimit_balance_dirty` always return
a result, because the speed they tested is the speed `throttle_charge` divides by. -/
theorem hooks_return_without_interference (cfg : kconfig) (now : Nat) (current : task)
    (wakes : List wakeup) (ub : user_beancounter) (cmd : virtinfo_cmd) (arg : Nat)
    (old_ret : Int) (io : iolimit) (th : throttle) (charge : Int) :
    (∃ r, iolimit_virtinfo cfg now current wakes ub cmd arg old_ret = some r) ∧
    (∃ ub', iolimit_balance_dirty cfg now io ub arg = some ub') ∧
    (throttle_charge cfg.HZ now th charge = none ↔
      th.speed = 0 ∧ (throttle_replenish cfg.HZ now th charge).state < charge) := by
  refine ⟨?_, iolimit_balance_dirty_some cfg now io ub arg, throttle_charge_eq_none _ _ _ _⟩
  unfold iolimit_virtinfo
  cases hio : ub.private_data2 with
  | none => exact ⟨_, rfl⟩
  | some io' =>
    simp only []
    by_cases hb : io'.throttle.speed = 0 ∧ io'.iops.speed = 0
    · rw [if_pos hb]; exact ⟨_, rfl⟩
    · rw [if_neg hb]
      cases cmd with
      | VIRTINFO_IO_ACCOUNT =>
        simp only []
        by_cases hs : io'.throttle.speed = 0
        · rw [if_pos hs]; exact ⟨_, rfl⟩
        · rw [if_neg hs]
          obtain ⟨th', h⟩ := throttle_charge_some cfg.HZ now io'.throttle (wrapS64 arg) hs
          rw [h]; exact ⟨_, rfl⟩
      | VIRTINFO_IO_FUSE_REQ =>
        simp only []
        by_cases hs : io'.iops.speed = 0
        · rw [if_pos hs]; exact ⟨_, rfl⟩
        · rw [if_neg hs]
          obtain ⟨th', h⟩ := throttle_charge_some cfg.HZ now io'.iops 1 hs
          rw [h]; exact ⟨_, rfl⟩
      | VIRTINFO_IO_OP_ACCOUNT =>
        simp only []
        by_cases hs : io'.iops.speed = 0
        · rw [if_pos hs]; exact ⟨_, rfl⟩
        · rw [if_neg hs]
          obtain ⟨th', h⟩ := throttle_charge_some cfg.HZ now io'.iops 1 hs
          rw [h]; exact ⟨_, rfl⟩
      | VIRTINFO_IO_PREPARE => simp only []; split_ifs <;> exact ⟨_, rfl⟩
      | VIRTINFO_IO_JOURNAL => simp only []; split_ifs <;> exact ⟨_, rfl⟩
      | VIRTINFO_IO_READAHEAD => simp only []; split_ifs <;> exact ⟨_, rfl⟩
      | VIRTINFO_IO_CONGESTION => simp only []; split_ifs <;> exact ⟨_, rfl⟩
      | VIRTINFO_IO_BALANCE_DIRTY =>
        simp only []
        obtain ⟨ub', h⟩ := iolimit_balance_dirty_some cfg now io' ub arg
        rw [h]; exact ⟨_, rfl⟩
      | other => exact ⟨_, rfl⟩

/-- C12. Cancellation short-circuits the blocking admission: if a fatal signal is pending when
the waiter returns from a sleep, `iolimit_wait` leaves its loop without sleeping again; if one is
already pending when `VIRTINFO_IO_PREPARE` / `VIRTINFO_IO_JOURNAL` is handled, `iolimit_wait` is not
entered at all; in every case the hook returns `NOTIFY_OK` and changes no bucket field. -/
theorem cancellation_short_circuits (cfg : kconfig) (now : Nat) (current : task)
    (wakes : List wakeup) (ub : user_beancounter) (io : iolimit) (cmd : virtinfo_cmd)
    (arg : Nat) (old_ret : Int) (timeout : Nat) (w : wakeup) (ws : List wakeup)
    (hio : ub.private_data2 = some io)
    (hcmd : cmd = .VIRTINFO_IO_PREPARE ∨ cmd = .VIRTINFO_IO_JOURNAL) :
    (w.fatal = true →
      iolimit_wait timeout (w :: ws) = { sleeps := [timeout], returned := true }) ∧
    (current.fatal_signal_pending = true →
      iolimit_virtinfo cfg now current wakes ub cmd arg old_ret
        = some { ret := NOTIFY_OK, ub := ub, wait := none }) ∧
    (∃ r, iolimit_virtinfo cfg now current wakes ub cmd arg old_ret = some r ∧
      r.ret = NOTIFY_OK ∧ r.ub = ub) := by
  refine ⟨?_, ?_, ?_⟩
  · intro hf
    unfold iolimit_wait
    rw [if_pos hf]
  · intro hf
    rcases hcmd with h | h <;> subst h <;>
      (unfold iolimit_virtinfo; rw [hio]; simp only [hf, not_true_eq_false, and_false, if_false]
       split_ifs <;> rfl)
  · rcases hcmd with h | h <;> subst h <;>
      (unfold iolimit_virtinfo; rw [hio]; simp only []
       split_ifs <;> exact ⟨_, rfl, rfl, rfl⟩)

/-- C12 on a waiter with 500 ticks to go that is woken after 100 ticks by a fatal signal. -/
theorem cancellation_short_circuits_witness :
    iolimit_wait 500 [⟨400, true, 200, ⟨⟨1000, 0, 1000, 0, 600, 0⟩, ⟨0, 0, 0, 0, 0, 0⟩⟩⟩]
      = { sleeps := [500], returned := true } :=
  (cancellation_short_circuits ⟨1000, 12, 64, 4⟩ 100 ⟨false, false⟩ []
    ⟨some ⟨⟨1000, 0, 1000, 0, 600, 0⟩, ⟨0, 0, 0, 0, 0, 0⟩⟩, false, 0, 0⟩
    ⟨⟨1000, 0, 1000, 0, 600, 0⟩, ⟨0, 0, 0, 0, 0, 0⟩⟩ .VIRTINFO_IO_PREPARE 0 0 500
    ⟨400, true, 200, ⟨⟨1000, 0, 1000, 0, 600, 0⟩, ⟨0, 0, 0, 0, 0, 0⟩⟩⟩ [] rfl (Or.inl rfl)).1 rfl

/-- C16. A tenant with no configured throttle is unthrottled: when `private_data2` is `NULL`,
`iolimit_virtinfo` returns the incoming `old_ret` for every command, does not wait and changes
nothing; when a state exists but both speeds are 0 it returns `NOTIFY_OK` for every command
without waiting or touching either bucket. -/
theorem unconfigured_unthrottled (cfg : kconfig) (now : Nat) (current : task)
    (wakes : List wakeup) (ub : user_beancounter) (cmd : virtinfo_cmd) (arg : Nat)
    (old_ret : Int) :
    (ub.private_data2 = none →
      iolimit_virtinfo cfg now current wakes ub cmd arg old_ret
        = some { ret := old_ret, ub := ub, wait := none }) ∧
    (∀ io, ub.private_data2 = some io → io.throttle.speed = 0 → io.iops.speed = 0 →
      iolimit_virtinfo cfg now current wakes ub cmd arg old_ret
        = some { ret := NOTIFY_OK, ub := ub, wait := none }) := by
  constructor
  · intro h
    unfold iolimit_virtinfo
    rw [h]
  · intro io h h1 h2
    unfold iolimit_virtinfo
    rw [h]
    simp only []
    rw [if_pos ⟨h1, h2⟩]

/-- C16 on a beancounter without iolimit state: the incoming result 7 comes back. -/
theorem unconfigured_unthrottled_witness :
    iolimit_virtinfo ⟨1000, 12, 64, 4⟩ 100 ⟨false, false⟩ [] ⟨none, false, 0, 0⟩
        .VIRTINFO_IO_PREPARE 0 7
      = some { ret := 7, ub := ⟨none, false, 0, 0⟩, wait := none } :=
  (unconfigured_unthrottled ⟨1000, 12, 64, 4⟩ 100 ⟨false, false⟩ [] ⟨none, false, 0, 0⟩
    .VIRTINFO_IO_PREPARE 0 7).1 rfl

/-- C19. `throttle_setup speed burst latencyMs` at time `now` sets clock = now, the burst, the
latency to `msecs_to_jiffies latencyMs` (as stored in the 32-bit field) and the speed, and leaves
the balance and the remainder as they were. -/
theorem throttle_setup_frame (m2j : Nat → Nat) (now : Nat) (th : throttle)
    (speed burst latencyMs : Nat) :
    throttle_setup m2j now th speed burst latencyMs =
      { speed := speed, burst := burst, latency := toU32 (m2j latencyMs), remain := th.remain,
        time := now, state := th.state } ∧
    (throttle_setup m2j now th speed burst latencyMs).state = th.state ∧
    (throttle_setup m2j now th speed burst latencyMs).remain = th.remain ∧
    (m2j latencyMs < 2 ^ 32 →
      (throttle_setup m2j now th speed burst latencyMs).latency = m2j latencyMs) := by
  refine ⟨rfl, rfl, rfl, ?_⟩
  intro h
  show toU32 (m2j latencyMs) = m2j latencyMs
  rw [toU32_eq]
  omega

/-- C19 with the kernel's conversion at HZ = 1000: a bucket holding balance 77 and remainder 5
keeps them through a reconfiguration. -/
theorem throttle_setup_frame_witness :
    (throttle_setup (msecs_to_jiffies 1000) 300 ⟨1, 2, 3, 5, 10, 77⟩ 100 50 200).latency
      = msecs_to_jiffies 1000 200 :=
  (throttle_setup_frame (msecs_to_jiffies 1000) 300 ⟨1, 2, 3, 5, 10, 77⟩ 100 50 200).2.2.2
    (by decide)

/-- C11, the code at a failing input.  A tenant with only an iops limit, whose iops bucket is
500 ticks in debt, sleeps for 500 ticks; woken after 100 ticks with no fatal signal (400 ticks
left, the iops horizon still 400 ticks ahead) it leaves the wait loop: the next timeout is
`min (throttle_timeout bandwidth) left = 0`, the iops bucket is not consulted. -/
theorem iolimit_wait_ignores_iops :
    iolimit_timeout ⟨⟨0, 0, 0, 0, 0, 0⟩, ⟨10, 0, 1000, 0, 600, 0⟩⟩ 100 = 500 ∧
    iolimit_timeout ⟨⟨0, 0, 0, 0, 0, 0⟩, ⟨10, 0, 1000, 0, 600, 0⟩⟩ 200 = 400 ∧
    iolimit_wait 500 [⟨400, false, 200, ⟨⟨0, 0, 0, 0, 0, 0⟩, ⟨10, 0, 1000, 0, 600, 0⟩⟩⟩]
      = { sleeps := [500], returned := true } := by
  refine ⟨?_, ?_, ?_⟩ <;> with_unfolding_all rfl

/-- C13 as stated fails: a bucket holding 5000 units that replenishes for a charge of 1 with
burst 0 keeps its 5000, above `amount + burst = 1`. -/
theorem replenish_ceiling_counterexample :
    (0 : Nat) < 100 ∧
    ¬ ((throttle_replenish 1000 100 ⟨1000, 0, 100, 0, 0, 5000⟩ 1).state ≤ 1 + (0 : Nat)) := by
  with_unfolding_all decide

/-- C13, amended.  For every bucket state, amount and time `now > clock` (no overflow), after the
replenish step the balance is at most the larger of the old balance and `amount + burst`: the
step fills the bucket up to the ceiling but never takes away what it already holds; in
particular a balance that was at most `amount + burst` stays so. -/
theorem replenish_ceiling (HZ now : Nat) (th : throttle) (amount : Int)
    (h : charge_in_range HZ now th amount) (hlt : th.time < now) :
    (throttle_replenish HZ now th amount).state ≤ max th.state (amount + th.burst) ∧
    (th.state ≤ amount + th.burst →
      (throttle_replenish HZ now th amount).state ≤ amount + th.burst) := by
  obtain ⟨s1, hrep, -, -, -, hc, -⟩ := throttle_replenish_spec HZ now th amount h
  rw [hrep]
  have h1 := hc hlt
  refine ⟨h1, fun h2 => ?_⟩
  rw [max_eq_right h2] at h1
  exact h1

/-- C13 amended, on a bucket of speed 1000 and burst 100 idle for 500 ticks. -/
theorem replenish_ceiling_witness :
    (throttle_replenish 1000 500 ⟨1000, 100, 100, 0, 0, 0⟩ 10).state
        ≤ max (0 : Int) (10 + (100 : Nat)) ∧
    ((0 : Int) ≤ 10 + (100 : Nat) →
      (throttle_replenish 1000 500 ⟨1000, 100, 100, 0, 0, 0⟩ 10).state ≤ 10 + (100 : Nat)) :=
  replenish_ceiling 1000 500 ⟨1000, 100, 100, 0, 0, 0⟩ 10 (by decide) (by decide)

/-- C14 as stated fails for the cgroup files: writing the bandwidth speed at time 100 moves the
clock of the iops bucket from 7 to 100 as well. -/
theorem cgroup_write_rearms_both_counterexample :
    (iolimit_cgroup_write_u64 100 true
        ⟨some ⟨⟨1, 2, 3, 4, 5, 6⟩, ⟨10, 20, 30, 40, 7, 60⟩⟩, false, 0, 0⟩
        .UB_CGROUP_IOLIMIT_SPEED 1000).2.private_data2
      = some ⟨⟨1000, 2, 3, 4, 100, 6⟩, ⟨10, 20, 30, 40, 100, 60⟩⟩ ∧
    (100 : Nat) ≠ 7 := by
  constructor
  · with_unfolding_all rfl
  · decide

/-- C14, amended.  A `VZCTL_SET_IOLIMIT` / `VZCTL_SET_IOPSLIMIT` ioctl sets up the addressed
bucket (clock re-armed to `now`) and leaves every field of the other bucket unchanged.  A cgroup
write stores the value in the addressed field and re-arms the clock of both buckets to `now`;
every other field of the other bucket (speed, burst, latency, balance, remainder) is left
unchanged. -/
theorem config_independence (m2j j2m : Nat → Nat) (now : Nat) (kz cu : Bool)
    (ub : user_beancounter) (io : iolimit) (st : iolimit_state) (cft : cgroup_file) (val : Nat)
    (hio : ub.private_data2 = some io) :
    iolimit_ioctl m2j j2m now kz cu (some ub) .VZCTL_SET_IOLIMIT (some st) =
      { err := 0
        ub := some { ub with private_data2 := some (
          { throttle := throttle_setup m2j now io.throttle st.speed st.burst st.latency
            iops := io.iops } : iolimit) }
        out := none } ∧
    iolimit_ioctl m2j j2m now kz cu (some ub) .VZCTL_SET_IOPSLIMIT (some st) =
      { err := 0
        ub := some { ub with private_data2 := some (
          { throttle := io.throttle
            iops := throttle_setup m2j now io.iops st.speed st.burst st.latency } : iolimit) }
        out := none } ∧
    ∃ io' : iolimit,
      iolimit_cgroup_write_u64 now kz ub cft val = (0, { ub with private_data2 := some io' }) ∧
      io'.throttle.time = now ∧ io'.iops.time = now ∧
      ((cft = .UB_CGROUP_IOLIMIT_SPEED ∨ cft = .UB_CGROUP_IOLIMIT_BURST ∨
          cft = .UB_CGROUP_IOLIMIT_LATENCY) → io'.iops = { io.iops with time := now }) ∧
      ((cft = .UB_CGROUP_IOPSLIMIT_SPEED ∨ cft = .UB_CGROUP_IOPSLIMIT_BURST ∨
          cft = .UB_CGROUP_IOPSLIMIT_LATENCY) →
        io'.throttle = { io.throttle with time := now }) := by
  have hget : iolimit_get kz ub = (some io, ub) := by
    unfold iolimit_get
    rw [hio]
  refine ⟨?_, ?_, ?_⟩
  · unfold iolimit_ioctl
    simp only [hget]
    rfl
  · unfold iolimit_ioctl
    simp only [hget]
    rfl
  · unfold iolimit_cgroup_write_u64
    simp only [hget]
    cases cft <;> exact ⟨_, rfl, rfl, rfl, by simp, by simp⟩

/-- C14 amended, on a tenant with both buckets configured: the bandwidth ioctl leaves the iops
bucket as it was. -/
theorem config_independence_witness :
    iolimit_ioctl (msecs_to_jiffies 1000) (jiffies_to_msecs 1000) 100 true true
        (some ⟨some ⟨⟨1, 2, 3, 4, 5, 6⟩, ⟨10, 20, 30, 40, 7, 60⟩⟩, false, 0, 0⟩)
        .VZCTL_SET_IOLIMIT (some ⟨0, 100, 50, 200⟩) =
      { err := 0
        ub := some ⟨some
          ⟨throttle_setup (msecs_to_jiffies 1000) 100 ⟨1, 2, 3, 4, 5, 6⟩ 100 50 200,
           ⟨10, 20, 30, 40, 7, 60⟩⟩, false, 0, 0⟩
        out := none } :=
  (config_independence (msecs_to_jiffies 1000) (jiffies_to_msecs 1000) 100 true true
    ⟨some ⟨⟨1, 2, 3, 4, 5, 6⟩, ⟨10, 20, 30, 40, 7, 60⟩⟩, false, 0, 0⟩
    ⟨⟨1, 2, 3, 4, 5, 6⟩, ⟨10, 20, 30, 40, 7, 60⟩⟩ ⟨0, 100, 50, 200⟩
    .UB_CGROUP_IOLIMIT_SPEED 0 rfl).1

/-- C15 as stated fails: writing `2^32 + 5` to the bandwidth speed file is not rejected; the
write returns 0 and the value read back is 5. -/
theorem cgroup_write_unchecked_counterexample :
    (iolimit_cgroup_write_u64 100 true ⟨none, false, 0, 0⟩
        .UB_CGROUP_IOLIMIT_SPEED 4294967301).1 = 0 ∧
    iolimit_cgroup_read
        (iolimit_cgroup_write_u64 100 true ⟨none, false, 0, 0⟩
          .UB_CGROUP_IOLIMIT_SPEED 4294967301).2
        .UB_CGROUP_IOLIMIT_SPEED = 5 := by
  constructor <;> with_unfolding_all rfl

/-- C15, amended.  `iolimit_cgroup_write_u64` performs no range check: whenever the tenant's state
exists or can be allocated, the write returns 0 for every 64-bit value and stores the value
truncated to 32 bits, so the value read back is `val mod 2^32`; it equals the value written
exactly when that fits the 32-bit field. -/
theorem cgroup_write_read (now : Nat) (kz : Bool) (ub : user_beancounter) (cft : cgroup_file)
    (val : Nat) (h : kz = true ∨ ub.private_data2 ≠ none) :
    (iolimit_cgroup_write_u64 now kz ub cft val).1 = 0 ∧
    iolimit_cgroup_read (iolimit_cgroup_write_u64 now kz ub cft val).2 cft
      = val % 4294967296 ∧
    (iolimit_cgroup_read (iolimit_cgroup_write_u64 now kz ub cft val).2 cft = val ↔
      val < 4294967296) := by
  have hU : toU32 (val : Int) = val % 4294967296 := by rw [toU32_eq]; omega
  have key : ∃ io ub', iolimit_get kz ub = (some io, ub') := by
    unfold iolimit_get
    cases hio : ub.private_data2 with
    | some io => exact ⟨_, _, rfl⟩
    | none =>
      rcases h with h | h
      · subst h; exact ⟨_, _, rfl⟩
      · exact absurd hio h
  obtain ⟨io, ub', hget⟩ := key
  have h12 : (iolimit_cgroup_write_u64 now kz ub cft val).1 = 0 ∧
      iolimit_cgroup_read (iolimit_cgroup_write_u64 now kz ub cft val).2 cft
        = val % 4294967296 := by
    unfold iolimit_cgroup_write_u64
    rw [hget]
    refine ⟨rfl, ?_⟩
    unfold iolimit_cgroup_read
    cases cft <;> exact hU
  refine ⟨h12.1, h12.2, ?_⟩
  rw [h12.2]
  omega

/-- C15 amended, on a fresh tenant: 1000 written to the iops burst file reads back as 1000. -/
theorem cgroup_write_read_witness :
    (iolimit_cgroup_write_u64 100 true ⟨none, false, 0, 0⟩
        .UB_CGROUP_IOPSLIMIT_BURST 1000).1 = 0 ∧
    iolimit_cgroup_read
        (iolimit_cgroup_write_u64 100 true ⟨none, false, 0, 0⟩
          .UB_CGROUP_IOPSLIMIT_BURST 1000).2 .UB_CGROUP_IOPSLIMIT_BURST
      = 1000 % 4294967296 ∧
    (iolimit_cgroup_read
        (iolimit_cgroup_write_u64 100 true ⟨none, false, 0, 0⟩
          .UB_CGROUP_IOPSLIMIT_BURST 1000).2 .UB_CGROUP_IOPSLIMIT_BURST = 1000 ↔
      1000 < 4294967296) :=
  cgroup_write_read 100 true ⟨none, false, 0, 0⟩ .UB_CGROUP_IOPSLIMIT_BURST 1000 (Or.inl rfl)

theorem addU64_of_lt (a b : Nat) (h : a + b < 18446744073709551616) : addU64 a b = a + b := by
  unfold addU64; omega

/-- C18 as stated fails at equality: with a balance of exactly 5 pages and 5 dirty pages (nothing
pending) the dirty amount is not over the balance, yet the flag is set. -/
theorem balance_dirty_equal_counterexample :
    ¬ ((5 : Nat) + 0 > (20480 / 2 ^ 12 : Nat)) ∧
    iolimit_balance_dirty ⟨1000, 12, 64, 4⟩ 0
        ⟨⟨1000, 0, 1000, 0, 0, 20480⟩, ⟨0, 0, 0, 0, 0, 0⟩⟩
        ⟨some ⟨⟨1000, 0, 1000, 0, 0, 20480⟩, ⟨0, 0, 0, 0, 0, 0⟩⟩, false, 5, 5⟩ 0
      = some ⟨some ⟨⟨1000, 0, 1000, 0, 0, 20480⟩, ⟨0, 0, 0, 0, 0, 0⟩⟩, true, 5, 5⟩ := by
  constructor
  · decide
  · with_unfolding_all rfl

/-- C18, amended.  For a bandwidth bucket with speed > 0 and a balance that is not negative (no
64-bit overflow in the page counts), `iolimit_balance_dirty` pre-charges the bucket
(`throttle_charge` of the exact dirty count plus the pending chunk, in bytes, with no subtraction
afterwards) and sets the dirty-exceeded flag exactly when the balance in pages is at most the
approximate dirty count plus pending plus the per-cpu slack `UB_STAT_BATCH * num_possible_cpus`
and at most the exact dirty count plus pending (equality included); in every other case the
beancounter, bucket and flag, is unchanged. -/
theorem balance_dirty_spec (cfg : kconfig) (now : Nat) (io : iolimit) (ub : user_beancounter)
    (chunk : Nat) (hs : io.throttle.speed ≠ 0)
    (h0 : 0 ≤ io.throttle.state) (h1 : io.throttle.state < 2 ^ 63)
    (h2 : ub.dirty_pages + chunk + cfg.UB_STAT_BATCH * cfg.num_possible_cpus < 2 ^ 64)
    (h3 : ub.dirty_pages_exact + chunk < 2 ^ 64) :
    (((io.throttle.state / (2 ^ cfg.PAGE_SHIFT : Nat)).toNat
          ≤ ub.dirty_pages + chunk + cfg.UB_STAT_BATCH * cfg.num_possible_cpus ∧
        (io.throttle.state / (2 ^ cfg.PAGE_SHIFT : Nat)).toNat ≤ ub.dirty_pages_exact + chunk) →
      ∃ th', throttle_charge cfg.HZ now io.throttle
            (wrapS64 (((ub.dirty_pages_exact + chunk : Nat) : Int) * (2 ^ cfg.PAGE_SHIFT : Nat)))
          = some th' ∧
        iolimit_balance_dirty cfg now io ub chunk
          = some { ub with private_data2 := some { io with throttle := th' }
                           dirty_exceeded := true }) ∧
    (¬ ((io.throttle.state / (2 ^ cfg.PAGE_SHIFT : Nat)).toNat
          ≤ ub.dirty_pages + chunk + cfg.UB_STAT_BATCH * cfg.num_possible_cpus ∧
        (io.throttle.state / (2 ^ cfg.PAGE_SHIFT : Nat)).toNat ≤ ub.dirty_pages_exact + chunk) →
      iolimit_balance_dirty cfg now io ub chunk = some ub) := by
  have hq0 : 0 ≤ io.throttle.state / ((2 ^ cfg.PAGE_SHIFT : Nat) : Int) :=
    Int.ediv_nonneg h0 (by positivity)
  have hq1 : io.throttle.state / ((2 ^ cfg.PAGE_SHIFT : Nat) : Int) ≤ io.throttle.state :=
    Int.ediv_le_self _ h0
  have hst : toU64 (io.throttle.state / ((2 ^ cfg.PAGE_SHIFT : Nat) : Int))
      = (io.throttle.state / ((2 ^ cfg.PAGE_SHIFT : Nat) : Int)).toNat := by
    rw [toU64_eq]
    generalize io.throttle.state / ((2 ^ cfg.PAGE_SHIFT : Nat) : Int) = q at *
    omega
  have ha1 : addU64 ub.dirty_pages chunk = ub.dirty_pages + chunk :=
    addU64_of_lt _ _ (by omega)
  have ha2 : addU64 (ub.dirty_pages + chunk) (cfg.UB_STAT_BATCH * cfg.num_possible_cpus)
      = ub.dirty_pages + chunk + cfg.UB_STAT_BATCH * cfg.num_possible_cpus :=
    addU64_of_lt _ _ (by omega)
  have ha3 : addU64 ub.dirty_pages_exact chunk = ub.dirty_pages_exact + chunk :=
    addU64_of_lt _ _ (by omega)
  unfold iolimit_balance_dirty
  rw [if_neg hs]
  simp only [hst, ha1, ha2, ha3]
  generalize (io.throttle.state / ((2 ^ cfg.PAGE_SHIFT : Nat) : Int)).toNat = pages
  constructor
  · rintro ⟨c1, c2⟩
    obtain ⟨th', hch⟩ := throttle_charge_some cfg.HZ now io.throttle
      (wrapS64 (((ub.dirty_pages_exact + chunk : Nat) : Int) * (2 ^ cfg.PAGE_SHIFT : Nat))) hs
    refine ⟨th', hch, ?_⟩
    rw [if_neg (by omega), if_neg (by omega), hch]
  · intro hn
    by_cases c1 : ub.dirty_pages + chunk + cfg.UB_STAT_BATCH * cfg.num_possible_cpus < pages
    · rw [if_pos c1]
    · rw [if_neg c1, if_pos (by omega)]

/-- C18 amended, on a bucket holding 5 pages with 9 dirty pages and 1 pending: the bucket is
pre-charged and the flag set. -/
theorem balance_dirty_spec_witness :
    ∃ th', throttle_charge 1000 0 ⟨1000, 0, 1000, 0, 0, 20480⟩
          (wrapS64 (((9 + 1 : Nat) : Int) * (2 ^ 12 : Nat))) = some th' ∧
      iolimit_balance_dirty ⟨1000, 12, 64, 4⟩ 0
          ⟨⟨1000, 0, 1000, 0, 0, 20480⟩, ⟨0, 0, 0, 0, 0, 0⟩⟩
          ⟨some ⟨⟨1000, 0, 1000, 0, 0, 20480⟩, ⟨0, 0, 0, 0, 0, 0⟩⟩, false, 9, 9⟩ 1
        = some ⟨some ⟨th', ⟨0, 0, 0, 0, 0, 0⟩⟩, true, 9, 9⟩ :=
  (balance_dirty_spec ⟨1000, 12, 64, 4⟩ 0 ⟨⟨1000, 0, 1000, 0, 0, 20480⟩, ⟨0, 0, 0, 0, 0, 0⟩⟩
    ⟨some ⟨⟨1000, 0, 1000, 0, 0, 20480⟩, ⟨0, 0, 0, 0, 0, 0⟩⟩, false, 9, 9⟩ 1
    (by decide) (by decide) (by decide) (by decide) (by decide)).1 (by decide)

theorem jiffies_roundtrip (HZ m : Nat) (hHZ : 0 < HZ) (hdvd : HZ ∣ 1000)
    (hm : m < 2147483648) (htick : (1000 / HZ) ∣ m) :
    toU32 (jiffies_to_msecs HZ (toU32 (msecs_to_jiffies HZ m))) = m := by
  obtain ⟨q, hq⟩ := htick
  have hk : 0 < 1000 / HZ := Nat.div_pos (Nat.le_of_dvd (by norm_num) hdvd) hHZ
  obtain ⟨k, hkd⟩ : ∃ k, 1000 / HZ = k := ⟨_, rfl⟩
  rw [hkd] at hq hk
  subst hq
  have hqle : q ≤ k * q := Nat.le_mul_of_pos_left q hk
  have h1 : msecs_to_jiffies HZ (k * q) = q := by
    unfold msecs_to_jiffies
    rw [hkd]
    have : k * q % 4294967296 = k * q := Nat.mod_eq_of_lt (by omega)
    rw [this, if_neg (by omega)]
    apply Nat.div_eq_of_lt_le
    · rw [Nat.mul_comm]; omega
    · rw [Nat.succ_mul, Nat.mul_comm]; omega
  rw [h1]
  have h2 : toU32 (q : Int) = q := by rw [toU32_eq]; omega
  rw [h2]
  have h3 : jiffies_to_msecs HZ q = k * q := by
    unfold jiffies_to_msecs
    rw [hkd]
    exact Nat.mod_eq_of_lt (by omega)
  rw [h3]
  rw [toU32_eq]
  generalize k * q = n at *
  omega

/-- C9 as stated fails: with the kernel's conversions at HZ = 1000 a latency of `2^31` ms (an
infinite timeout for `msecs_to_jiffies`) reads back as `2^32 - 2`; at HZ = 250 (4 ms ticks) a
latency of 201 ms reads back as 204. -/
theorem ioctl_roundtrip_counterexample :
    (iolimit_ioctl (msecs_to_jiffies 1000) (jiffies_to_msecs 1000) 100 true true
        (iolimit_ioctl (msecs_to_jiffies 1000) (jiffies_to_msecs 1000) 100 true true
          (some ⟨none, false, 0, 0⟩) .VZCTL_SET_IOLIMIT (some ⟨0, 100, 50, 2147483648⟩)).ub
        .VZCTL_GET_IOLIMIT (some ⟨0, 0, 0, 0⟩)).out = some ⟨0, 100, 50, 4294967294⟩ ∧
    (iolimit_ioctl (msecs_to_jiffies 250) (jiffies_to_msecs 250) 100 true true
        (iolimit_ioctl (msecs_to_jiffies 250) (jiffies_to_msecs 250) 100 true true
          (some ⟨none, false, 0, 0⟩) .VZCTL_SET_IOLIMIT (some ⟨0, 100, 50, 201⟩)).ub
        .VZCTL_GET_IOLIMIT (some ⟨0, 0, 0, 0⟩)).out = some ⟨0, 100, 50, 204⟩ := by
  constructor <;> with_unfolding_all rfl

/-- C9, amended.  `VZCTL_GET_IOLIMIT` issued right after a successful
`VZCTL_SET_IOLIMIT (speed, burst, latencyMs)` returns
`(speed, burst, jiffies_to_msecs (msecs_to_jiffies latencyMs))`, each conversion truncated to 32
bits, and likewise for the IOPS pair of commands: speed and burst always read back exactly; with
the kernel's conversions for a tick rate dividing 1000 the latency reads back exactly when it is
below `2^31` ms and a whole number of ticks. -/
theorem ioctl_set_get (m2j j2m : Nat → Nat) (HZ now now' : Nat) (kz : Bool)
    (ub : user_beancounter) (st q : iolimit_state)
    (hkz : kz = true ∨ ub.private_data2 ≠ none) :
    ((iolimit_ioctl m2j j2m now' kz true
        (iolimit_ioctl m2j j2m now kz true (some ub) .VZCTL_SET_IOLIMIT (some st)).ub
        .VZCTL_GET_IOLIMIT (some q)).out
      = some ⟨q.id, st.speed, st.burst, toU32 (j2m (toU32 (m2j st.latency)))⟩ ∧
     (iolimit_ioctl m2j j2m now' kz true
        (iolimit_ioctl m2j j2m now kz true (some ub) .VZCTL_SET_IOPSLIMIT (some st)).ub
        .VZCTL_GET_IOPSLIMIT (some q)).out
      = some ⟨q.id, st.speed, st.burst, toU32 (j2m (toU32 (m2j st.latency)))⟩) ∧
    (0 < HZ → HZ ∣ 1000 → st.latency < 2147483648 → (1000 / HZ) ∣ st.latency →
      toU32 (jiffies_to_msecs HZ (toU32 (msecs_to_jiffies HZ st.latency))) = st.latency) := by
  refine ⟨?_, fun h1 h2 h3 h4 => jiffies_roundtrip HZ st.latency h1 h2 h3 h4⟩
  have key : ∃ io ub', iolimit_get kz ub = (some io, ub') := by
    unfold iolimit_get
    cases hio : ub.private_data2 with
    | some io => exact ⟨_, _, rfl⟩
    | none =>
      rcases hkz with h | h
      · subst h; exact ⟨_, _, rfl⟩
      · exact absurd hio h
  obtain ⟨io, ub', hget⟩ := key
  constructor
  · unfold iolimit_ioctl
    simp only [hget]
    rfl
  · unfold iolimit_ioctl
    simp only [hget]
    rfl

/-- C9 amended, at HZ = 1000: (100, 50, 200) reads back as (100, 50, 200). -/
theorem ioctl_set_get_witness :
    toU32 (jiffies_to_msecs 1000 (toU32 (msecs_to_jiffies 1000 200))) = 200 :=
  (ioctl_set_get (msecs_to_jiffies 1000) (jiffies_to_msecs 1000) 1000 100 100 true
    ⟨none, false, 0, 0⟩ ⟨0, 100, 50, 200⟩ ⟨0, 0, 0, 0⟩ (Or.inl rfl)).2
    (by decide) (by decide) (by decide) (by decide)

theorem throttle_timeout_congr (a b : throttle) (now : Nat) (h1 : a.speed = b.speed)
    (h2 : a.time = b.time) (h3 : a.latency = b.latency) :
    throttle_timeout a now = throttle_timeout b now := by
  unfold throttle_timeout
  rw [h1, h2, h3]

theorem throttle_timeout_latency_zero (a : throttle) (now : Nat) (h : a.latency = 0) :
    throttle_timeout a now = 0 := by
  unfold throttle_timeout
  rw [h]
  split_ifs <;> simp

theorem throttle_timeout_eq_min (th' : throttle) (now m : Nat) (hs : th'.speed ≠ 0)
    (hb : time_before th'.time now = false) (hm : subU64 th'.time now = min m th'.latency) :
    throttle_timeout th' now = min m th'.latency := by
  rw [throttle_timeout_eq th' now hs hb, hm]
  simp

theorem throttle_timeout_at_clock (th' : throttle) (now : Nat) (ht : th'.time = now)
    (hnow : now < 18446744073709551616) : throttle_timeout th' now = 0 := by
  by_cases hs : th'.speed = 0
  · unfold throttle_timeout
    rw [if_pos hs]
  · have hb : time_before th'.time now = false := by
      rw [ht]
      exact time_before_false_of_le now now hnow hnow (le_refl _) (by omega)
    rw [throttle_timeout_eq th' now hs hb, ht, subU64_of_le _ _ (le_refl _) hnow]
    simp

theorem virtinfo_account_eq (cfg : kconfig) (now : Nat) (current : task) (wakes : List wakeup)
    (ub : user_beancounter) (io : iolimit) (arg : Nat) (old_ret : Int) (th : throttle)
    (hio : ub.private_data2 = some io) (hs : io.throttle.speed ≠ 0)
    (hch : throttle_charge cfg.HZ now io.throttle (wrapS64 arg) = some th) :
    iolimit_virtinfo cfg now current wakes ub .VIRTINFO_IO_ACCOUNT arg old_ret
      = some { ret := NOTIFY_OK
               ub := { ub with private_data2 := some (
                 { io with throttle := { th with state := wrapS64 (th.state - wrapS64 arg) } }) }
               wait := none } := by
  have hboth : ¬ (io.throttle.speed = 0 ∧ io.iops.speed = 0) := fun h => hs h.1
  unfold iolimit_virtinfo
  rw [hio]
  simp only [if_neg hboth, if_neg hs, hch]

/-- C5 as stated fails: on a fresh bandwidth bucket (speed 1000, latency 1000, balance 0, clock =
now) `throttle_timeout` is 0, and after accounting 2000 bytes at the same instant it is 1000. -/
theorem account_adds_wait_counterexample :
    throttle_timeout ⟨1000, 0, 1000, 0, 0, 0⟩ 0 = 0 ∧
    iolimit_virtinfo ⟨1000, 12, 64, 4⟩ 0 ⟨false, false⟩ []
        ⟨some ⟨⟨1000, 0, 1000, 0, 0, 0⟩, ⟨0, 0, 0, 0, 0, 0⟩⟩, false, 0, 0⟩
        .VIRTINFO_IO_ACCOUNT 2000 0
      = some { ret := NOTIFY_OK
               ub := ⟨some ⟨⟨1000, 0, 1000, 0, 1000, 0⟩, ⟨0, 0, 0, 0, 0, 0⟩⟩, false, 0, 0⟩
               wait := none } ∧
    throttle_timeout ⟨1000, 0, 1000, 0, 1000, 0⟩ 0 = 1000 := by
  refine ⟨?_, ?_, ?_⟩ <;> with_unfolding_all rfl

/-- C5, amended.  For a bucket with bandwidth speed > 0 and `throttle_timeout now = 0` (no
overflow), the `VIRTINFO_IO_ACCOUNT` hook (`throttle_charge bytes`, then `balance -= bytes`)
leaves `throttle_timeout now` at 0 when the byte count is covered by the balance available after
the replenish step; a byte count beyond it moves the clock into the future, and
`throttle_timeout now` becomes `min (ceil ((bytes - available) * HZ / speed)) latency`. -/
theorem account_wait (cfg : kconfig) (now : Nat) (current : task) (wakes : List wakeup)
    (ub : user_beancounter) (io : iolimit) (bytes : Nat) (old_ret : Int)
    (hio : ub.private_data2 = some io) (hs : io.throttle.speed ≠ 0)
    (hr : charge_in_range cfg.HZ now io.throttle bytes)
    (hidle : throttle_timeout io.throttle now = 0) :
    ∃ th', iolimit_virtinfo cfg now current wakes ub .VIRTINFO_IO_ACCOUNT bytes old_ret
        = some { ret := NOTIFY_OK
                 ub := { ub with private_data2 := some { io with throttle := th' } }
                 wait := none } ∧
      ((bytes : Int) ≤ (throttle_replenish cfg.HZ now io.throttle bytes).state →
        throttle_timeout th' now = 0) ∧
      ((throttle_replenish cfg.HZ now io.throttle bytes).state < bytes →
        throttle_timeout th' now =
          min (div_round_up
                (((bytes : Int) - (throttle_replenish cfg.HZ now io.throttle bytes).state).toNat
                  * cfg.HZ) io.throttle.speed)
              io.throttle.latency) := by
  obtain ⟨s1, hrep, -, -, -, -, hle, hgt⟩ :=
    throttle_charge_spec cfg.HZ now io.throttle bytes hr hs
  rw [hrep]
  simp only []
  unfold charge_in_range throttle.wf at hr
  obtain ⟨hHZ, ⟨w1, w2, w3, w4, w5, w6, w7⟩, hnow, hnear1, hnear2, hc0, hc1, -, -, -, -⟩ := hr
  have hwb : wrapS64 (bytes : Int) = bytes := wrapS64_of_range _ (by omega) (by omega)
  have hsp : 0 < io.throttle.speed := Nat.pos_of_ne_zero hs
  -- the clock is not ahead of now, or the latency bound is 0
  have hcase : io.throttle.time ≤ now ∨ io.throttle.latency = 0 := by
    rcases Nat.lt_or_ge now io.throttle.time with hlt | hge
    · right
      have hb : time_before io.throttle.time now = false :=
        time_before_false_of_le _ _ (by omega) (by omega) (by omega) (by omega)
      rw [throttle_timeout_eq _ _ hs hb, subU64_of_le _ _ (by omega) (by omega)] at hidle
      clear hle hgt
      rw [Nat.min_def] at hidle
      split_ifs at hidle <;> omega
    · left; exact hge
  have hnn : time_before now now = false :=
    time_before_false_of_le _ _ (by omega) (by omega) (le_refl _) (by omega)
  have h0 : subU64 now now = min 0 io.throttle.latency := by
    rw [subU64_of_le _ _ (le_refl _) (by omega)]; simp
  rcases hcase with hidle' | hlat
  · have hm : max io.throttle.time now = now := max_eq_right hidle'
    rw [hm] at hle hgt
    rcases le_or_lt (bytes : Int) s1 with hc | hc
    · have hch := hle hc
      rw [← hwb] at hch
      have hv := virtinfo_account_eq cfg now current wakes ub io bytes old_ret _ hio hs hch
      refine ⟨_, hv, ?_, ?_⟩
      · intro _
        exact throttle_timeout_at_clock _ now rfl (by omega)
      · intro h; exact absurd hc (not_le.mpr h)
    · obtain ⟨d, hd, hd0, hdH, hch⟩ := hgt hc
      rw [← hwb] at hch
      have hv := virtinfo_account_eq cfg now current wakes ub io bytes old_ret _ hio hs hch
      refine ⟨_, hv, ?_, ?_⟩
      · intro h; exact absurd h (not_le.mpr hc)
      · intro _
        have hdn : ((bytes : Int) - s1).toNat = d := by omega
        rw [hdn]
        have hS : div_round_up (d * cfg.HZ) io.throttle.speed < 4611686018427387904 := by
          have := div_round_up_le (d * cfg.HZ) io.throttle.speed hsp
          omega
        obtain ⟨c1, c2⟩ := clamp_from_now now io.throttle.latency _ (by omega) (by omega) hS
        refine throttle_timeout_eq_min _ now _ ?_ ?_ ?_
        · exact hs
        · exact c1
        · exact c2
  · rcases le_or_lt (bytes : Int) s1 with hc | hc
    · have hch := hle hc
      rw [← hwb] at hch
      have hv := virtinfo_account_eq cfg now current wakes ub io bytes old_ret _ hio hs hch
      refine ⟨_, hv, ?_, ?_⟩
      · intro _; exact throttle_timeout_latency_zero _ _ hlat
      · intro h; exact absurd hc (not_le.mpr h)
    · obtain ⟨d, hd, hd0, hdH, hch⟩ := hgt hc
      rw [← hwb] at hch
      have hv := virtinfo_account_eq cfg now current wakes ub io bytes old_ret _ hio hs hch
      refine ⟨_, hv, ?_, ?_⟩
      · intro h; exact absurd h (not_le.mpr hc)
      · intro _
        rw [hlat, Nat.min_zero]
        apply throttle_timeout_latency_zero
        rfl

/-- C5 amended, on a bucket of speed 1000 holding 4096 units: accounting 4096 bytes leaves the
timeout at 0. -/
theorem account_wait_witness :
    ∃ th', iolimit_virtinfo ⟨1000, 12, 64, 4⟩ 0 ⟨false, false⟩ []
          ⟨some ⟨⟨1000, 0, 1000, 0, 0, 4096⟩, ⟨0, 0, 0, 0, 0, 0⟩⟩, false, 0, 0⟩
          .VIRTINFO_IO_ACCOUNT 4096 0
        = some { ret := NOTIFY_OK
                 ub := ⟨some ⟨th', ⟨0, 0, 0, 0, 0, 0⟩⟩, false, 0, 0⟩
                 wait := none } ∧
      (((4096 : Nat) : Int) ≤ (throttle_replenish 1000 0 ⟨1000, 0, 1000, 0, 0, 4096⟩
          (4096 : Nat)).state → throttle_timeout th' 0 = 0) ∧
      ((throttle_replenish 1000 0 ⟨1000, 0, 1000, 0, 0, 4096⟩ (4096 : Nat)).state < (4096 : Nat) →
        throttle_timeout th' 0 =
          min (div_round_up
                ((((4096 : Nat) : Int) - (throttle_replenish 1000 0 ⟨1000, 0, 1000, 0, 0, 4096⟩
                    (4096 : Nat)).state).toNat * 1000) 1000)
              1000) :=
  account_wait ⟨1000, 12, 64, 4⟩ 0 ⟨false, false⟩ []
    ⟨some ⟨⟨1000, 0, 1000, 0, 0, 4096⟩, ⟨0, 0, 0, 0, 0, 0⟩⟩, false, 0, 0⟩
    ⟨⟨1000, 0, 1000, 0, 0, 4096⟩, ⟨0, 0, 0, 0, 0, 0⟩⟩ 4096 0 rfl (by decide) (by decide)
    (by with_unfolding_all rfl)

theorem div_round_up_unique (n d H : Nat) (hd : 0 < d) (h1 : n ≤ H * d) (h2 : H * d < n + d) :
    div_round_up n d = H := by
  rw [div_round_up_eq n d hd]
  apply Nat.div_eq_of_lt_le
  · omega
  · rw [Nat.succ_mul]; omega

theorem dvd_ticks_mul_speed (HZ s d : Nat) (hs : 0 < s) (hdiv : s ∣ HZ ∨ HZ ∣ s) :
    HZ ∣ div_round_up (d * HZ) s * s := by
  rcases hdiv with ⟨m, hm⟩ | h
  · have h1 : div_round_up (d * HZ) s = d * m := by
      apply div_round_up_unique _ _ _ hs
      · rw [hm]; apply le_of_eq; ring
      · rw [hm]
        have : d * m * s = d * (s * m) := by ring
        omega
    rw [h1, hm]
    exact ⟨d, by ring⟩
  · exact Dvd.dvd.mul_left h _

theorem account_in_range (HZ now : Nat) (th : throttle) (c : Nat) (hHZ : 0 < HZ) (hwf : th.wf)
    (hle : now ≤ th.time) (hL : th.time ≤ now + th.latency)
    (h0 : 0 ≤ th.state) (h1 : th.state < 2 ^ 61) (hc : c * HZ < 2 ^ 61) :
    charge_in_range HZ now th c := by
  unfold charge_in_range
  have hwf' := hwf
  unfold throttle.wf at hwf'
  obtain ⟨w1, w2, w3, w4, w5, w6, w7⟩ := hwf'
  have hcN : c ≤ c * HZ := Nat.le_mul_of_pos_right c hHZ
  have hz : now - th.time = 0 := Nat.sub_eq_zero_of_le hle
  refine ⟨hHZ, hwf, by omega, by omega, by omega, by omega, by omega, by omega, h1, ?_, ?_⟩
  · rw [hz, Nat.mul_zero]; norm_num
  · have h2 : ((c : Int) - th.state) * HZ ≤ (c : Int) * HZ :=
      mul_le_mul_of_nonneg_right (by omega) (by omega)
    have h3 : ((c : Int) * HZ) < 2 ^ 61 := by exact_mod_cast hc
    exact lt_of_le_of_lt h2 h3

theorem account_step_nodebt (HZ now s b L r t : Nat) (e : Int) (c : Nat) (hHZ : 0 < HZ)
    (hs : s ≠ 0) (hwf : throttle.wf ⟨s, b, L, r, t, e⟩) (hle : now ≤ t) (hL : t ≤ now + L)
    (h0 : 0 ≤ e) (h1 : e < 2 ^ 61) (hc : c * HZ < 2 ^ 61) (hce : (c : Int) ≤ e) :
    throttle_account HZ now ⟨s, b, L, r, t, e⟩ c = some ⟨s, b, L, r, t, e - c⟩ := by
  have hr := account_in_range HZ now ⟨s, b, L, r, t, e⟩ c hHZ hwf hle hL h0 h1 hc
  obtain ⟨s1, -, -, -, -, heq, hnd, -⟩ := throttle_charge_spec HZ now ⟨s, b, L, r, t, e⟩ c hr hs
  have hs1 : s1 = e := heq hle
  rw [hs1] at hnd
  have hch := hnd hce
  unfold throttle_account
  rw [hch]
  simp only []
  rw [max_eq_left hle, wrapS64_of_range _ (by omega) (by omega)]

theorem account_step_debt (HZ now s b L r t : Nat) (e : Int) (c d k : Nat) (hHZ : 0 < HZ)
    (hs : s ≠ 0) (hwf : throttle.wf ⟨s, b, L, r, t, e⟩) (hle : now ≤ t)
    (hnl : now + L < 2 ^ 64) (hr : r < HZ)
    (h0 : 0 ≤ e) (h1 : e < 2 ^ 61) (hc : c * HZ < 2 ^ 61) (hd : (d : Int) = c - e) (hd0 : 0 < d)
    (hk : div_round_up (d * HZ) s * s = HZ * k)
    (hlat : t + div_round_up (d * HZ) s ≤ now + L) :
    throttle_account HZ now ⟨s, b, L, r, t, e⟩ c
      = some ⟨s, b, L, r, t + div_round_up (d * HZ) s, (k : Int) - d⟩ := by
  have hcr := account_in_range HZ now ⟨s, b, L, r, t, e⟩ c hHZ hwf hle
    (by show t ≤ now + L; omega) h0 h1 hc
  have hwf' := hwf
  unfold throttle.wf at hwf'
  obtain ⟨w1, w2, w3, w4, w5, w6, w7⟩ := hwf'
  simp only [] at w1 w2 w3 w4 w5 w6 w7
  obtain ⟨s1, -, -, -, -, heq, -, hgt⟩ := throttle_charge_spec HZ now ⟨s, b, L, r, t, e⟩ c hcr hs
  have hs1 : s1 = e := heq hle
  rw [hs1] at hgt
  obtain ⟨d', hd', -, hdH, hch⟩ := hgt (by omega)
  have hdd : d' = d := by omega
  rw [hdd] at hch hdH
  simp only [] at hch
  have hsp : 0 < s := Nat.pos_of_ne_zero hs
  obtain ⟨hm1, hm2⟩ := div_round_up_mul (d * HZ) s hsp
  have hSle := div_round_up_le (d * HZ) s hsp
  rw [max_eq_left hle, clamp_eq now L t _ hle (by omega) hnl w3 (by omega),
    Nat.min_eq_left hlat, hk, Nat.mul_add_mod, Nat.mod_eq_of_lt hr,
    Nat.mul_add_div hHZ, Nat.div_eq_of_lt hr, Nat.add_zero] at hch
  have hkle : k ≤ HZ * k := Nat.le_mul_of_pos_left k hHZ
  unfold throttle_account
  rw [hch]
  simp only []
  have hcN : c ≤ c * HZ := Nat.le_mul_of_pos_right c hHZ
  rw [wrapS64_of_range _ (by omega) (by omega)]
  congr 2
  omega

theorem horizon_le (HZ s H K P : Nat) (a e : Int) (hs : 0 < s)
    (hinv : (s : Int) * H + HZ * a = HZ * P + HZ * e)
    (hsmall : 0 < H → (HZ : Int) * e < s)
    (hK : (HZ : Int) * P ≤ HZ * a + s * K) : H ≤ K := by
  rcases Nat.eq_zero_or_pos H with h | h
  · omega
  · have h1 := hsmall h
    have h2 : (s : Int) * H < s * (K + 1) := by linarith
    have h3 : (H : Int) < K + 1 := lt_of_mul_lt_mul_left h2 (by omega)
    omega

theorem account_run_inv (HZ now s b L r K : Nat) (a : Int) (hHZ : 0 < HZ) (hs : s ≠ 0)
    (hs32 : s < 2 ^ 32) (hb32 : b < 2 ^ 32) (hL32 : L < 2 ^ 32) (hr : r < HZ)
    (hr32 : r < 2 ^ 32) (hnl : now + L < 2 ^ 64) (hKL : K ≤ L) (hdiv : s ∣ HZ ∨ HZ ∣ s) :
    ∀ (cs : List Nat) (P H : Nat) (e : Int), 0 ≤ e → e < 2 ^ 61 → (P + cs.sum) * HZ < 2 ^ 61 →
      (s : Int) * H + HZ * a = HZ * P + HZ * e → (0 < H → (HZ : Int) * e < s) →
      (HZ : Int) * ((P + cs.sum : Nat) : Int) ≤ HZ * a + s * K →
      ∃ (H' : Nat) (e' : Int),
        account_run HZ now ⟨s, b, L, r, now + H, e⟩ cs = some ⟨s, b, L, r, now + H', e'⟩ ∧
        0 ≤ e' ∧ (s : Int) * H' + HZ * a = HZ * ((P + cs.sum : Nat) : Int) + HZ * e' ∧
        (0 < H' → (HZ : Int) * e' < s) := by
  intro cs
  induction cs with
  | nil =>
    intro P H e h0 h1 hsum hinv hsmall hK
    refine ⟨H, e, rfl, h0, ?_, hsmall⟩
    simpa using hinv
  | cons c cs ih =>
    intro P H e h0 h1 hsum hinv hsmall hK
    rw [List.sum_cons] at hsum hK ⊢
    have hsp : 0 < s := Nat.pos_of_ne_zero hs
    have hHZi : (0 : Int) < HZ := by exact_mod_cast hHZ
    have hPle : (HZ : Int) * P ≤ HZ * a + s * K := by
      have : (HZ : Int) * P ≤ HZ * ((P + (c + cs.sum) : Nat) : Int) :=
        mul_le_mul_of_nonneg_left (Int.ofNat_le.mpr (by omega)) (le_of_lt hHZi)
      linarith
    have hPc : (HZ : Int) * ((P + c : Nat) : Int) ≤ HZ * a + s * K := by
      have : (HZ : Int) * ((P + c : Nat) : Int) ≤ HZ * ((P + (c + cs.sum) : Nat) : Int) :=
        mul_le_mul_of_nonneg_left (Int.ofNat_le.mpr (by omega)) (le_of_lt hHZi)
      linarith
    have hHK : H ≤ K := horizon_le HZ s H K P a e hsp hinv hsmall hPle
    have hwf : throttle.wf ⟨s, b, L, r, now + H, e⟩ := by
      unfold throttle.wf
      exact ⟨hs32, hb32, hL32, hr32, by show now + H < 2 ^ 64; omega,
        by show -(2 ^ 63 : Int) ≤ e; omega, by show e < 2 ^ 63; omega⟩
    have hcH : c * HZ < 2 ^ 61 := by
      have : c * HZ ≤ (P + (c + cs.sum)) * HZ := Nat.mul_le_mul_right _ (by omega)
      omega
    have hsum' : (P + c + cs.sum) * HZ < 2 ^ 61 := by rw [Nat.add_assoc]; exact hsum
    have hK' : (HZ : Int) * ((P + c + cs.sum : Nat) : Int) ≤ HZ * a + s * K := by
      rw [Nat.add_assoc]; exact hK
    have hcz : (0 : Int) ≤ HZ * c := by positivity
    rcases le_or_lt (c : Int) e with hce | hce
    · have hstep := account_step_nodebt HZ now s b L r (now + H) e c hHZ hs hwf (by omega)
        (by omega) h0 h1 hcH hce
      obtain ⟨H', e', hrun, he', hinv', hsmall'⟩ := ih (P + c) H (e - c) (by omega) (by omega)
        hsum' (by push_cast; linarith) (fun h => by have := hsmall h; linarith) hK'
      refine ⟨H', e', ?_, he', ?_, hsmall'⟩
      · rw [account_run, hstep]
        exact hrun
      · rw [hinv', Nat.add_assoc]
    · obtain ⟨d, hd⟩ : ∃ d : Nat, (d : Int) = c - e := ⟨(c - e).toNat, by omega⟩
      have hd0 : 0 < d := by omega
      obtain ⟨k, hk⟩ := dvd_ticks_mul_speed HZ s d hsp hdiv
      obtain ⟨hm1, hm2⟩ := div_round_up_mul (d * HZ) s hsp
      have hstep := account_step_debt HZ now s b L r (now + H) e c d k hHZ hs hwf (by omega)
        hnl hr h0 h1 hcH hd hd0 hk
      obtain ⟨S, hS⟩ : ∃ S, S = div_round_up (d * HZ) s := ⟨_, rfl⟩
      rw [← hS] at hk hm1 hm2 hstep
      have hkI : (S : Int) * s = HZ * k := by exact_mod_cast hk
      have hm1I : (d : Int) * HZ ≤ S * s := by exact_mod_cast hm1
      have hm2I : (S : Int) * s < d * HZ + s := by exact_mod_cast hm2
      have hdI : (HZ : Int) * d = HZ * c - HZ * e := by rw [hd]; ring
      have hdk : d ≤ k := by
        apply Nat.le_of_mul_le_mul_left _ hHZ
        rw [← hk, Nat.mul_comm]; exact hm1
      have hinv' : (s : Int) * ((H + S : Nat) : Int) + HZ * a
          = HZ * ((P + c : Nat) : Int) + HZ * ((k : Int) - d) := by
        push_cast; linarith
      have hsmall' : (HZ : Int) * ((k : Int) - d) < s := by linarith
      have hHK' : H + S ≤ K :=
        horizon_le HZ s (H + S) K (P + c) a ((k : Int) - d) hsp hinv' (fun _ => hsmall') hPc
      have hke : (k : Int) - d ≤ HZ * ((k : Int) - d) :=
        le_mul_of_one_le_left (by omega) (by omega)
      obtain ⟨H', e', hrun, he', hinv'', hsmall''⟩ := ih (P + c) (H + S) ((k : Int) - d)
        (by omega) (by omega) hsum' hinv' (fun _ => hsmall') hK'
      refine ⟨H', e', ?_, he', ?_, hsmall''⟩
      · rw [account_run, hstep (by omega), Nat.add_assoc]
        exact hrun
      · rw [hinv'', Nat.add_assoc]

theorem account_run_single (HZ now : Nat) (th : throttle) (c : Nat) :
    account_run HZ now th [c] = throttle_account HZ now th c := by
  rw [account_run]
  cases throttle_account HZ now th c with
  | none => rfl
  | some th' => rfl

theorem horizon_closed (HZ s H T : Nat) (a e : Int) (hHZ : 0 < HZ) (hs : 0 < s) (he : 0 ≤ e)
    (hinv : (s : Int) * H + HZ * a = HZ * T + HZ * e)
    (hsmall : 0 < H → (HZ : Int) * e < s) :
    ((T : Int) ≤ a → H = 0 ∧ e = a - T) ∧
    (a < T → H = div_round_up ((T - a).toNat * HZ) s ∧
      (HZ : Int) * e = s * H - HZ * ((T - a).toNat : Int)) := by
  have hHZi : (0 : Int) < HZ := by exact_mod_cast hHZ
  have hez : (0 : Int) ≤ HZ * e := mul_nonneg (le_of_lt hHZi) he
  constructor
  · intro hTa
    have h1 : (HZ : Int) * T ≤ HZ * a := mul_le_mul_of_nonneg_left hTa (le_of_lt hHZi)
    have hH : H = 0 := by
      rcases Nat.eq_zero_or_pos H with h | h
      · exact h
      · have h2 := hsmall h
        have h3 : (s : Int) * H < s * 1 := by linarith
        have h4 : (H : Int) < 1 := lt_of_mul_lt_mul_left h3 (by omega)
        omega
    refine ⟨hH, ?_⟩
    rw [hH] at hinv
    have h5 : (HZ : Int) * e = HZ * (a - T) := by push_cast at hinv; linarith
    exact mul_left_cancel₀ (ne_of_gt hHZi) h5
  · intro hTa
    obtain ⟨D, hD⟩ : ∃ D : Nat, (D : Int) = T - a := ⟨((T : Int) - a).toNat, by omega⟩
    have hDn : ((T : Int) - a).toNat = D := by omega
    rw [hDn]
    have hDI : (HZ : Int) * D = HZ * T - HZ * a := by rw [hD]; ring
    have h1 : (HZ : Int) * a < HZ * T := mul_lt_mul_of_pos_left hTa hHZi
    have hH : 0 < H := by
      rcases Nat.eq_zero_or_pos H with h | h
      · rw [h] at hinv; push_cast at hinv; linarith
      · exact h
    have h2 := hsmall hH
    refine ⟨?_, by linarith⟩
    symm
    apply div_round_up_unique _ _ _ hs
    · have : ((D * HZ : Nat) : Int) ≤ ((H * s : Nat) : Int) := by push_cast; linarith
      exact_mod_cast this
    · have : ((H * s : Nat) : Int) < ((D * HZ + s : Nat) : Int) := by push_cast; linarith
      exact_mod_cast this

/-- C3 as stated fails on `throttle_charge` alone, which is level-triggered: on a fresh bucket of
speed 1000 (HZ 1000, burst 0) two `throttle_charge 500` at one instant leave the clock 500 ticks
ahead (the second call finds its amount covered by the tokens the first one bought), while one
`throttle_charge 1000` leaves it 1000 ticks ahead.  And with a speed that neither divides HZ nor
is a multiple of it the per-call rounding shows even when each charge is followed by
`balance -= amount`: at speed 1500 the amounts 1 and 2 leave the clock 3 ticks ahead, their total
3 leaves it 2 ticks ahead. -/
theorem charge_sequence_counterexample :
    throttle_charge 1000 0 ⟨1000, 0, 100000, 0, 0, 0⟩ 500
      = some ⟨1000, 0, 100000, 0, 500, 500⟩ ∧
    throttle_charge 1000 0 ⟨1000, 0, 100000, 0, 500, 500⟩ 500
      = some ⟨1000, 0, 100000, 0, 500, 500⟩ ∧
    throttle_charge 1000 0 ⟨1000, 0, 100000, 0, 0, 0⟩ 1000
      = some ⟨1000, 0, 100000, 0, 1000, 1000⟩ ∧
    account_run 1000 0 ⟨1500, 0, 100000, 0, 0, 0⟩ [1, 2]
      = some ⟨1500, 0, 100000, 500, 3, 1⟩ ∧
    account_run 1000 0 ⟨1500, 0, 100000, 0, 0, 0⟩ [3]
      = some ⟨1500, 0, 100000, 0, 2, 0⟩ := by
  refine ⟨?_, ?_, ?_, ?_, ?_⟩ <;> with_unfolding_all rfl

/-- C3, amended.  Take a bucket with speed > 0 whose clock is at `now`, with balance `a ≥ 0`,
where the speed divides HZ or is a multiple of it, and amounts `c_1..c_n` accounted at the
instant `now`, each by `throttle_charge c_i` followed by `balance -= c_i` (no overflow, the
latency bound not reached by the total).  The run leaves the bucket exactly as one such
accounting step of the total does: the clock stays at `now` when the total is within the
balance, and otherwise ends `ceil ((total - a) * HZ / speed)` ticks ahead of `now`. -/
theorem account_run_total (HZ now : Nat) (th : throttle) (cs : List Nat)
    (hHZ : 0 < HZ) (hs : th.speed ≠ 0) (hwf : th.wf) (hrem : th.remain < HZ)
    (hnl : now + th.latency < 2 ^ 64) (hclock : th.time = now)
    (ha0 : 0 ≤ th.state) (ha1 : th.state < 2 ^ 61)
    (hdiv : th.speed ∣ HZ ∨ HZ ∣ th.speed) (hsum : cs.sum * HZ < 2 ^ 61)
    (hlat : div_round_up ((((cs.sum : Nat) : Int) - th.state).toNat * HZ) th.speed
      ≤ th.latency) :
    ∃ th', account_run HZ now th cs = some th' ∧
      throttle_account HZ now th ((cs.sum : Nat) : Int) = some th' ∧
      (((cs.sum : Nat) : Int) ≤ th.state →
        th'.time = now ∧ th'.state = th.state - ((cs.sum : Nat) : Int)) ∧
      (th.state < ((cs.sum : Nat) : Int) →
        th'.time = now +
          div_round_up ((((cs.sum : Nat) : Int) - th.state).toNat * HZ) th.speed) := by
  obtain ⟨s, b, L, r, t, a⟩ := th
  unfold throttle.wf at hwf
  simp only [] at hs hwf hrem hnl hclock ha0 ha1 hdiv hlat ⊢
  obtain ⟨w1, w2, w3, w4, w5, w6, w7⟩ := hwf
  subst hclock
  have hsp : 0 < s := Nat.pos_of_ne_zero hs
  have hHZi : (0 : Int) < HZ := by exact_mod_cast hHZ
  obtain ⟨T, hT⟩ : ∃ T, T = cs.sum := ⟨_, rfl⟩
  rw [← hT] at hsum hlat ⊢
  obtain ⟨D, hD⟩ : ∃ D : Nat, D = ((T : Int) - a).toNat := ⟨_, rfl⟩
  rw [← hD] at hlat ⊢
  obtain ⟨hm1, hm2⟩ := div_round_up_mul (D * HZ) s hsp
  obtain ⟨K, hKd⟩ : ∃ K, K = div_round_up (D * HZ) s := ⟨_, rfl⟩
  rw [← hKd] at hlat hm1 hm2 ⊢
  have hK : (HZ : Int) * ((0 + T : Nat) : Int) ≤ HZ * a + s * K := by
    have h1 : (HZ : Int) * ((T : Int) - a) ≤ HZ * D :=
      mul_le_mul_of_nonneg_left (by omega) (le_of_lt hHZi)
    have h2 : ((D * HZ : Nat) : Int) ≤ ((K * s : Nat) : Int) := by exact_mod_cast hm1
    push_cast at h2 ⊢
    linarith
  have hi0 : (s : Int) * ((0 : Nat) : Int) + HZ * a = HZ * ((0 : Nat) : Int) + HZ * a := by simp
  have hlt0 : (0 : Nat) < 0 → (HZ : Int) * a < s := fun h => absurd h (lt_irrefl 0)
  obtain ⟨H1, e1, hrun1, he1, hinv1, hsm1⟩ :=
    account_run_inv HZ t s b L r K a hHZ hs w1 w2 w3 hrem w4 hnl hlat hdiv cs 0 0 a ha0 ha1
      (by rw [← hT, Nat.zero_add]; exact hsum) hi0 hlt0 (by rw [← hT]; exact hK)
  obtain ⟨H2, e2, hrun2, he2, hinv2, hsm2⟩ :=
    account_run_inv HZ t s b L r K a hHZ hs w1 w2 w3 hrem w4 hnl hlat hdiv [T] 0 0 a ha0 ha1
      (by rw [List.sum_singleton, Nat.zero_add]; exact hsum) hi0 hlt0
      (by rw [List.sum_singleton]; exact hK)
  rw [← hT, Nat.zero_add] at hinv1
  rw [List.sum_singleton, Nat.zero_add] at hinv2
  rw [account_run_single] at hrun2
  rw [Nat.add_zero] at hrun1 hrun2
  obtain ⟨c1, c2⟩ := horizon_closed HZ s H1 T a e1 hHZ hsp he1 hinv1 hsm1
  obtain ⟨c3, c4⟩ := horizon_closed HZ s H2 T a e2 hHZ hsp he2 hinv2 hsm2
  rw [← hD, ← hKd] at c2 c4
  have hsame : H2 = H1 ∧ e2 = e1 := by
    rcases le_or_lt (T : Int) a with h | h
    · obtain ⟨x1, x2⟩ := c1 h
      obtain ⟨x3, x4⟩ := c3 h
      exact ⟨by omega, by omega⟩
    · obtain ⟨x1, x2⟩ := c2 h
      obtain ⟨x3, x4⟩ := c4 h
      refine ⟨by omega, ?_⟩
      have : (HZ : Int) * e2 = HZ * e1 := by rw [x2, x4, x1, x3]
      exact mul_left_cancel₀ (ne_of_gt hHZi) this
  rw [hsame.1, hsame.2] at hrun2
  refine ⟨_, hrun1, hrun2, ?_, ?_⟩
  · intro h
    obtain ⟨x1, x2⟩ := c1 h
    exact ⟨by show t + H1 = t; omega, x2⟩
  · intro h
    obtain ⟨x1, -⟩ := c2 h
    show t + H1 = t + K
    omega

/-- C3 amended, on the claim's own example: speed 1000, burst 0, two amounts of 500 leave the
bucket as one accounting step of 1000 does, the clock 1000 ticks ahead. -/
theorem account_run_total_witness :
    ∃ th', account_run 1000 0 ⟨1000, 0, 100000, 0, 0, 0⟩ [500, 500] = some th' ∧
      throttle_account 1000 0 ⟨1000, 0, 100000, 0, 0, 0⟩ ((([500, 500] : List Nat).sum : Nat) : Int)
        = some th' ∧
      (((([500, 500] : List Nat).sum : Nat) : Int) ≤ 0 →
        th'.time = 0 ∧ th'.state = 0 - ((([500, 500] : List Nat).sum : Nat) : Int)) ∧
      ((0 : Int) < ((([500, 500] : List Nat).sum : Nat) : Int) →
        th'.time = 0 +
          div_round_up ((((([500, 500] : List Nat).sum : Nat) : Int) - 0).toNat * 1000) 1000) :=
  account_run_total 1000 0 ⟨1000, 0, 100000, 0, 0, 0⟩ [500, 500] (by decide) (by decide)
    (by decide) (by decide) (by decide) rfl (by decide) (by decide) (Or.inl (dvd_refl _))
    (by decide) (by with_unfolding_all decide)

theorem virtinfo_op_account_eq (cfg : kconfig) (now : Nat) (current : task)
    (ub : user_beancounter) (io : iolimit) (th : throttle)
    (hio : ub.private_data2 = some io) (hs : io.iops.speed ≠ 0)
    (hp : current.PF_SWAPWRITE = false)
    (hacc : throttle_account cfg.HZ now io.iops 1 = some th) :
    iolimit_virtinfo cfg now current [] ub .VIRTINFO_IO_OP_ACCOUNT 0 0
      = some { ret := NOTIFY_OK
               ub := { ub with private_data2 := some { io with iops := th } }
               wait := none } := by
  have hboth : ¬ (io.throttle.speed = 0 ∧ io.iops.speed = 0) := fun h => hs h.2
  unfold throttle_account at hacc
  cases hch : throttle_charge cfg.HZ now io.iops 1 with
  | none => rw [hch] at hacc; cases hacc
  | some th1 =>
    rw [hch] at hacc
    simp only [Option.some.injEq] at hacc
    unfold iolimit_virtinfo
    rw [hio]
    simp only [if_neg hboth, if_neg hs, hch]
    rw [if_pos (Or.inr (by rw [hp]; decide)), hacc]

theorem iops_step (HZ t0 b L : Nat) (hHZ : 0 < HZ) (hHZ32 : HZ < 2 ^ 32) (hb : b < 2 ^ 32)
    (hL : L < 2 ^ 32) (hLHZ : HZ ≤ L) (hwrap : t0 + HZ + L < 2 ^ 64)
    (n p t r time : Nat) (e : Int) (hpt : p ≤ t) (ht0 : t0 ≤ p) (ht : t < t0 + HZ)
    (hr : r < HZ) (h1 : t0 ≤ time) (h2 : time ≤ p + L) (h3 : 0 ≤ e) (h4 : e ≤ 11 * n)
    (hn : n ≤ 2 ^ 32)
    (h5 : t0 + HZ ≤ time ∨ (n : Int) * HZ + HZ * e + r ≤ 10 * ((time : Int) - t0)) :
    ∃ (r' time' : Nat) (e' : Int),
      throttle_account HZ t ⟨10, b, L, r, time, e⟩ 1 = some ⟨10, b, L, r', time', e'⟩ ∧
      r' < HZ ∧ t0 ≤ time' ∧ time' ≤ t + L ∧ 0 ≤ e' ∧ e' ≤ 11 * ((n + 1 : Nat) : Int) ∧
      (t0 + HZ ≤ time' ∨
        ((n + 1 : Nat) : Int) * HZ + HZ * e' + r' ≤ 10 * ((time' : Int) - t0)) := by
  have hwf : throttle.wf ⟨10, b, L, r, time, e⟩ := by
    unfold throttle.wf
    exact ⟨by norm_num, hb, hL, by show r < 2 ^ 32; omega, by show time < 2 ^ 64; omega,
      by show -(2 ^ 63 : Int) ≤ e; omega, by show e < 2 ^ 63; omega⟩
  have hgenlt : t - time < HZ := by omega
  have hcr : charge_in_range HZ t ⟨10, b, L, r, time, e⟩ 1 := by
    unfold charge_in_range
    refine ⟨hHZ, hwf, by omega, by show time < t + 2 ^ 63; omega,
      by show t ≤ time + 2 ^ 63; omega, by norm_num, by norm_num, by show -(2 ^ 61 : Int) < e; omega,
      by show e < 2 ^ 61; omega, by show 10 * (t - time) < 2 ^ 61; omega, ?_⟩
    show ((1 : Int) - e) * HZ < 2 ^ 61
    have h6 : ((1 : Int) - e) * HZ ≤ 1 * HZ := mul_le_mul_of_nonneg_right (by omega) (by omega)
    omega
  obtain ⟨s1, -, hge, hgen, hgen2, heq, hnd, hdebt⟩ :=
    throttle_charge_spec HZ t ⟨10, b, L, r, time, e⟩ 1 hcr (by norm_num)
  simp only [] at hge hgen hgen2 heq hnd hdebt
  have hG : 10 * (t - time) / HZ ≤ 10 := Nat.div_le_of_le_mul (by omega)
  have hmax1 : t ≤ max time t := le_max_right _ _
  have hmax2 : time ≤ max time t := le_max_left _ _
  have hmax3 : max time t ≤ t + L := max_le (by omega) (by omega)
  unfold throttle_account
  rcases le_or_lt (1 : Int) s1 with hc | hc
  · rw [hnd hc]
    clear hnd hdebt
    simp only []
    rw [wrapS64_of_range _ (by omega) (by omega)]
    refine ⟨r, max time t, s1 - 1, rfl, hr, by omega, hmax3, by omega, by push_cast; omega, ?_⟩
    rcases h5 with hA | hB
    · left; omega
    · right
      rcases le_total time t with htt | htt
      · rw [max_eq_right htt]
        have hgI : ((10 * (t - time) : Nat) : Int) = 10 * (t : Int) - 10 * time := by omega
        rw [hgI] at hgen
        push_cast
        linarith
      · rw [max_eq_left htt]
        have hs1 : s1 = e := heq htt
        rw [hs1]
        push_cast
        linarith
  · have hs10 : s1 = 0 := by omega
    have he0 : e = 0 := by omega
    obtain ⟨d, hd, -, -, hch⟩ := hdebt hc
    clear hnd hdebt
    have hd1 : d = 1 := by omega
    rw [hd1, Nat.one_mul] at hch
    obtain ⟨hm1, hm2⟩ := div_round_up_mul HZ 10 (by norm_num)
    obtain ⟨S, hS⟩ : ∃ S, S = div_round_up HZ 10 := ⟨_, rfl⟩
    rw [← hS] at hch hm1 hm2
    rw [clamp_eq t L (max time t) S hmax1 hmax3 (by omega) hL (by omega)] at hch
    have hdm := Nat.div_add_mod (S * 10 + r) HZ
    have hml := Nat.mod_lt (S * 10 + r) hHZ
    have hq1 : 0 < (S * 10 + r) / HZ := Nat.div_pos (by omega) hHZ
    have hq2 : (S * 10 + r) / HZ < 12 := Nat.div_lt_of_lt_mul (by omega)
    obtain ⟨q, hq⟩ : ∃ q, q = (S * 10 + r) / HZ := ⟨_, rfl⟩
    obtain ⟨r', hr'⟩ : ∃ r', r' = (S * 10 + r) % HZ := ⟨_, rfl⟩
    rw [← hq, ← hr'] at hdm
    rw [← hq] at hq1 hq2 hch
    rw [← hr'] at hml hch
    rw [hch]
    simp only []
    rw [hs10, wrapS64_of_range _ (by omega) (by omega)]
    have hdmI : (HZ : Int) * q + r' = S * 10 + r := by exact_mod_cast hdm
    refine ⟨r', min (max time t + S) (t + L), 0 + (q : Int) - 1, rfl, hml,
      le_min (by omega) (by omega), min_le_right _ _, by omega, by push_cast; omega, ?_⟩
    rcases le_or_lt (max time t + S) (t + L) with hcl | hcl
    · rw [min_eq_left hcl]
      rcases h5 with hA | hB
      · left; omega
      · right
        have hmI : (time : Int) ≤ ((max time t : Nat) : Int) := by exact_mod_cast hmax2
        rw [he0] at hB
        push_cast
        push_cast at hmI
        linarith
    · rw [min_eq_right (le_of_lt hcl)]
      left; omega

theorem iops_run_inv (cfg : kconfig) (current : task) (thr : throttle) (de : Bool)
    (dp dpe t0 b L : Nat) (hHZ : 0 < cfg.HZ) (hHZ32 : cfg.HZ < 2 ^ 32) (hb : b < 2 ^ 32)
    (hL : L < 2 ^ 32) (hLHZ : cfg.HZ ≤ L) (hwrap : t0 + cfg.HZ + L < 2 ^ 64)
    (hp : current.PF_SWAPWRITE = false) :
    ∀ (ts : List Nat) (n p r time : Nat) (e : Int),
      List.Chain (· ≤ ·) p ts → (∀ t ∈ ts, t < t0 + cfg.HZ) → t0 ≤ p →
      n + ts.length ≤ 2 ^ 32 → r < cfg.HZ → t0 ≤ time → time ≤ p + L → 0 ≤ e → e ≤ 11 * n →
      (t0 + cfg.HZ ≤ time ∨ (n : Int) * cfg.HZ + cfg.HZ * e + r ≤ 10 * ((time : Int) - t0)) →
      ∃ (r' time' : Nat) (e' : Int),
        iops_charge_run cfg current ⟨some ⟨thr, ⟨10, b, L, r, time, e⟩⟩, de, dp, dpe⟩ ts
          = some ⟨some ⟨thr, ⟨10, b, L, r', time', e'⟩⟩, de, dp, dpe⟩ ∧
        time' ≤ ts.getLastD p + L ∧ 0 ≤ e' ∧
        (t0 + cfg.HZ ≤ time' ∨
          ((n + ts.length : Nat) : Int) * cfg.HZ + cfg.HZ * e' + r'
            ≤ 10 * ((time' : Int) - t0)) := by
  intro ts
  induction ts with
  | nil =>
    intro n p r time e _ _ _ _ _ _ h2 h3 _ h5
    exact ⟨r, time, e, rfl, h2, h3, h5⟩
  | cons t ts ih =>
    intro n p r time e hch hwin ht0 hn hr h1 h2 h3 h4 h5
    rw [List.chain_cons] at hch
    obtain ⟨hpt, hch'⟩ := hch
    have ht : t < t0 + cfg.HZ := hwin t (List.mem_cons_self _ _)
    rw [List.length_cons] at hn
    obtain ⟨r1, time1, e1, hacc, j1, j2, j3, j4, j5, j6⟩ :=
      iops_step cfg.HZ t0 b L hHZ hHZ32 hb hL hLHZ hwrap n p t r time e hpt ht0 ht hr h1 h2 h3
        h4 (by omega) h5
    have hook := virtinfo_op_account_eq cfg t current
      ⟨some ⟨thr, ⟨10, b, L, r, time, e⟩⟩, de, dp, dpe⟩ ⟨thr, ⟨10, b, L, r, time, e⟩⟩ _ rfl
      (by show (10 : Nat) ≠ 0; norm_num) hp hacc
    obtain ⟨r', time', e', hrun, k1, k2, k3⟩ := ih (n + 1) t r1 time1 e1 hch'
      (fun x hx => hwin x (List.mem_cons_of_mem _ hx)) (by omega) (by omega) j1 j2 j3 j4 j5 j6
    refine ⟨r', time', e', ?_, ?_, k2, ?_⟩
    · rw [iops_charge_run, hook]
      exact hrun
    · rw [List.getLastD_cons]; exact k1
    · rw [List.length_cons]
      have : n + (ts.length + 1) = n + 1 + ts.length := by omega
      rw [this]; exact k3

/-- C8 as stated fails for a short latency bound: with HZ 1000, speed 10 and a latency bound of
1 tick, ten charges at `t0 = 5000` leave the clock at 5001 (the clamp drops the rest of the
debt), the eleventh charge at 5101 finds one token replenished, takes it without debt, and
`throttle_timeout` at 5101 is 0. -/
theorem eleventh_charge_counterexample :
    iops_charge_run ⟨1000, 12, 64, 4⟩ ⟨false, false⟩
        ⟨some ⟨⟨0, 0, 0, 0, 0, 0⟩, ⟨10, 0, 1, 0, 5000, 0⟩⟩, false, 0, 0⟩
        [5000, 5000, 5000, 5000, 5000, 5000, 5000, 5000, 5000, 5000, 5101]
      = some ⟨some ⟨⟨0, 0, 0, 0, 0, 0⟩, ⟨10, 0, 1, 0, 5101, 0⟩⟩, false, 0, 0⟩ ∧
    throttle_timeout ⟨10, 0, 1, 0, 5101, 0⟩ 5101 = 0 := by
  refine ⟨?_, ?_⟩ <;> with_unfolding_all rfl

/-- C8, amended.  For an iops bucket set up at time `t0` with speed 10 per second (balance 0,
remainder 0, any burst) and a latency bound of at least one second (`HZ` ticks), after any 11
non-exempt `VIRTINFO_IO_OP_ACCOUNT` charges made at non-decreasing times in `[t0, t0 + HZ)`
(no jiffies wrap-around), `throttle_timeout` evaluated at the time of the 11th charge is greater
than 0. -/
theorem eleventh_charge_waits (cfg : kconfig) (current : task) (ub : user_beancounter)
    (io : iolimit) (t0 b L : Nat) (times : List Nat)
    (hHZ : 0 < cfg.HZ) (hHZ32 : cfg.HZ < 2 ^ 32) (hb : b < 2 ^ 32) (hL : L < 2 ^ 32)
    (hlat : cfg.HZ ≤ L) (hwrap : t0 + cfg.HZ + L < 2 ^ 64)
    (hio : ub.private_data2 = some io) (hiops : io.iops = ⟨10, b, L, 0, t0, 0⟩)
    (hp : current.PF_SWAPWRITE = false) (hlen : times.length = 11)
    (hmono : List.Chain (· ≤ ·) t0 times) (hwin : ∀ t ∈ times, t < t0 + cfg.HZ) :
    ∃ ub' io', iops_charge_run cfg current ub times = some ub' ∧
      ub'.private_data2 = some io' ∧ 0 < throttle_timeout io'.iops (times.getLastD t0) := by
  obtain ⟨pd, de, dp, dpe⟩ := ub
  obtain ⟨thr, iops⟩ := io
  simp only [] at hio hiops
  subst hio hiops
  obtain ⟨r', time', e', hrun, k1, k2, k3⟩ :=
    iops_run_inv cfg current thr de dp dpe t0 b L hHZ hHZ32 hb hL hlat hwrap hp times 0 t0 0 t0 0
      hmono hwin (le_refl _) (by omega) hHZ (le_refl _) (by omega) (le_refl _) (by norm_num)
      (Or.inr (by simp))
  refine ⟨⟨some ⟨thr, ⟨10, b, L, r', time', e'⟩⟩, de, dp, dpe⟩, ⟨thr, ⟨10, b, L, r', time', e'⟩⟩,
    hrun, rfl, ?_⟩
  show 0 < throttle_timeout ⟨10, b, L, r', time', e'⟩ (times.getLastD t0)
  have hlast : times.getLastD t0 < t0 + cfg.HZ := by
    cases times with
    | nil => cases hlen
    | cons a l =>
      apply hwin
      have hmem := List.getLast_mem (List.cons_ne_nil a l)
      rw [List.getLast_eq_getLastD] at hmem
      rw [List.getLastD_cons]
      exact hmem
  obtain ⟨q, hq⟩ : ∃ q, q = times.getLastD t0 := ⟨_, rfl⟩
  rw [← hq] at hlast k1 ⊢
  have hgt : q < time' := by
    rcases k3 with hA | hB
    · omega
    · rw [hlen] at hB
      have hHZi : (0 : Int) < cfg.HZ := by exact_mod_cast hHZ
      have hez : (0 : Int) ≤ cfg.HZ * e' := mul_nonneg (le_of_lt hHZi) k2
      push_cast at hB
      omega
  have hbf : time_before time' q = false :=
    time_before_false_of_le time' q (by omega) (by omega) (le_of_lt hgt) (by omega)
  rw [throttle_timeout_eq _ _ (by show (10 : Nat) ≠ 0; norm_num) hbf]
  show 0 < min (subU64 time' q) L
  rw [subU64_of_le _ _ (le_of_lt hgt) (by omega)]
  exact lt_min (by omega) (by omega)

/-- C8 amended, at HZ 1000 with a latency bound of 1000 ticks and all 11 charges made at
`t0 = 5000`. -/
theorem eleventh_charge_waits_witness :
    ∃ ub' io', iops_charge_run ⟨1000, 12, 64, 4⟩ ⟨false, false⟩
        ⟨some ⟨⟨0, 0, 0, 0, 0, 0⟩, ⟨10, 0, 1000, 0, 5000, 0⟩⟩, false, 0, 0⟩
        [5000, 5000, 5000, 5000, 5000, 5000, 5000, 5000, 5000, 5000, 5000] = some ub' ∧
      ub'.private_data2 = some io' ∧
      0 < throttle_timeout io'.iops
        (([5000, 5000, 5000, 5000, 5000, 5000, 5000, 5000, 5000, 5000, 5000] : List Nat).getLastD
          5000) :=
  eleventh_charge_waits ⟨1000, 12, 64, 4⟩ ⟨false, false⟩
    ⟨some ⟨⟨0, 0, 0, 0, 0, 0⟩, ⟨10, 0, 1000, 0, 5000, 0⟩⟩, false, 0, 0⟩
    ⟨⟨0, 0, 0, 0, 0, 0⟩, ⟨10, 0, 1000, 0, 5000, 0⟩⟩ 5000 0 1000
    [5000, 5000, 5000, 5000, 5000, 5000, 5000, 5000, 5000, 5000, 5000]
    (by decide) (by decide) (by decide) (by decide) (by decide) (by decide) rfl rfl rfl rfl
    (by simp) (by decide)

/-- C21. For every counter value `v` of `ub_tmpfs_respages` (an `unsigned long`) and every size
`s`, `do_ub_tmpfs_respages_sub` leaves the counter at `v - s` when `s ≤ v` and at 0 when `s > v`;
`uncharge_warn` is called, with `(s, v)`, exactly in the second case; the counter never grows,
so it does not wrap around. -/
theorem tmpfs_respages_sub_clamped (ub : tmpfs_beancounter) (s : Nat)
    (hv : ub.ub_tmpfs_respages < 2 ^ 64) :
    (s ≤ ub.ub_tmpfs_respages →
      do_ub_tmpfs_respages_sub ub s
        = { ub with ub_tmpfs_respages := ub.ub_tmpfs_respages - s }) ∧
    (ub.ub_tmpfs_respages < s →
      do_ub_tmpfs_respages_sub ub s
        = { ub_tmpfs_respages := 0
            uncharge_warn := ub.uncharge_warn ++ [(s, ub.ub_tmpfs_respages)] }) ∧
    (do_ub_tmpfs_respages_sub ub s).ub_tmpfs_respages ≤ ub.ub_tmpfs_respages ∧
    ((do_ub_tmpfs_respages_sub ub s).uncharge_warn ≠ ub.uncharge_warn ↔
      ub.ub_tmpfs_respages < s) := by
  have hself : subU64 ub.ub_tmpfs_respages ub.ub_tmpfs_respages = 0 := by
    rw [subU64_of_le _ _ (le_refl _) (by omega)]; omega
  by_cases h : ub.ub_tmpfs_respages < s
  · have e : do_ub_tmpfs_respages_sub ub s
        = { ub_tmpfs_respages := 0
            uncharge_warn := ub.uncharge_warn ++ [(s, ub.ub_tmpfs_respages)] } := by
      unfold do_ub_tmpfs_respages_sub
      rw [if_pos h, hself]
    refine ⟨fun h' => absurd h (by omega), fun _ => e, ?_, ?_⟩
    · rw [e]; exact Nat.zero_le _
    · rw [e]
      refine ⟨fun _ => h, fun _ => ?_⟩
      show ub.uncharge_warn ++ [(s, ub.ub_tmpfs_respages)] ≠ ub.uncharge_warn
      intro hc
      have := congrArg List.length hc
      simp at this
  · have hle : s ≤ ub.ub_tmpfs_respages := by omega
    have e : do_ub_tmpfs_respages_sub ub s
        = { ub with ub_tmpfs_respages := ub.ub_tmpfs_respages - s } := by
      unfold do_ub_tmpfs_respages_sub
      rw [if_neg h, subU64_of_le _ _ hle (by omega)]
    refine ⟨fun _ => e, fun h' => absurd h' h, ?_, ?_⟩
    · rw [e]; exact Nat.sub_le _ _
    · rw [e]
      exact ⟨fun hc => absurd rfl hc, fun h' => absurd h' h⟩

/-- C21 on a counter holding 5 pages: subtracting 3 leaves 2 without a warning, subtracting 8
leaves 0 and warns. -/
theorem tmpfs_respages_sub_clamped_witness :
    do_ub_tmpfs_respages_sub ⟨5, []⟩ 3 = ⟨2, []⟩ ∧
    do_ub_tmpfs_respages_sub ⟨5, []⟩ 8 = ⟨0, [(8, 5)]⟩ :=
  ⟨(tmpfs_respages_sub_clamped ⟨5, []⟩ 3 (by decide)).1 (by decide),
   (tmpfs_respages_sub_clamped ⟨5, []⟩ 8 (by decide)).2.1 (by decide)⟩

theorem clamp_min (now L time S : Nat) (h1 : now ≤ time)
    (h2 : time + S < 18446744073709551616) (h3 : now + L < 18446744073709551616)
    (h4 : time + S < now + L + 9223372036854775808) (hL : L < 4294967296) :
    (if time_after (addU64 time S) (addU64 now L) then addU64 now L else addU64 time S)
      = min (time + S) (now + L) := by
  have hA : addU64 now L = now + L := by unfold addU64; omega
  have hB : addU64 time S = time + S := by unfold addU64; omega
  have hC := time_after_iff (time + S) (now + L) h2 h3
  rw [hA, hB, Nat.min_def]
  by_cases hc : time_after (time + S) (now + L) = true
  · rw [if_pos hc]
    rw [hC] at hc
    split_ifs <;> omega
  · rw [if_neg hc]
    rw [hC] at hc
    split_ifs <;> omega

/-- `throttle_charge` in closed form with the clamp written as a minimum: no overflow, the clock at
most `2^62` ticks ahead of `now`, no jiffies wrap-around. -/
theorem throttle_charge_closed (HZ now : Nat) (th : throttle) (charge : Int)
    (h : charge_in_range HZ now th charge) (hs : th.speed ≠ 0)
    (hfar : th.time ≤ now + 4611686018427387904) (hnw : now < 9223372036854775808) :
    ∃ s1 : Int,
      throttle_replenish HZ now th charge = { th with time := max th.time now, state := s1 } ∧
      (charge ≤ s1 →
        throttle_charge HZ now th charge = some { th with time := max th.time now, state := s1 }) ∧
      (s1 < charge → ∃ d : Nat, (d : Int) = charge - s1 ∧ 0 < d ∧ d * HZ < 2 ^ 61 ∧
        throttle_charge HZ now th charge =
          some { th with
                 time := min (max th.time now + div_round_up (d * HZ) th.speed)
                           (now + th.latency)
                 remain := (div_round_up (d * HZ) th.speed * th.speed + th.remain) % HZ
                 state := s1 + ((div_round_up (d * HZ) th.speed * th.speed + th.remain) / HZ : Nat) }) := by
  obtain ⟨s1, hrep, -, -, -, -, hnd, hdebt⟩ := throttle_charge_spec HZ now th charge h hs
  refine ⟨s1, hrep, hnd, ?_⟩
  intro hlt
  obtain ⟨d, hd, hd0, hdH, hch⟩ := hdebt hlt
  clear hdebt hnd
  refine ⟨d, hd, hd0, hdH, ?_⟩
  unfold charge_in_range throttle.wf at h
  obtain ⟨hHZ, ⟨w1, w2, w3, w4, w5, w6, w7⟩, -, -, -, -, -, -, -, -, -⟩ := h
  have hsp : 0 < th.speed := Nat.pos_of_ne_zero hs
  have hSle := div_round_up_le (d * HZ) th.speed hsp
  have hm1 : now ≤ max th.time now := le_max_right _ _
  have hm2 : max th.time now ≤ now + 4611686018427387904 := max_le hfar (by omega)
  rw [clamp_min now th.latency (max th.time now) _ hm1 (by omega) (by omega) (by omega)
    w3] at hch
  exact hch

/-- C22. Debt step of `throttle_charge`, for a bucket with speed > 0 (no 64-bit overflow, the
clock at most `2^62` ticks ahead, jiffies wrap-around aside): the clock after the replenish step,
`base`, is `now` if the clock was in the past and the unchanged clock otherwise; for an amount
greater than the balance left by the replenish step the new clock is
`min (base + ceil (deficit * HZ / speed)) (now + latency)` with `deficit = amount - balance`; for an
amount within that balance the clock stays at `base`. -/
theorem debt_step_clock (HZ now : Nat) (th : throttle) (amount : Int)
    (h : charge_in_range HZ now th amount) (hs : th.speed ≠ 0)
    (hfar : th.time ≤ now + 2 ^ 62) (hnw : now < 2 ^ 63) :
    (throttle_replenish HZ now th amount).time = (if th.time < now then now else th.time) ∧
    ((throttle_replenish HZ now th amount).state < amount →
      ∃ th', throttle_charge HZ now th amount = some th' ∧
        th'.time = min ((throttle_replenish HZ now th amount).time +
            div_round_up
              ((amount - (throttle_replenish HZ now th amount).state).toNat * HZ) th.speed)
          (now + th.latency)) ∧
    (amount ≤ (throttle_replenish HZ now th amount).state →
      ∃ th', throttle_charge HZ now th amount = some th' ∧
        th'.time = (throttle_replenish HZ now th amount).time) := by
  obtain ⟨s1, hrep, hnd, hdebt⟩ :=
    throttle_charge_closed HZ now th amount h hs (by omega) (by omega)
  rw [hrep]
  refine ⟨?_, ?_, ?_⟩
  · show max th.time now = _
    clear hnd hdebt
    split_ifs with hc
    · exact max_eq_right (le_of_lt hc)
    · exact max_eq_left (by omega)
  · intro hlt
    obtain ⟨d, hd, -, -, hch⟩ := hdebt hlt
    clear hnd hdebt
    refine ⟨_, hch, ?_⟩
    have hdn : (amount - s1).toNat = d := by
      have : amount - s1 = (d : Int) := hd.symm
      rw [this]; exact Int.toNat_ofNat d
    show min _ _ = min (max th.time now + div_round_up ((amount - s1).toNat * HZ) th.speed) _
    rw [hdn]
  · intro hle
    exact ⟨_, hnd hle, rfl⟩

/-- C22 on a bucket of speed 1000 (HZ 1000, latency 1000 ticks) whose clock is 100 ticks in the
past with balance 0 and burst 0: a charge of 500 at `now = 100` puts the clock at
`min (100 + 400) (100 + 1000)`. -/
theorem debt_step_clock_witness :
    (throttle_replenish 1000 100 ⟨1000, 0, 1000, 0, 0, 0⟩ 500).time
      = (if (0 : Nat) < 100 then 100 else 0) ∧
    ((throttle_replenish 1000 100 ⟨1000, 0, 1000, 0, 0, 0⟩ 500).state < 500 →
      ∃ th', throttle_charge 1000 100 ⟨1000, 0, 1000, 0, 0, 0⟩ 500 = some th' ∧
        th'.time = min ((throttle_replenish 1000 100 ⟨1000, 0, 1000, 0, 0, 0⟩ 500).time +
            div_round_up
              (((500 : Int) - (throttle_replenish 1000 100 ⟨1000, 0, 1000, 0, 0, 0⟩ 500).state).toNat
                * 1000) 1000)
          (100 + 1000)) ∧
    ((500 : Int) ≤ (throttle_replenish 1000 100 ⟨1000, 0, 1000, 0, 0, 0⟩ 500).state →
      ∃ th', throttle_charge 1000 100 ⟨1000, 0, 1000, 0, 0, 0⟩ 500 = some th' ∧
        th'.time = (throttle_replenish 1000 100 ⟨1000, 0, 1000, 0, 0, 0⟩ 500).time) :=
  debt_step_clock 1000 100 ⟨1000, 0, 1000, 0, 0, 0⟩ 500 (by decide) (by decide) (by decide)
    (by decide)

/-- The replenish step in closed form when the clock is in the past (no overflow). -/
theorem throttle_replenish_closed (HZ now : Nat) (th : throttle) (charge : Int)
    (h : charge_in_range HZ now th charge) (hlt : th.time < now) :
    throttle_replenish HZ now th charge =
      { th with
        state :=
          if th.state + ((th.speed * (now - th.time) / HZ : Nat) : Int) ≤ charge + th.burst
          then th.state + ((th.speed * (now - th.time) / HZ : Nat) : Int)
          else if th.state < charge + th.burst then charge + th.burst
          else th.state
        time := now } := by
  unfold charge_in_range throttle.wf at h
  obtain ⟨hHZ, hwf, hnow, hnear1, hnear2, hc0, hc1, hs0, hs1, hgen, hdef⟩ := h
  obtain ⟨w1, w2, w3, w4, w5, w6, w7⟩ := hwf
  clear hdef
  have hb : time_before th.time now = true :=
    time_before_true_of_lt _ _ (by omega) (by omega) hlt (by omega)
  rw [throttle_replenish_before _ _ _ _ hb]
  have hsub : subU64 now th.time = now - th.time :=
    subU64_of_le _ _ (by omega) (by omega)
  rw [hsub]
  clear hsub hb
  obtain ⟨P, hP⟩ : ∃ P, P = th.speed * (now - th.time) := ⟨_, rfl⟩
  rw [← hP] at hgen ⊢
  clear hP
  have hPm : P % 18446744073709551616 = P := by omega
  rw [hPm]
  have hG1 : P / HZ ≤ P := Nat.div_le_self _ _
  obtain ⟨G, hG⟩ : ∃ G, G = P / HZ := ⟨_, rfl⟩
  rw [← hG] at hG1 ⊢
  clear hG hPm
  rw [wrapS64_of_range (G : Int) (by omega) (by omega),
    wrapS64_of_range ((G : Int) + th.state) (by omega) (by omega),
    wrapS64_of_range (charge + (th.burst : Int)) (by omega) (by omega),
    add_comm (G : Int) th.state]

/-- C23 as stated fails.  The remainder is not part of the replenish step: a bucket of speed 1
with remainder 999 (HZ 1000) whose clock is one tick in the past generates
`(1 * 1 + 999) / 1000 = 1` unit if the remainder is counted, below the ceiling 5, yet its balance
stays 0 and the remainder stays 999.  And the ceiling is not a cap on a balance already above it:
5000 units stay 5000 for an amount of 1 with burst 0. -/
theorem replenish_remainder_counterexample :
    (0 : Nat) < 1 ∧ ((1 * (1 - 0) + 999) / 1000 : Nat) = 1 ∧
    throttle_replenish 1000 1 ⟨1, 0, 1000, 999, 0, 0⟩ 5 = ⟨1, 0, 1000, 999, 1, 0⟩ ∧
    throttle_replenish 1000 100 ⟨1000, 0, 100, 0, 0, 5000⟩ 1 = ⟨1000, 0, 100, 0, 100, 5000⟩ := by
  refine ⟨by decide, by decide, ?_, ?_⟩ <;> with_unfolding_all rfl

/-- C23, amended.  Replenish step of `throttle_charge` (no overflow): when `now > clock` the
tokens generated are `speed * (now - clock) / HZ` rounded down, the remainder is neither added
nor changed, the balance becomes the old balance plus the tokens generated if that is at most the
ceiling `amount + burst`, else the ceiling if the old balance was below it, else it is left as it
was, and the clock becomes `now`; when `now ≤ clock` the step changes nothing. -/
theorem replenish_step (HZ now : Nat) (th : throttle) (amount : Int)
    (h : charge_in_range HZ now th amount) :
    (th.time < now →
      throttle_replenish HZ now th amount =
        { th with
          state :=
            if th.state + ((th.speed * (now - th.time) / HZ : Nat) : Int) ≤ amount + th.burst
            then th.state + ((th.speed * (now - th.time) / HZ : Nat) : Int)
            else if th.state < amount + th.burst then amount + th.burst
            else th.state
          time := now }) ∧
    (now ≤ th.time → throttle_replenish HZ now th amount = th) := by
  refine ⟨throttle_replenish_closed HZ now th amount h, fun hle => ?_⟩
  unfold charge_in_range throttle.wf at h
  obtain ⟨-, ⟨-, -, -, -, w5, -, -⟩, hnow, hnear1, -, -, -, -, -, -, -⟩ := h
  exact throttle_replenish_not_before _ _ _ _
    (time_before_false_of_le _ _ (by omega) (by omega) hle (by omega))

/-- C23 amended, on a bucket of speed 1000 and burst 100 idle for 500 ticks with remainder 7:
the balance goes from 0 to the ceiling 110 and the remainder stays 7. -/
theorem replenish_step_witness :
    throttle_replenish 1000 500 ⟨1000, 100, 100, 7, 0, 0⟩ 10 = ⟨1000, 100, 100, 7, 500, 110⟩ :=
  ((replenish_step 1000 500 ⟨1000, 100, 100, 7, 0, 0⟩ 10 (by decide)).1 (by decide)).trans
    (by decide)

/-- C24 as stated fails when the horizon is clamped: on a fresh bucket of speed 1000 with a
latency bound of 1000 ticks (HZ 1000) a charge of 2000 moves the clock by 1000 ticks only, which
stand for `1000 * 1000` token units, while the balance is raised by the full 2000 tokens
(`1000 * 2000` units). -/
theorem debt_tokens_counterexample :
    throttle_replenish 1000 0 ⟨1000, 0, 1000, 0, 0, 0⟩ 2000 = ⟨1000, 0, 1000, 0, 0, 0⟩ ∧
    throttle_charge 1000 0 ⟨1000, 0, 1000, 0, 0, 0⟩ 2000
      = some ⟨1000, 0, 1000, 0, 1000, 2000⟩ ∧
    ((1000 : Int) * 2000 + 0 ≠ 1000 * 0 + 0 + 1000 * ((1000 : Int) - 0)) := by
  refine ⟨?_, ?_, by decide⟩ <;> with_unfolding_all rfl

/-- C24, amended.  In the debt step of `throttle_charge` (speed > 0, amount greater than the
balance left by the replenish step, no overflow, wrap-around aside) the balance is increased by
the tokens of the whole computed step `ceil (deficit * HZ / speed)`, whether or not the clock was
clamped: `HZ * balance' + remainder' = HZ * balance + remainder + speed * step` and
`remainder' < HZ`.  When the horizon is not clamped (`base + step ≤ now + latency`) the new clock
is `base + step`, so that is `speed * (clock' - base)`. -/
theorem debt_step_tokens (HZ now : Nat) (th : throttle) (amount : Int)
    (h : charge_in_range HZ now th amount) (hs : th.speed ≠ 0)
    (hfar : th.time ≤ now + 2 ^ 62) (hnw : now < 2 ^ 63)
    (hlt : (throttle_replenish HZ now th amount).state < amount) :
    ∃ th', throttle_charge HZ now th amount = some th' ∧
      (HZ : Int) * th'.state + th'.remain
        = HZ * (throttle_replenish HZ now th amount).state
          + (throttle_replenish HZ now th amount).remain
          + (th.speed : Int) *
            (div_round_up
              ((amount - (throttle_replenish HZ now th amount).state).toNat * HZ) th.speed : Nat) ∧
      th'.remain < HZ ∧
      ((throttle_replenish HZ now th amount).time +
          div_round_up
            ((amount - (throttle_replenish HZ now th amount).state).toNat * HZ) th.speed
          ≤ now + th.latency →
        (HZ : Int) * th'.state + th'.remain
          = HZ * (throttle_replenish HZ now th amount).state
            + (throttle_replenish HZ now th amount).remain
            + (th.speed : Int) *
              ((th'.time : Int) - (throttle_replenish HZ now th amount).time)) := by
  obtain ⟨s1, hrep, -, hdebt⟩ :=
    throttle_charge_closed HZ now th amount h hs (by omega) (by omega)
  rw [hrep] at hlt ⊢
  obtain ⟨d, hd, -, -, hch⟩ := hdebt hlt
  clear hdebt
  have hHZ : 0 < HZ := h.1
  have hdn : (amount - s1).toNat = d := by
    have : amount - s1 = (d : Int) := hd.symm
    rw [this]; exact Int.toNat_ofNat d
  simp only [] at hlt ⊢
  rw [hdn]
  obtain ⟨S, hS⟩ : ∃ S, S = div_round_up (d * HZ) th.speed := ⟨_, rfl⟩
  rw [← hS] at hch ⊢
  have hdm := Nat.div_add_mod (S * th.speed + th.remain) HZ
  have hml := Nat.mod_lt (S * th.speed + th.remain) hHZ
  obtain ⟨q, hq⟩ : ∃ q, q = (S * th.speed + th.remain) / HZ := ⟨_, rfl⟩
  obtain ⟨r', hr'⟩ : ∃ r', r' = (S * th.speed + th.remain) % HZ := ⟨_, rfl⟩
  rw [← hq, ← hr'] at hdm hch
  rw [← hr'] at hml
  have hdmI : (HZ : Int) * q + r' = S * th.speed + th.remain := by exact_mod_cast hdm
  refine ⟨_, hch, ?_, hml, ?_⟩
  · show (HZ : Int) * (s1 + (q : Int)) + (r' : Int) = HZ * s1 + th.remain + th.speed * S
    linarith
  · intro hnc
    show (HZ : Int) * (s1 + (q : Int)) + (r' : Int)
      = HZ * s1 + th.remain
        + th.speed * (((min (max th.time now + S) (now + th.latency) : Nat) : Int)
            - ((max th.time now : Nat) : Int))
    rw [min_eq_left hnc]
    push_cast
    linarith

/-- C24 amended, on the clamped charge of 2000 at speed 1000: the balance gains the tokens of
the whole step of 2000 ticks. -/
theorem debt_step_tokens_witness :
    ∃ th', throttle_charge 1000 0 ⟨1000, 0, 1000, 0, 0, 0⟩ 2000 = some th' ∧
      ((1000 : Nat) : Int) * th'.state + th'.remain
        = ((1000 : Nat) : Int) * (throttle_replenish 1000 0 ⟨1000, 0, 1000, 0, 0, 0⟩ 2000).state
          + (throttle_replenish 1000 0 ⟨1000, 0, 1000, 0, 0, 0⟩ 2000).remain
          + ((1000 : Nat) : Int) *
            (div_round_up
              (((2000 : Int) - (throttle_replenish 1000 0 ⟨1000, 0, 1000, 0, 0, 0⟩ 2000).state).toNat
                * 1000) 1000 : Nat) ∧
      th'.remain < 1000 ∧
      ((throttle_replenish 1000 0 ⟨1000, 0, 1000, 0, 0, 0⟩ 2000).time +
          div_round_up
            (((2000 : Int) - (throttle_replenish 1000 0 ⟨1000, 0, 1000, 0, 0, 0⟩ 2000).state).toNat
              * 1000) 1000
          ≤ 0 + 1000 →
        ((1000 : Nat) : Int) * th'.state + th'.remain
          = ((1000 : Nat) : Int) * (throttle_replenish 1000 0 ⟨1000, 0, 1000, 0, 0, 0⟩ 2000).state
            + (throttle_replenish 1000 0 ⟨1000, 0, 1000, 0, 0, 0⟩ 2000).remain
            + ((1000 : Nat) : Int) *
              ((th'.time : Int) - (throttle_replenish 1000 0 ⟨1000, 0, 1000, 0, 0, 0⟩ 2000).time)) :=
  debt_step_tokens 1000 0 ⟨1000, 0, 1000, 0, 0, 0⟩ 2000 (by decide) (by decide) (by decide)
    (by decide) (by with_unfolding_all decide)

theorem throttle_timeout_pos (th' : throttle) (now : Nat) (hs : th'.speed ≠ 0)
    (hlat : 0 < th'.latency) (hgt : now < th'.time) (ht : th'.time < 18446744073709551616)
    (hnear : th'.time < now + 9223372036854775808) : 0 < throttle_timeout th' now := by
  have hbf : time_before th'.time now = false :=
    time_before_false_of_le th'.time now ht (by omega) (le_of_lt hgt) hnear
  rw [throttle_timeout_eq th' now hs hbf, subU64_of_le _ _ (le_of_lt hgt) ht]
  exact lt_min (by omega) hlat

/-- C25 as stated fails for a latency bound of 0 (a bucket whose latency was never configured):
on such a bucket of speed 1000 that is idle at `now = 0` a charge of 1 has a positive deficit
(the replenish step leaves balance 0), yet the clock stays at `now` and `throttle_timeout` stays
0. -/
theorem idle_to_debt_counterexample :
    (throttle_replenish 1000 0 ⟨1000, 0, 0, 0, 0, 0⟩ 1).state < 1 ∧
    throttle_charge 1000 0 ⟨1000, 0, 0, 0, 0, 0⟩ 1 = some ⟨1000, 0, 0, 0, 0, 1⟩ ∧
    throttle_timeout ⟨1000, 0, 0, 0, 0, 1⟩ 0 = 0 := by
  refine ⟨?_, ?_, ?_⟩
  · with_unfolding_all decide
  · with_unfolding_all rfl
  · with_unfolding_all rfl

/-- C25, amended.  For a bucket with speed > 0 and a latency bound of at least one tick that is
Idle at `now` (clock ≤ now; no overflow, wrap-around aside), `throttle_charge amount` leaves it
InDebt (clock > now and `throttle_timeout now > 0`) if and only if the amount is greater than the
balance after the replenish step; and any bucket is Idle again, `throttle_timeout now' = 0`, at
every `now'` from its clock on (less than half the jiffies range later), with no call in
between. -/
theorem idle_to_debt (HZ now : Nat) (th : throttle) (amount : Int) (b : throttle) (now' : Nat)
    (h : charge_in_range HZ now th amount) (hs : th.speed ≠ 0) (hidle : th.time ≤ now)
    (hlat : 0 < th.latency) (hnw : now < 2 ^ 63) :
    (∃ th', throttle_charge HZ now th amount = some th' ∧
      ((now < th'.time ∧ 0 < throttle_timeout th' now) ↔
        (throttle_replenish HZ now th amount).state < amount)) ∧
    (b.time ≤ now' → now' < 2 ^ 64 → now' ≤ b.time + 2 ^ 63 → throttle_timeout b now' = 0) := by
  constructor
  · obtain ⟨s1, hrep, hnd, hdebt⟩ :=
      throttle_charge_closed HZ now th amount h hs (by omega) (by omega)
    rw [hrep]
    have hmax : max th.time now = now := max_eq_right hidle
    rw [hmax] at hnd hdebt
    unfold charge_in_range throttle.wf at h
    obtain ⟨hHZ, ⟨w1, w2, w3, w4, w5, w6, w7⟩, -, -, -, -, -, -, -, -, -⟩ := h
    rcases le_or_lt amount s1 with hc | hc
    · refine ⟨_, hnd hc, ?_⟩
      clear hnd hdebt
      constructor
      · intro hx
        have : now < now := hx.1
        omega
      · intro hx
        have : s1 < amount := hx
        omega
    · obtain ⟨d, hd, hd0, hdH, hch⟩ := hdebt hc
      clear hnd hdebt
      refine ⟨_, hch, ?_⟩
      have hsp : 0 < th.speed := Nat.pos_of_ne_zero hs
      have hS0 := div_round_up_pos (d * HZ) th.speed hsp (Nat.mul_pos hd0 hHZ)
      have hSle := div_round_up_le (d * HZ) th.speed hsp
      obtain ⟨S, hS⟩ : ∃ S, S = div_round_up (d * HZ) th.speed := ⟨_, rfl⟩
      rw [← hS] at hS0 hSle ⊢
      have hgt : now < min (now + S) (now + th.latency) := lt_min (by omega) (by omega)
      have hle : min (now + S) (now + th.latency) ≤ now + th.latency := min_le_right _ _
      obtain ⟨T, hT⟩ : ∃ T, T = min (now + S) (now + th.latency) := ⟨_, rfl⟩
      rw [← hT] at hgt hle ⊢
      refine ⟨fun _ => hc, fun _ => ⟨hgt, ?_⟩⟩
      refine throttle_timeout_pos _ now ?_ ?_ ?_ ?_ ?_
      · exact hs
      · exact hlat
      · exact hgt
      · show T < 18446744073709551616; omega
      · show T < now + 9223372036854775808; omega
  · intro h1 h2 h3
    rcases Nat.lt_or_ge b.time now' with hlt | hge
    · have hb : time_before b.time now' = true :=
        time_before_true_of_lt _ _ (by omega) h2 hlt (by omega)
      unfold throttle_timeout
      simp only [hb, if_true]
      split_ifs <;> rfl
    · exact throttle_timeout_at_clock b now' (by omega) h2

/-- C25 amended, on an idle bucket of speed 1000 with a latency bound of 1000 ticks: a charge of
500 leaves it in debt; a bucket whose clock is at 500 is idle at 700. -/
theorem idle_to_debt_witness :
    (∃ th', throttle_charge 1000 0 ⟨1000, 0, 1000, 0, 0, 0⟩ 500 = some th' ∧
      ((0 < th'.time ∧ 0 < throttle_timeout th' 0) ↔
        (throttle_replenish 1000 0 ⟨1000, 0, 1000, 0, 0, 0⟩ 500).state < 500)) ∧
    ((500 : Nat) ≤ 700 → 700 < 2 ^ 64 → 700 ≤ 500 + 2 ^ 63 →
      throttle_timeout ⟨1000, 0, 1000, 0, 500, 500⟩ 700 = 0) :=
  idle_to_debt 1000 0 ⟨1000, 0, 1000, 0, 0, 0⟩ 500 ⟨1000, 0, 1000, 0, 500, 500⟩ 700 (by decide)
    (by decide) (by decide) (by decide) (by decide)

/-- One exact accounting step: it returns, keeps the speed, lowers `carry_level` by
`HZ * bytes` and leaves a remainder below `HZ`. -/
theorem account_exact (HZ now : Nat) (th : throttle) (bytes : Nat)
    (H : account_exact_range HZ now th bytes) :
    ∃ th', throttle_account HZ now th bytes = some th' ∧ th'.speed = th.speed ∧
      carry_level HZ th' = carry_level HZ th - HZ * bytes ∧ th'.remain < HZ := by
  unfold account_exact_range at H
  obtain ⟨hr, hs, hrem, hnow, hnl, hnc⟩ := H
  obtain ⟨s1, -, -, -, -, heq, hnd, hdebt⟩ := throttle_charge_spec HZ now th bytes hr hs
  have hs1 : s1 = th.state := heq hnow
  rw [hs1] at hnd hdebt
  have hmax : max th.time now = th.time := max_eq_left hnow
  rw [hmax] at hnd hdebt
  unfold charge_in_range throttle.wf at hr
  obtain ⟨hHZ, ⟨w1, w2, w3, w4, w5, w6, w7⟩, -, -, -, hc0, hc1, hs0, hs1', -, hdef⟩ := hr
  unfold throttle_account carry_level
  rcases le_or_lt (bytes : Int) th.state with hc | hc
  · rw [hnd hc]
    clear hnd hdebt hnc
    simp only []
    rw [wrapS64_of_range _ (by omega) (by omega)]
    refine ⟨_, rfl, rfl, ?_, hrem⟩
    show (HZ : Int) * (th.state - bytes) + th.remain - th.speed * th.time = _
    ring
  · obtain ⟨d, hd, hd0, hdH, hch⟩ := hdebt hc
    have hlat := hnc hc
    clear hnd hdebt hnc hdef
    have hdn : ((bytes : Int) - th.state).toNat = d := by omega
    rw [hdn] at hlat
    have hsp : 0 < th.speed := Nat.pos_of_ne_zero hs
    obtain ⟨hm1, hm2⟩ := div_round_up_mul (d * HZ) th.speed hsp
    have hSle := div_round_up_le (d * HZ) th.speed hsp
    obtain ⟨S, hS⟩ : ∃ S, S = div_round_up (d * HZ) th.speed := ⟨_, rfl⟩
    rw [← hS] at hch hm1 hm2 hSle hlat
    rw [clamp_eq now th.latency th.time S hnow (by omega) hnl w3 (by omega),
      Nat.min_eq_left hlat] at hch
    have hdm := Nat.div_add_mod (S * th.speed + th.remain) HZ
    have hml := Nat.mod_lt (S * th.speed + th.remain) hHZ
    have hq2 : (S * th.speed + th.remain) / HZ ≤ S * th.speed + th.remain := Nat.div_le_self _ _
    obtain ⟨q, hq⟩ : ∃ q, q = (S * th.speed + th.remain) / HZ := ⟨_, rfl⟩
    obtain ⟨r', hr'⟩ : ∃ r', r' = (S * th.speed + th.remain) % HZ := ⟨_, rfl⟩
    rw [← hq, ← hr'] at hdm hch
    rw [← hr'] at hml
    rw [← hq] at hq2
    have hdmI : (HZ : Int) * q + r' = S * th.speed + th.remain := by exact_mod_cast hdm
    rw [hch]
    simp only []
    rw [wrapS64_of_range _ (by omega) (by omega)]
    refine ⟨_, rfl, rfl, ?_, hml⟩
    show (HZ : Int) * (th.state + (q : Int) - bytes) + (r' : Int)
        - th.speed * ((th.time + S : Nat) : Int)
      = (HZ : Int) * th.state + th.remain - th.speed * th.time - HZ * bytes
    push_cast
    linarith

/-- C26. Exact accounting through the remainder carry.  For a bandwidth bucket with speed > 0
and remainder below `HZ`, when the accounting step (`throttle_charge bytes`, then
`balance -= bytes`) runs with no time elapsed since the clock and without reaching the latency
clamp (no overflow), `carry_level = HZ * balance + remainder - speed * clock` drops by exactly
`HZ * bytes` and the new remainder is below `HZ`; hence accounting `c1` then `c2` and accounting
`c1 + c2` once reach the same `carry_level`. -/
theorem account_carry_exact (HZ now : Nat) (th : throttle) (c1 c2 : Nat)
    (H1 : account_exact_range HZ now th c1) :
    ∃ th1, throttle_account HZ now th c1 = some th1 ∧
      (HZ : Int) * th1.state + th1.remain - (th.speed : Int) * th1.time
        = HZ * th.state + th.remain - (th.speed : Int) * th.time - HZ * c1 ∧
      th1.remain < HZ ∧
      (account_exact_range HZ now th1 c2 → account_exact_range HZ now th (c1 + c2) →
        ∃ th2 th3, throttle_account HZ now th1 c2 = some th2 ∧
          throttle_account HZ now th ((c1 + c2 : Nat) : Int) = some th3 ∧
          carry_level HZ th2 = carry_level HZ th3 ∧
          carry_level HZ th3 = carry_level HZ th - HZ * ((c1 + c2 : Nat) : Int)) := by
  obtain ⟨th1, e1, sp1, l1, r1⟩ := account_exact HZ now th c1 H1
  refine ⟨th1, e1, ?_, r1, ?_⟩
  · unfold carry_level at l1
    rw [sp1] at l1
    exact l1
  · intro H2 H12
    obtain ⟨th2, e2, -, l2, -⟩ := account_exact HZ now th1 c2 H2
    obtain ⟨th3, e3, -, l3, -⟩ := account_exact HZ now th (c1 + c2) H12
    refine ⟨th2, th3, e2, e3, ?_, l3⟩
    rw [l2, l3, l1]
    push_cast
    ring

/-- C26 at speed 1500 and HZ 1000, where a tick buys one and a half units: accounting 1 then 2
and accounting 3 reach the same `carry_level`. -/
theorem account_carry_exact_witness :
    ∃ th1, throttle_account 1000 0 ⟨1500, 0, 100000, 0, 0, 0⟩ (1 : Nat) = some th1 ∧
      ((1000 : Nat) : Int) * th1.state + th1.remain - ((1500 : Nat) : Int) * th1.time
        = ((1000 : Nat) : Int) * 0 + (0 : Nat) - ((1500 : Nat) : Int) * (0 : Nat)
          - ((1000 : Nat) : Int) * (1 : Nat) ∧
      th1.remain < 1000 ∧
      (account_exact_range 1000 0 th1 2 →
        account_exact_range 1000 0 ⟨1500, 0, 100000, 0, 0, 0⟩ (1 + 2) →
        ∃ th2 th3, throttle_account 1000 0 th1 (2 : Nat) = some th2 ∧
          throttle_account 1000 0 ⟨1500, 0, 100000, 0, 0, 0⟩ ((1 + 2 : Nat) : Int) = some th3 ∧
          carry_level 1000 th2 = carry_level 1000 th3 ∧
          carry_level 1000 th3
            = carry_level 1000 ⟨1500, 0, 100000, 0, 0, 0⟩
              - ((1000 : Nat) : Int) * ((1 + 2 : Nat) : Int)) :=
  account_carry_exact 1000 0 ⟨1500, 0, 100000, 0, 0, 0⟩ 1 2 (by with_unfolding_all decide)

/-- C27. Non-negative balance invariant.  For a bucket with speed > 0 and an amount ≥ 0 (no
64-bit overflow) the balance after `throttle_charge amount` is at least the amount, whatever the
balance was before, negative included, and whether or not the horizon was clamped; consequently
every command of `iolimit_virtinfo` (bandwidth accounting, exempt and non-exempt iops charge,
dirty pre-charge, and the ones that charge nothing) started from balances ≥ 0 leaves both
balances ≥ 0. -/
theorem balance_stays_nonneg (HZ now : Nat) (th : throttle) (amount : Int)
    (cfg : kconfig) (current : task) (wakes : List wakeup) (ub : user_beancounter)
    (io : iolimit) (cmd : virtinfo_cmd) (arg : Nat) (old_ret : Int) :
    (charge_in_range HZ now th amount → th.speed ≠ 0 →
      ∃ th', throttle_charge HZ now th amount = some th' ∧ amount ≤ th'.state) ∧
    (ub.private_data2 = some io → 0 ≤ io.throttle.state → 0 ≤ io.iops.state →
      (cmd = .VIRTINFO_IO_ACCOUNT → io.throttle.speed ≠ 0 →
        charge_in_range cfg.HZ now io.throttle (wrapS64 arg)) →
      ((cmd = .VIRTINFO_IO_OP_ACCOUNT ∨ cmd = .VIRTINFO_IO_FUSE_REQ) → io.iops.speed ≠ 0 →
        charge_in_range cfg.HZ now io.iops 1) →
      (cmd = .VIRTINFO_IO_BALANCE_DIRTY → io.throttle.speed ≠ 0 →
        charge_in_range cfg.HZ now io.throttle
          (wrapS64 (((addU64 ub.dirty_pages_exact arg : Nat) : Int)
            * (2 ^ cfg.PAGE_SHIFT : Nat)))) →
      ∃ r io', iolimit_virtinfo cfg now current wakes ub cmd arg old_ret = some r ∧
        r.ub.private_data2 = some io' ∧ 0 ≤ io'.throttle.state ∧ 0 ≤ io'.iops.state) := by
  constructor
  · intro h hs
    obtain ⟨th', hch, -, -, -, hge, -⟩ := throttle_charge_state_ge HZ now th amount h hs
    exact ⟨th', hch, hge⟩
  · intro hio h0t h0i hA hO hD
    unfold iolimit_virtinfo
    rw [hio]
    simp only []
    by_cases hboth : io.throttle.speed = 0 ∧ io.iops.speed = 0
    · rw [if_pos hboth]
      exact ⟨_, io, rfl, hio, h0t, h0i⟩
    · rw [if_neg hboth]
      cases cmd with
      | VIRTINFO_IO_ACCOUNT =>
        simp only []
        by_cases hs : io.throttle.speed = 0
        · rw [if_pos hs]; exact ⟨_, io, rfl, hio, h0t, h0i⟩
        · rw [if_neg hs]
          have hr := hA rfl hs
          obtain ⟨th', hch, -, -, -, hge, hlt⟩ :=
            throttle_charge_state_ge cfg.HZ now io.throttle (wrapS64 arg) hr hs
          rw [hch]
          simp only []
          have hc0 : 0 ≤ wrapS64 (arg : Int) := hr.2.2.2.2.2.1
          refine ⟨_, _, rfl, rfl, ?_, h0i⟩
          show 0 ≤ wrapS64 (th'.state - wrapS64 (arg : Int))
          rw [wrapS64_of_range _ (by omega) (by omega)]
          omega
      | VIRTINFO_IO_FUSE_REQ =>
        simp only []
        by_cases hs : io.iops.speed = 0
        · rw [if_pos hs]; exact ⟨_, io, rfl, hio, h0t, h0i⟩
        · rw [if_neg hs]
          have hr := hO (Or.inr rfl) hs
          obtain ⟨th', hch, -, -, -, hge, hlt⟩ :=
            throttle_charge_state_ge cfg.HZ now io.iops 1 hr hs
          rw [hch]
          simp only []
          refine ⟨_, _, rfl, rfl, h0t, ?_⟩
          show 0 ≤ (if th'.state > 1 ∨ ¬ current.PF_SWAPWRITE = true
            then ({ th' with state := wrapS64 (th'.state - 1) } : throttle) else th').state
          split_ifs
          · show 0 ≤ wrapS64 (th'.state - 1)
            rw [wrapS64_of_range _ (by omega) (by omega)]
            omega
          · omega
      | VIRTINFO_IO_OP_ACCOUNT =>
        simp only []
        by_cases hs : io.iops.speed = 0
        · rw [if_pos hs]; exact ⟨_, io, rfl, hio, h0t, h0i⟩
        · rw [if_neg hs]
          have hr := hO (Or.inl rfl) hs
          obtain ⟨th', hch, -, -, -, hge, hlt⟩ :=
            throttle_charge_state_ge cfg.HZ now io.iops 1 hr hs
          rw [hch]
          simp only []
          refine ⟨_, _, rfl, rfl, h0t, ?_⟩
          show 0 ≤ (if th'.state > 1 ∨ ¬ current.PF_SWAPWRITE = true
            then ({ th' with state := wrapS64 (th'.state - 1) } : throttle) else th').state
          split_ifs
          · show 0 ≤ wrapS64 (th'.state - 1)
            rw [wrapS64_of_range _ (by omega) (by omega)]
            omega
          · omega
      | VIRTINFO_IO_PREPARE =>
        simp only []
        split_ifs <;> exact ⟨_, io, rfl, hio, h0t, h0i⟩
      | VIRTINFO_IO_JOURNAL =>
        simp only []
        split_ifs <;> exact ⟨_, io, rfl, hio, h0t, h0i⟩
      | VIRTINFO_IO_READAHEAD =>
        simp only []
        split_ifs <;> exact ⟨_, io, rfl, hio, h0t, h0i⟩
      | VIRTINFO_IO_CONGESTION =>
        simp only []
        split_ifs <;> exact ⟨_, io, rfl, hio, h0t, h0i⟩
      | VIRTINFO_IO_BALANCE_DIRTY =>
        simp only []
        unfold iolimit_balance_dirty
        simp only []
        by_cases hs : io.throttle.speed = 0
        · rw [if_pos hs]; exact ⟨_, io, rfl, hio, h0t, h0i⟩
        · rw [if_neg hs]
          split_ifs
          · exact ⟨_, io, rfl, hio, h0t, h0i⟩
          · exact ⟨_, io, rfl, hio, h0t, h0i⟩
          · have hr := hD rfl hs
            obtain ⟨th', hch, -, -, -, hge, hlt⟩ :=
              throttle_charge_state_ge cfg.HZ now io.throttle _ hr hs
            rw [hch]
            have hc0 := hr.2.2.2.2.2.1
            exact ⟨_, _, rfl, rfl, le_trans hc0 hge, h0i⟩
      | other => exact ⟨_, io, rfl, hio, h0t, h0i⟩

/-- C27 at HZ 1000: a charge of 2000 on a bucket of speed 1000 holding -5 leaves at least 2000
(the horizon is clamped to the latency bound of 1000 ticks), and accounting 4096 bytes on a
tenant with balances 0 leaves both balances ≥ 0. -/
theorem balance_stays_nonneg_witness :
    (∃ th', throttle_charge 1000 0 ⟨1000, 0, 1000, 0, 0, -5⟩ 2000 = some th' ∧
      2000 ≤ th'.state) ∧
    (∃ r io', iolimit_virtinfo ⟨1000, 12, 64, 4⟩ 0 ⟨false, false⟩ []
          ⟨some ⟨⟨1000, 0, 1000, 0, 0, 0⟩, ⟨10, 0, 1000, 0, 0, 0⟩⟩, false, 0, 0⟩
          .VIRTINFO_IO_ACCOUNT 4096 0 = some r ∧
        r.ub.private_data2 = some io' ∧ 0 ≤ io'.throttle.state ∧ 0 ≤ io'.iops.state) :=
  ⟨(balance_stays_nonneg 1000 0 ⟨1000, 0, 1000, 0, 0, -5⟩ 2000 ⟨1000, 12, 64, 4⟩ ⟨false, false⟩ []
      ⟨some ⟨⟨1000, 0, 1000, 0, 0, 0⟩, ⟨10, 0, 1000, 0, 0, 0⟩⟩, false, 0, 0⟩
      ⟨⟨1000, 0, 1000, 0, 0, 0⟩, ⟨10, 0, 1000, 0, 0, 0⟩⟩ .VIRTINFO_IO_ACCOUNT 4096 0).1
      (by decide) (by decide),
   (balance_stays_nonneg 1000 0 ⟨1000, 0, 1000, 0, 0, -5⟩ 2000 ⟨1000, 12, 64, 4⟩ ⟨false, false⟩ []
      ⟨some ⟨⟨1000, 0, 1000, 0, 0, 0⟩, ⟨10, 0, 1000, 0, 0, 0⟩⟩, false, 0, 0⟩
      ⟨⟨1000, 0, 1000, 0, 0, 0⟩, ⟨10, 0, 1000, 0, 0, 0⟩⟩ .VIRTINFO_IO_ACCOUNT 4096 0).2
      rfl (by decide) (by decide) (fun _ _ => by with_unfolding_all decide)
      (fun h => absurd h (by decide)) (fun h => absurd h (by decide))⟩

theorem iolimit_wait_cons (t : Nat) (w : wakeup) (ws : List wakeup) :
    iolimit_wait t (w :: ws) =
      if w.fatal then { sleeps := [t], returned := true }
      else if w.left ≠ 0 ∧ min (throttle_timeout w.iolimit.throttle w.jiffies) w.left ≠ 0 then
        { sleeps := t :: (iolimit_wait
              (min (throttle_timeout w.iolimit.throttle w.jiffies) w.left) ws).sleeps
          returned := (iolimit_wait
              (min (throttle_timeout w.iolimit.throttle w.jiffies) w.left) ws).returned }
      else { sleeps := [t], returned := true } := by
  rw [iolimit_wait]
  by_cases hf : w.fatal = true
  · simp only [hf, if_true]
  · by_cases hl : w.left = 0
    · simp [hf, hl]
    · by_cases hm : min (throttle_timeout w.iolimit.throttle w.jiffies) w.left = 0
      · simp [hf, hl, hm]
      · simp [hf, hl, hm]

theorem iolimit_wait_sleeps (t : Nat) (ws : List wakeup) :
    (iolimit_wait t ws).sleeps = t :: (iolimit_wait t ws).sleeps.tail := by
  cases ws with
  | nil => rfl
  | cons w ws =>
    rw [iolimit_wait_cons]
    split_ifs <;> rfl

theorem iolimit_wait_next :
    ∀ (ws : List wakeup) (t : Nat), ∀ p ∈ ws.zip (iolimit_wait t ws).sleeps.tail,
      p.2 = min (throttle_timeout p.1.iolimit.throttle p.1.jiffies) p.1.left := by
  intro ws
  induction ws with
  | nil => intro t p hp; simp at hp
  | cons w ws ih =>
    intro t p hp
    rw [iolimit_wait_cons] at hp
    split_ifs at hp with hf hc
    · simp at hp
    · rw [List.tail_cons, iolimit_wait_sleeps, List.zip_cons_cons, List.mem_cons] at hp
      rcases hp with hp | hp
      · rw [hp]
      · exact ih _ p hp
    · simp at hp

theorem iolimit_wait_chain :
    ∀ (ws : List wakeup) (t : Nat),
      (∀ p ∈ ws.zip (iolimit_wait t ws).sleeps, p.1.left ≤ p.2) →
      List.Chain (· ≥ ·) t (iolimit_wait t ws).sleeps.tail ∧
      ∀ s ∈ (iolimit_wait t ws).sleeps, s ≤ t := by
  intro ws
  induction ws with
  | nil =>
    intro t _
    exact ⟨List.Chain.nil, fun s hs => by simp [iolimit_wait] at hs; omega⟩
  | cons w ws ih =>
    intro t hsched
    rw [iolimit_wait_cons] at hsched ⊢
    split_ifs at hsched ⊢ with hf hc
    · exact ⟨List.Chain.nil, fun s hs => by simp at hs; omega⟩
    · rw [List.zip_cons_cons] at hsched
      have h1 : w.left ≤ t := hsched (w, t) (List.mem_cons_self _ _)
      obtain ⟨c1, c2⟩ := ih (min (throttle_timeout w.iolimit.throttle w.jiffies) w.left)
        (fun p hp => hsched p (List.mem_cons_of_mem _ hp))
      have hm : min (throttle_timeout w.iolimit.throttle w.jiffies) w.left ≤ t :=
        le_trans (min_le_right _ _) h1
      constructor
      · rw [List.tail_cons, iolimit_wait_sleeps]
        exact List.Chain.cons hm c1
      · intro s hs
        rw [List.mem_cons] at hs
        rcases hs with hs | hs
        · omega
        · exact le_trans (c2 s hs) hm
    · exact ⟨List.Chain.nil, fun s hs => by simp at hs; omega⟩

theorem throttle_timeout_le_latency (th : throttle) (now : Nat) :
    throttle_timeout th now ≤ th.latency := by
  unfold throttle_timeout
  simp only []
  split_ifs
  · exact Nat.zero_le _
  · exact Nat.zero_le _
  · exact min_le_right _ _

/-- C28. The blocking wait never extends itself.  In `iolimit_wait` the timeout passed to each
successive sleep is `min (throttle_timeout bandwidth now) (time left)` of the wake-up before it,
hence at most the time left over from the previous sleep; when `schedule_timeout` returns at most
the timeout it was given (the hypothesis on the wake-ups), the sleep requests form a
non-increasing sequence bounded by the initial timeout; the initial timeout of the hook,
`iolimit_timeout`, is at most the larger of the two latency bounds; and the loop ends as soon as
a sleep runs to completion (time left 0). -/
theorem wait_never_extends (timeout : Nat) (wakes : List wakeup) (io : iolimit) (now : Nat)
    (w : wakeup) (ws : List wakeup)
    (hsched : ∀ p ∈ wakes.zip (iolimit_wait timeout wakes).sleeps, p.1.left ≤ p.2) :
    (∀ p ∈ wakes.zip (iolimit_wait timeout wakes).sleeps.tail,
      p.2 = min (throttle_timeout p.1.iolimit.throttle p.1.jiffies) p.1.left ∧
      p.2 ≤ p.1.left) ∧
    List.Chain' (· ≥ ·) (iolimit_wait timeout wakes).sleeps ∧
    (∀ s ∈ (iolimit_wait timeout wakes).sleeps, s ≤ timeout) ∧
    iolimit_timeout io now ≤ max io.throttle.latency io.iops.latency ∧
    (w.left = 0 →
      iolimit_wait timeout (w :: ws) = { sleeps := [timeout], returned := true }) := by
  obtain ⟨c1, c2⟩ := iolimit_wait_chain wakes timeout hsched
  refine ⟨?_, ?_, c2, ?_, ?_⟩
  · intro p hp
    have h := iolimit_wait_next wakes timeout p hp
    exact ⟨h, by rw [h]; exact min_le_right _ _⟩
  · rw [iolimit_wait_sleeps]
    exact c1
  · unfold iolimit_timeout
    exact max_le_max (throttle_timeout_le_latency _ _) (throttle_timeout_le_latency _ _)
  · intro h0
    rw [iolimit_wait_cons]
    split_ifs with hf hc
    · rfl
    · exact absurd h0 hc.1
    · rfl

/-- C28 on a waiter with 500 ticks to go that is woken after 100 ticks while the bandwidth
bucket is still 400 ticks in debt, and then sleeps to completion: the sleeps are 500 and 400. -/
theorem wait_never_extends_witness :
    List.Chain' (· ≥ ·)
      (iolimit_wait 500
        [⟨400, false, 200, ⟨⟨1000, 0, 1000, 0, 600, 0⟩, ⟨0, 0, 0, 0, 0, 0⟩⟩⟩,
         ⟨0, false, 600, ⟨⟨1000, 0, 1000, 0, 600, 0⟩, ⟨0, 0, 0, 0, 0, 0⟩⟩⟩]).sleeps ∧
    (∀ s ∈ (iolimit_wait 500
        [⟨400, false, 200, ⟨⟨1000, 0, 1000, 0, 600, 0⟩, ⟨0, 0, 0, 0, 0, 0⟩⟩⟩,
         ⟨0, false, 600, ⟨⟨1000, 0, 1000, 0, 600, 0⟩, ⟨0, 0, 0, 0, 0, 0⟩⟩⟩]).sleeps,
      s ≤ 500) :=
  ⟨(wait_never_extends 500
      [⟨400, false, 200, ⟨⟨1000, 0, 1000, 0, 600, 0⟩, ⟨0, 0, 0, 0, 0, 0⟩⟩⟩,
       ⟨0, false, 600, ⟨⟨1000, 0, 1000, 0, 600, 0⟩, ⟨0, 0, 0, 0, 0, 0⟩⟩⟩]
      ⟨⟨1000, 0, 1000, 0, 600, 0⟩, ⟨0, 0, 0, 0, 0, 0⟩⟩ 100
      ⟨0, false, 600, ⟨⟨1000, 0, 1000, 0, 600, 0⟩, ⟨0, 0, 0, 0, 0, 0⟩⟩⟩ []
      (by with_unfolding_all decide)).2.1,
   (wait_never_extends 500
      [⟨400, false, 200, ⟨⟨1000, 0, 1000, 0, 600, 0⟩, ⟨0, 0, 0, 0, 0, 0⟩⟩⟩,
       ⟨0, false, 600, ⟨⟨1000, 0, 1000, 0, 600, 0⟩, ⟨0, 0, 0, 0, 0, 0⟩⟩⟩]
      ⟨⟨1000, 0, 1000, 0, 600, 0⟩, ⟨0, 0, 0, 0, 0, 0⟩⟩ 100
      ⟨0, false, 600, ⟨⟨1000, 0, 1000, 0, 600, 0⟩, ⟨0, 0, 0, 0, 0, 0⟩⟩⟩ []
      (by with_unfolding_all decide)).2.2.1⟩

/-- C29. Exempt writers are never blocked at pre-admit: for a tenant with iolimit state and every
state of its buckets, a debt horizon in the future included, `VIRTINFO_IO_PREPARE` and
`VIRTINFO_IO_JOURNAL` called by a `PF_SWAPWRITE` task return `NOTIFY_OK` without entering
`iolimit_wait` (no timeout is computed) and leave the beancounter, both buckets included,
unchanged. -/
theorem exempt_never_blocked (cfg : kconfig) (now : Nat) (current : task)
    (wakes : List wakeup) (ub : user_beancounter) (io : iolimit) (cmd : virtinfo_cmd)
    (arg : Nat) (old_ret : Int) (hio : ub.private_data2 = some io)
    (hcmd : cmd = .VIRTINFO_IO_PREPARE ∨ cmd = .VIRTINFO_IO_JOURNAL)
    (hp : current.PF_SWAPWRITE = true) :
    iolimit_virtinfo cfg now current wakes ub cmd arg old_ret
      = some { ret := NOTIFY_OK, ub := ub, wait := none } := by
  rcases hcmd with h | h <;> subst h <;>
    (unfold iolimit_virtinfo; rw [hio]; simp only [hp, if_true]
     split_ifs <;> rfl)

/-- C29 on a tenant whose bandwidth bucket is 500 ticks in debt: the exempt caller is let
through at once, although `iolimit_timeout` is 500. -/
theorem exempt_never_blocked_witness :
    iolimit_timeout ⟨⟨1000, 0, 1000, 0, 600, 0⟩, ⟨10, 0, 1000, 0, 0, 0⟩⟩ 100 = 500 ∧
    iolimit_virtinfo ⟨1000, 12, 64, 4⟩ 100 ⟨true, false⟩
        [⟨0, false, 600, ⟨⟨1000, 0, 1000, 0, 600, 0⟩, ⟨10, 0, 1000, 0, 0, 0⟩⟩⟩]
        ⟨some ⟨⟨1000, 0, 1000, 0, 600, 0⟩, ⟨10, 0, 1000, 0, 0, 0⟩⟩, false, 0, 0⟩
        .VIRTINFO_IO_PREPARE 0 0
      = some { ret := NOTIFY_OK
               ub := ⟨some ⟨⟨1000, 0, 1000, 0, 600, 0⟩, ⟨10, 0, 1000, 0, 0, 0⟩⟩, false, 0, 0⟩
               wait := none } :=
  ⟨by with_unfolding_all rfl,
   exempt_never_blocked ⟨1000, 12, 64, 4⟩ 100 ⟨true, false⟩
    [⟨0, false, 600, ⟨⟨1000, 0, 1000, 0, 600, 0⟩, ⟨10, 0, 1000, 0, 0, 0⟩⟩⟩]
    ⟨some ⟨⟨1000, 0, 1000, 0, 600, 0⟩, ⟨10, 0, 1000, 0, 0, 0⟩⟩, false, 0, 0⟩
    ⟨⟨1000, 0, 1000, 0, 600, 0⟩, ⟨10, 0, 1000, 0, 0, 0⟩⟩ .VIRTINFO_IO_PREPARE 0 0 rfl
    (Or.inl rfl) rfl⟩

theorem throttle_charge_again (HZ now : Nat) (th th1 : throttle) (charge : Int)
    (h : charge_in_range HZ now th charge) (hs : th.speed ≠ 0)
    (hfar : th.time ≤ now + 4611686018427387904) (hnw : now < 9223372036854775808)
    (hch : throttle_charge HZ now th charge = some th1) :
    throttle_charge HZ now th1 charge = some th1 := by
  obtain ⟨th', hch', -, -, -, hge, -⟩ := throttle_charge_state_ge HZ now th charge h hs
  obtain ⟨s1, -, hnd, hdebt⟩ := throttle_charge_closed HZ now th charge h hs hfar hnw
  rw [hch] at hch'
  have e : th' = th1 := (Option.some.inj hch').symm
  rw [e] at hge
  unfold charge_in_range throttle.wf at h
  obtain ⟨hHZ, ⟨w1, w2, w3, w4, w5, w6, w7⟩, -, -, -, -, -, -, -, -, -⟩ := h
  have hm1 : now ≤ max th.time now := le_max_right _ _
  have hm2 : max th.time now ≤ now + 4611686018427387904 := max_le hfar (by omega)
  have htime : now ≤ th1.time ∧ th1.time < now + 9223372036854775808 := by
    rcases le_or_lt charge s1 with hc | hc
    · have h2 := hnd hc
      rw [hch] at h2
      have e2 := Option.some.inj h2
      rw [e2]
      exact ⟨hm1, by show max th.time now < _; omega⟩
    · obtain ⟨d, -, -, -, h2⟩ := hdebt hc
      rw [hch] at h2
      have e2 := Option.some.inj h2
      rw [e2]
      have hle : min (max th.time now + div_round_up (d * HZ) th.speed) (now + th.latency)
          ≤ now + th.latency := min_le_right _ _
      have hge' : now ≤ min (max th.time now + div_round_up (d * HZ) th.speed)
          (now + th.latency) := le_min (by omega) (by omega)
      exact ⟨hge', by show min _ _ < _; omega⟩
  clear hnd hdebt
  have hbf : time_before th1.time now = false :=
    time_before_false_of_le _ _ (by omega) (by omega) htime.1 htime.2
  unfold throttle_charge
  rw [throttle_replenish_not_before _ _ _ _ hbf]
  exact throttle_debt_of_le _ _ _ _ hge

theorem balance_dirty_cases (cfg : kconfig) (now : Nat) (io : iolimit) (ub : user_beancounter)
    (chunk : Nat) (hs : io.throttle.speed ≠ 0) :
    iolimit_balance_dirty cfg now io ub chunk = some ub ∨
    ∃ th1, throttle_charge cfg.HZ now io.throttle
          (wrapS64 (((addU64 ub.dirty_pages_exact chunk : Nat) : Int)
            * (2 ^ cfg.PAGE_SHIFT : Nat))) = some th1 ∧
      iolimit_balance_dirty cfg now io ub chunk
        = some { ub with private_data2 := some { io with throttle := th1 }
                         dirty_exceeded := true } := by
  unfold iolimit_balance_dirty
  rw [if_neg hs]
  simp only []
  split_ifs
  · exact Or.inl rfl
  · exact Or.inl rfl
  · obtain ⟨th', h⟩ := throttle_charge_some cfg.HZ now io.throttle
      (wrapS64 (((addU64 ub.dirty_pages_exact chunk : Nat) : Int) * (2 ^ cfg.PAGE_SHIFT : Nat))) hs
    rw [h]
    exact Or.inr ⟨th', rfl, rfl⟩

/-- C30. The dirty pre-charge is level-triggered: for a bandwidth bucket with speed > 0 (no
overflow in the charge, wrap-around aside), when `iolimit_balance_dirty` is called twice at the
same instant with the same dirty counters and the same pending chunk, the second call returns the
beancounter exactly as the first call left it: clock, balance and remainder (and the
dirty-exceeded flag) are unchanged, no further debt is added. -/
theorem balance_dirty_idempotent (cfg : kconfig) (now : Nat) (io : iolimit)
    (ub : user_beancounter) (chunk : Nat) (hio : ub.private_data2 = some io)
    (hs : io.throttle.speed ≠ 0)
    (hr : charge_in_range cfg.HZ now io.throttle
      (wrapS64 (((addU64 ub.dirty_pages_exact chunk : Nat) : Int) * (2 ^ cfg.PAGE_SHIFT : Nat))))
    (hfar : io.throttle.time ≤ now + 2 ^ 62) (hnw : now < 2 ^ 63) :
    ∃ ub1 io1, iolimit_balance_dirty cfg now io ub chunk = some ub1 ∧
      ub1.private_data2 = some io1 ∧
      ub1.dirty_pages = ub.dirty_pages ∧ ub1.dirty_pages_exact = ub.dirty_pages_exact ∧
      iolimit_balance_dirty cfg now io1 ub1 chunk = some ub1 := by
  rcases balance_dirty_cases cfg now io ub chunk hs with h1 | ⟨th1, hch, h1⟩
  · exact ⟨ub, io, h1, hio, rfl, rfl, h1⟩
  · refine ⟨_, { io with throttle := th1 }, h1, rfl, rfl, rfl, ?_⟩
    obtain ⟨th', hch', hsp, -, -, -, -⟩ := throttle_charge_state_ge cfg.HZ now io.throttle _ hr hs
    rw [hch] at hch'
    have e : th' = th1 := (Option.some.inj hch').symm
    rw [e] at hsp
    have hs1 : ({ io with throttle := th1 } : iolimit).throttle.speed ≠ 0 := by
      show th1.speed ≠ 0
      rw [hsp]; exact hs
    have hagain := throttle_charge_again cfg.HZ now io.throttle th1 _ hr hs (by omega) (by omega) hch
    rcases balance_dirty_cases cfg now { io with throttle := th1 }
        { ub with private_data2 := some { io with throttle := th1 }, dirty_exceeded := true }
        chunk hs1 with h2 | ⟨th2, hch2, h2⟩
    · exact h2
    · have hch2' : throttle_charge cfg.HZ now th1
          (wrapS64 (((addU64 ub.dirty_pages_exact chunk : Nat) : Int)
            * (2 ^ cfg.PAGE_SHIFT : Nat))) = some th2 := hch2
      rw [hagain] at hch2'
      have e2 : th1 = th2 := Option.some.inj hch2'
      rw [h2, ← e2]

/-- C30 on a bucket of speed 1000 with balance 0, 9 dirty pages and 1 pending: the first call
charges 10 pages and sets the flag, the second call changes nothing. -/
theorem balance_dirty_idempotent_witness :
    ∃ ub1 io1, iolimit_balance_dirty ⟨1000, 12, 64, 4⟩ 0
          ⟨⟨1000, 0, 1000, 0, 0, 0⟩, ⟨0, 0, 0, 0, 0, 0⟩⟩
          ⟨some ⟨⟨1000, 0, 1000, 0, 0, 0⟩, ⟨0, 0, 0, 0, 0, 0⟩⟩, false, 9, 9⟩ 1 = some ub1 ∧
      ub1.private_data2 = some io1 ∧
      ub1.dirty_pages = 9 ∧ ub1.dirty_pages_exact = 9 ∧
      iolimit_balance_dirty ⟨1000, 12, 64, 4⟩ 0 io1 ub1 1 = some ub1 :=
  balance_dirty_idempotent ⟨1000, 12, 64, 4⟩ 0 ⟨⟨1000, 0, 1000, 0, 0, 0⟩, ⟨0, 0, 0, 0, 0, 0⟩⟩
    ⟨some ⟨⟨1000, 0, 1000, 0, 0, 0⟩, ⟨0, 0, 0, 0, 0, 0⟩⟩, false, 9, 9⟩ 1 rfl (by decide)
    (by with_unfolding_all decide) (by decide) (by decide)

theorem iolimit_balance_dirty_interleaved_self (cfg : kconfig) (now : Nat) (io : iolimit)
    (ub : user_beancounter) (chunk : Nat) :
    iolimit_balance_dirty_interleaved cfg now io ub chunk io
      = iolimit_balance_dirty cfg now io ub chunk := rfl

/-- C17, the code at a failing input.  A tenant with bandwidth speed 1000, balance 0, 9 dirty
pages and 1 page pending calls `iolimit_balance_dirty` at jiffies 100: the lock-free test finds
speed 1000 and the dirty checks pass.  Before the call takes `ub_lock`, a write of 0 to the
cgroup speed file runs under that lock and leaves speed 0.  `throttle_charge` then runs on the
bucket with speed 0 and a deficit of 40960, and divides by zero (`none`); the same call without
the concurrent write returns. -/
theorem balance_dirty_race_divides_by_zero :
    (iolimit_cgroup_write_u64 100 true
        ⟨some ⟨⟨1000, 0, 1000, 0, 100, 0⟩, ⟨0, 0, 0, 0, 0, 0⟩⟩, false, 9, 9⟩
        .UB_CGROUP_IOLIMIT_SPEED 0).2.private_data2
      = some ⟨⟨0, 0, 1000, 0, 100, 0⟩, ⟨0, 0, 0, 0, 100, 0⟩⟩ ∧
    iolimit_balance_dirty_interleaved ⟨1000, 12, 64, 4⟩ 100
        ⟨⟨1000, 0, 1000, 0, 100, 0⟩, ⟨0, 0, 0, 0, 0, 0⟩⟩
        ⟨some ⟨⟨1000, 0, 1000, 0, 100, 0⟩, ⟨0, 0, 0, 0, 0, 0⟩⟩, false, 9, 9⟩ 1
        ⟨⟨0, 0, 1000, 0, 100, 0⟩, ⟨0, 0, 0, 0, 100, 0⟩⟩
      = none ∧
    iolimit_balance_dirty ⟨1000, 12, 64, 4⟩ 100
        ⟨⟨1000, 0, 1000, 0, 100, 0⟩, ⟨0, 0, 0, 0, 0, 0⟩⟩
        ⟨some ⟨⟨1000, 0, 1000, 0, 100, 0⟩, ⟨0, 0, 0, 0, 0, 0⟩⟩, false, 9, 9⟩ 1
      = some ⟨some ⟨⟨1000, 0, 1000, 0, 1100, 40960⟩, ⟨0, 0, 0, 0, 0, 0⟩⟩, true, 9, 9⟩ := by
  refine ⟨?_, ?_, ?_⟩ <;> with_unfolding_all rfl

end Vziolimit
